import Mathlib

/-!
# Hippias extractor: a verification development

A shallow embedding of the extraction-and-persistence core of the repository
(`cmd/hippias/extractor`, `pkg/oasis`) together with theorems about it.

* Go `int64` values are integers kept in range by `wrap64`.
* Effects (calls made on the chain API, on the processing stages, on the
  database and on the file system) are recorded as explicit traces.
* Answers of the outside world (the upstream node, the durable-write
  callback, the clock, the file system) are parameters.
-/

namespace Hippias

/-! ## Machine integers -/

/-- Two's complement wrap-around of a Go `int64` result. -/
def wrap64 (x : Int) : Int := (x + 9223372036854775808) % 18446744073709551616 - 9223372036854775808

/-- The values a Go `int64` can hold. -/
def isInt64 (x : Int) : Prop := -9223372036854775808 ≤ x ∧ x ≤ 9223372036854775807

instance (x : Int) : Decidable (isInt64 x) := by unfold isInt64; infer_instance

/-! Heights of the chain (`types.go`: `type Height = int64`) are integers; the
arithmetic of the program on them goes through `wrap64`. -/

/-! ## Time (the part of Go's `time` package used by the extractor)

An instant is a number of nanoseconds since the Unix epoch; a `Time` value
also carries the offset (seconds east of UTC) its location has at that
instant, which is what `Year`, `Month` and `Day` consult.  Instants are
unbounded integers: the limits of the library's 64-bit representation are not
modelled. -/

/-- Go `time.Time`: an instant and the zone offset in effect for it. -/
structure Time where
  nanos : Int
  offset : Int
deriving DecidableEq, Repr

namespace Time

/-- Nanoseconds per day. -/
def nanosPerDay : Int := 86400000000000

/-- Method `t.Before(u)`: the instant `t` is before `u`. -/
def Before (t u : Time) : Bool := decide (t.nanos < u.nanos)

/-- Method `t.After(u)`: the instant `t` is after `u`. -/
def After (t u : Time) : Bool := decide (u.nanos < t.nanos)

/-- Method `t.Equal(u)`: same instant, whatever the locations. -/
def Equal (t u : Time) : Bool := decide (t.nanos = u.nanos)

/-- Go `isLeap`. -/
def isLeap (year : Int) : Bool :=
  decide (year % 4 = 0) && (decide (year % 100 ≠ 0) || decide (year % 400 = 0))

/-- Go `daysBefore[m]`: days in a non-leap year before month `m + 1`. -/
def daysBefore (m : Int) : Int :=
  if m ≤ 0 then 0
  else if m = 1 then 31
  else if m = 2 then 59
  else if m = 3 then 90
  else if m = 4 then 120
  else if m = 5 then 151
  else if m = 6 then 181
  else if m = 7 then 212
  else if m = 8 then 243
  else if m = 9 then 273
  else if m = 10 then 304
  else if m = 11 then 334
  else 365

/-- Go `daysSinceEpoch`, counted from 0001-01-01 (the library's absolute epoch
lies a whole number of 400-year cycles before it). -/
def daysSinceEpoch (year : Int) : Int :=
  let y := year - 1
  let n400 := y / 400
  let y1 := y - 400 * n400
  let n100 := y1 / 100
  let y2 := y1 - 100 * n100
  let n4 := y2 / 4
  let y3 := y2 - 4 * n4
  146097 * n400 + 36524 * n100 + 1461 * n4 + 365 * y3

/-- Days from 0001-01-01 to 1970-01-01. -/
def unixEpochDay : Int := 719162

/-- The day number (days since 0001-01-01) of the civil date `year-month-day`,
as computed inside Go's `time.Date`: the month is normalised into the year,
the day is added as is. -/
def civilToDay (year month day : Int) : Int :=
  let m0 := month - 1
  let year := year + m0 / 12
  let m := m0 % 12 + 1
  let d := daysSinceEpoch year + daysBefore (m - 1)
  let d := if isLeap year && decide (3 ≤ m) then d + 1 else d
  d + (day - 1)

/-- Go `time.Date(year, month, day, hour, min, sec, nsec, time.UTC)`. -/
def Date (year month day hour min sec nsec : Int) : Time :=
  { nanos := ((civilToDay year month day - unixEpochDay) * 86400
              + hour * 3600 + min * 60 + sec) * 1000000000 + nsec
    offset := 0 }

/-- The day number (days since 0001-01-01) on which `t` falls in its own
location. -/
def localDay (t : Time) : Int :=
  (t.nanos + t.offset * 1000000000) / nanosPerDay + unixEpochDay

/-- The year and the day within the year of a day number (first half of Go's
`absDate`). -/
def dayToYearDay (d : Int) : Int × Int :=
  let n400 := d / 146097
  let d1 := d - 146097 * n400
  let n100 := d1 / 36524
  let n100 := n100 - n100 / 4
  let d2 := d1 - 36524 * n100
  let n4 := d2 / 1461
  let d3 := d2 - 1461 * n4
  let n1 := d3 / 365
  let n1 := n1 - n1 / 4
  let yday := d3 - 365 * n1
  (400 * n400 + 100 * n100 + 4 * n4 + n1 + 1, yday)

/-- The month and the day of the month of a day within a year (second half of
Go's `absDate`). -/
def yearDayToMonthDay (leap : Bool) (yday : Int) : Int × Int :=
  if leap && decide (yday = 31 + 29 - 1) then (2, 29)
  else
    let day := if leap && decide (yday > 31 + 29 - 1) then yday - 1 else yday
    let month := day / 31
    let e := daysBefore (month + 1)
    if day ≥ e then (month + 2, day - e + 1)
    else (month + 1, day - daysBefore month + 1)

/-- Method `t.Unix()`: whole seconds since the Unix epoch. -/
def Unix (t : Time) : Int := t.nanos / 1000000000

/-- Method `t.UnixNano()`. -/
def UnixNano (t : Time) : Int := t.nanos

/-- Method `t.Year()`. -/
def Year (t : Time) : Int := (dayToYearDay (localDay t)).1

/-- Method `t.Month()`. -/
def Month (t : Time) : Int :=
  let yd := dayToYearDay (localDay t)
  (yearDayToMonthDay (isLeap yd.1) yd.2).1

/-- Method `t.Day()`. -/
def Day (t : Time) : Int :=
  let yd := dayToYearDay (localDay t)
  (yearDayToMonthDay (isLeap yd.1) yd.2).2

end Time

/-! ## Canonical types (`pkg/oasis/types.go`) -/

/-- Block wraps up information about a block of the chain. -/
structure Block where
  ChainID : String
  Height : Int
  Time : Time
deriving DecidableEq, Repr

/-! ## Chain API over gRPC (`pkg/oasis/grpc.go`)

`G` is the type of a ledger snapshot (`staking.Genesis`).  A call that ends in
`log.Fatalf` terminates the process: such a call yields `none`. -/

/-- Go `chainState`: all the data that changes as the extractor syncs. -/
structure chainState (G : Type) where
  Block : Block
  Height : Int
  Snapshot : G

/-- Go `Oasis`: the connection is left out, `State` is a pointer that is nil
until the first sync. -/
structure Oasis (G : Type) where
  State : Option (chainState G)

/-- Answers of the upstream node to the two requests made while syncing:
the consensus block at a height, decoded (`GetBlock` followed by
`decodeBlockAsTendermint`), and the ledger snapshot at a height
(`StateToGenesis`).  `none` is an error answer. -/
structure Upstream (G : Type) where
  GetBlock : Int → Option Block
  StateToGenesis : Int → Option G

namespace Oasis

variable {G : Type}

/-- Go `syncChain`: on a failed snapshot query `log.Fatalf` ends the process
(`none`), so the `return err` after it is never reached; otherwise the new
state is stored and `nil` is returned (second component). -/
def syncChain (up : Upstream G) (_oasis : Oasis G) (block : Block) :
    Option (Oasis G × Option String) :=
  match up.StateToGenesis block.Height with
  | none => none
  | some gen => some ({ State := some { Block := block, Height := block.Height, Snapshot := gen } }, none)

/-- Go `freezeChain`: a copy holding the state pointer loaded at this moment. -/
def freezeChain (oasis : Oasis G) : Oasis G := { State := oasis.State }

/-- Go `AtHeight`: fetches the block, syncs a fresh `newAPI` to it, and then
returns `oasis`, the receiver. -/
def AtHeight (up : Upstream G) (oasis : Oasis G) (height : Int) : Option (Oasis G) :=
  match up.GetBlock height with
  | none => none
  | some tendermintBlock =>
    let newAPI : Oasis G := { State := none }
    match newAPI.syncChain up tendermintBlock with
    | none => none
    | some _ => some oasis

/-- Go `GetBlock`: block and height of the frozen state (`none`: the state
pointer is nil and dereferencing it panics). -/
def GetBlock (oasis : Oasis G) : Option (Block × Int) :=
  match oasis.freezeChain.State with
  | none => none
  | some st => some (st.Block, st.Height)

/-- A sequence of `syncChain` calls on the manager, each with the answers the
node gives at that moment (`none`: one of the calls ends the process). -/
def syncAll (oasis : Oasis G) : List (Upstream G × Block) → Option (Oasis G)
  | [] => some oasis
  | (up, block) :: rest =>
    match oasis.syncChain up block with
    | none => none
    | some (next, _) => syncAll next rest

end Oasis

/-! ## Block iterators and the watch loop (`cmd/hippias/extractor`)

`E` and `T` are the types of staking events and of transactions. -/

section Extractor

variable {E T : Type}

/-- Go `StateSnapshot`: what block iterators receive. -/
structure StateSnapshot (E T : Type) where
  Block : Block
  Events : List E
  Transactions : List T

/-- What the loop reads from the handle returned by one `AtHeight` call:
the block of `GetBlock()` (its second result is discarded), `GetEvents()` and
`GetTransactions()`. -/
structure Frozen (E T : Type) where
  Block : Block
  Events : List E
  Transactions : List T

/-- The chain API as the loop sees it: the answer to the `n`-th `AtHeight`
call of the run (counted from 0) when it asks for height `h`; `none` when that
call ends the process. -/
abbrev Api (E T : Type) := Nat → Int → Option (Frozen E T)

/-- The effects of the watch loop, in the order they happen. -/
inductive Effect (E T : Type) where
  /-- Call `state.Api.AtHeight(currentBlock)`. -/
  | atHeight (currentBlock : Int)
  /-- Call `iterator.Process(snapshot)` on the named stage. -/
  | process (iterator : String) (snapshot : StateSnapshot E T)
  /-- Call `state.Dot.Exec(state.Db, query, height)`. -/
  | exec (query : String) (height : Int)

/-- State of a run of `StartExtractor`. -/
structure Extractor (E T : Type) where
  /-- The variable `lastHeight`. -/
  lastHeight : Int
  /-- Number of `AtHeight` calls made so far. -/
  calls : Nat
  /-- Effects so far, oldest first. -/
  trace : List (Effect E T)
  /-- False once the process has been terminated. -/
  running : Bool

/-- The inner loop of `StartExtractor`:
`for ; blockDistance >= 0; blockDistance-- { ... }`. -/
def backfill (api : Api E T) (iterators : List String) (msgHeight : Int)
    (blockDistance : Int) (s : Extractor E T) : Extractor E T :=
  if 0 ≤ blockDistance then
    let currentBlock := wrap64 (msgHeight - blockDistance)
    match api s.calls currentBlock with
    | none =>
      { s with calls := s.calls + 1, trace := s.trace ++ [Effect.atHeight currentBlock],
               running := false }
    | some fr =>
      let snapshot : StateSnapshot E T :=
        { Block := fr.Block, Events := fr.Events, Transactions := fr.Transactions }
      backfill api iterators msgHeight (wrap64 (blockDistance - 1))
        { s with
          calls := s.calls + 1
          trace := s.trace ++ [Effect.atHeight currentBlock]
            ++ iterators.map (fun iterator => Effect.process iterator snapshot)
            ++ [Effect.exec "updateLatestSyncHeight" fr.Block.Height] }
  else s
termination_by (blockDistance + 1).toNat
decreasing_by
  simp only [wrap64]
  omega

/-- One turn of the outer loop of `StartExtractor`: the handling of one block
notification `msg`. -/
def onBlock (api : Api E T) (iterators : List String) (s : Extractor E T) (msg : Block) :
    Extractor E T :=
  if s.running then
    let blockDistance := wrap64 (wrap64 (msg.Height - s.lastHeight) - 1)
    let s1 := backfill api iterators msg.Height blockDistance s
    if s1.running then { s1 with lastHeight := msg.Height } else s1
  else s

/-- The outer loop of `StartExtractor` over the notifications received. -/
def watch (api : Api E T) (iterators : List String) (s : Extractor E T) (msgs : List Block) :
    Extractor E T :=
  msgs.foldl (onBlock api iterators) s

/-- The stages set up by `StartExtractor`. -/
def iterators : List String := ["SnapshotIterator"]

/-- The start value of `lastHeight`: `var lastHeight oasis.Height`, overwritten
by `row.Scan(&lastHeight)` when `queryLatestSyncHeight` yields a row
(`none`: the query or the scan fails and the zero value stays). -/
def initialHeight (checkpoint : Option Int) : Int :=
  match checkpoint with
  | some h => h
  | none => 0

/-- Go `StartExtractor` once `WatchBlocks` has succeeded, run on the
notifications `msgs`; `checkpoint` is the persisted sync height, if any.
Stages are taken to return from `Process`. -/
def StartExtractor (api : Api E T) (checkpoint : Option Int) (msgs : List Block) :
    Extractor E T :=
  watch api iterators
    { lastHeight := initialHeight checkpoint, calls := 0, trace := [], running := true } msgs

/-- The effects of one turn of the inner loop, for the height `currentBlock`,
when `calls` calls of `AtHeight` have been made before it. -/
def turn (api : Api E T) (iterators : List String) (calls : Nat) (currentBlock : Int) :
    List (Effect E T) :=
  match api calls currentBlock with
  | none => [Effect.atHeight currentBlock]
  | some fr =>
    [Effect.atHeight currentBlock]
      ++ iterators.map (fun iterator => Effect.process iterator
          { Block := fr.Block, Events := fr.Events, Transactions := fr.Transactions })
      ++ [Effect.exec "updateLatestSyncHeight" fr.Block.Height]

/-- The heights `lo, lo + 1, ..., hi` in ascending order (empty if `hi < lo`). -/
def heightRange (lo hi : Int) : List Int :=
  (List.range (hi - lo + 1).toNat).map (fun (i : Nat) => lo + (i : Int))

/-- The heights the loop has processed: the values of `currentBlock` of the
turns of the inner loop, in order. -/
def processedHeights : List (Effect E T) → List Int
  | [] => []
  | Effect.atHeight h :: rest => h :: processedHeights rest
  | _ :: rest => processedHeights rest

/-- The checkpoint values written (`updateLatestSyncHeight`), in order. -/
def checkpoints : List (Effect E T) → List Int
  | [] => []
  | Effect.exec _ h :: rest => h :: checkpoints rest
  | _ :: rest => checkpoints rest

/-- The stage calls made, in order: stage name and height of the block of the
snapshot. -/
def stageCalls : List (Effect E T) → List (String × Int)
  | [] => []
  | Effect.process it snap :: rest => (it, snap.Block.Height) :: stageCalls rest
  | _ :: rest => stageCalls rest

/-- Every effect reduced to its kind and its height: `AtHeight` with the
height asked for, a stage with the height of the block it is given, a query
with the height written. -/
def outline : List (Effect E T) → List (String × Int)
  | [] => []
  | Effect.atHeight h :: rest => ("AtHeight", h) :: outline rest
  | Effect.process it snap :: rest => (it, snap.Block.Height) :: outline rest
  | Effect.exec query h :: rest => (query, h) :: outline rest

/-- The chain API of the running program: `state.Api` is the `*Oasis` built by
`NewOasis`.  At the `n`-th call its published state is `published n` and the
node answers as `up n`; events and transactions are fetched at the height of
the state of the handle (`self.State.Height`). -/
def oasisApi {G : Type} (up : Nat → Upstream G) (published : Nat → Oasis G)
    (events : Int → List E) (transactions : Int → List T) : Api E T :=
  fun n currentBlock =>
    match (published n).AtHeight (up n) currentBlock with
    | none => none
    | some api =>
      match api.GetBlock with
      | none => none
      | some (block, height) =>
        some { Block := block, Events := events height, Transactions := transactions height }

end Extractor

/-! ## Inlet: the batching write-buffer (`pkg/oasis/inlet.go`)

The buffered channel between `PushQuery` and the flush goroutine is the list
of the batches sent and not yet received, oldest first.  Its capacity (8)
only decides when a sender has to wait for the worker, never what is sent or
in which order, and is not part of the model. -/

/-- Go `TO_DATABASE`. -/
def TO_DATABASE : Nat := 1

/-- Go `TO_DISK`. -/
def TO_DISK : Nat := 2

/-- Go `WriteMode = uint64`. -/
abbrev WriteMode := Nat

/-- A value passed as a query argument (Go `interface{}`). -/
inductive Arg where
  | str (s : String)
  | int (i : Int)
  | bool (b : Bool)
  | bytes (b : List Nat)
  | time (t : Time)
deriving DecidableEq, Repr

set_option linter.dupNamespace false in
/-- Go `Query`: one logical write. -/
structure Query where
  Query : String
  Args : List Arg
deriving DecidableEq, Repr

/-- Go `Batch = []Query`. -/
abbrev Batch := List Query

/-- Go `Inlet` (without the database handle and the mutex).  The write
callback answers its `n`-th call (counted from 0) on a batch with `none`
(nil) or an error; the error callback is given by the line it reports, and is
taken to return. -/
structure Inlet where
  channel : List Batch
  createdAt : Time
  errHandler : String → String
  queries : Batch
  syncAt : Int
  writeHandler : Nat → Batch → Option String
  writeMode : WriteMode

/-- A journal file written by `batchToDisk`: its name and its records. -/
structure JournalFile where
  name : String
  records : List String
deriving DecidableEq, Repr

/-- The inlet together with what the flush worker has done so far. -/
structure World where
  inlet : Inlet
  /-- Batches received by the worker (`Batch Starting`), oldest first. -/
  started : List Batch
  /-- Batches the write callback was called with, oldest first. -/
  written : List Batch
  /-- Reports of the error callback, oldest first. -/
  errors : List String
  /-- Journal files created, oldest first (on disk, `os.Create` on a name
  already used replaces the earlier file). -/
  files : List JournalFile
  /-- True once `check` has panicked. -/
  panicked : Bool
  /-- Flush goroutines started so far (the `go func()` of `InitInlet`). -/
  workers : Nat

/-- What one turn of the flush worker finds outside the program: the clock,
whether `os.Create` succeeds for a name, and the line `encoder.Encode` writes
for a query (`none`: it returns an error). -/
structure Env where
  now : Time
  create : String → Bool
  encode : Query → Option String

/-- Body of Go `InitInlet` inside `one.Do`: the inlet as constructed, at time
`now`, with the flush goroutine waiting on the empty channel. -/
def newInlet (now : Time) (syncAt : Int) (errHandler : String → String)
    (writeHandler : Nat → Batch → Option String) : World :=
  { inlet :=
      { channel := []
        createdAt := now
        errHandler := errHandler
        queries := []
        syncAt := syncAt
        writeHandler := writeHandler
        writeMode := TO_DATABASE }
    started := []
    written := []
    errors := []
    files := []
    panicked := false
    workers := 1 }

/-- Go `InitInlet`: `one.Do` runs the construction on the first call only
(`none`: no call has been made yet). -/
def InitInlet (initialised : Option World) (now : Time) (syncAt : Int)
    (errHandler : String → String) (writeHandler : Nat → Batch → Option String) : World :=
  match initialised with
  | some w => w
  | none => newInlet now syncAt errHandler writeHandler

/-- The arguments of one `InitInlet` call and the time at which it is made. -/
structure InitCall where
  now : Time
  syncAt : Int
  errHandler : String → String
  writeHandler : Nat → Batch → Option String

/-- A sequence of `InitInlet` calls, from the state in which none has been
made. -/
def initAll (initialised : Option World) (calls : List InitCall) : Option World :=
  calls.foldl
    (fun g c => some (InitInlet g c.now c.syncAt c.errHandler c.writeHandler)) initialised

/-- Go `PushQuery`: append to the batch, then forward the batch if full. -/
def PushQuery (w : World) (query : String) (args : List Arg) : World :=
  let queries := w.inlet.queries ++ [{ Query := query, Args := args }]
  if (queries.length : Int) = w.inlet.syncAt then
    { w with inlet := { w.inlet with channel := w.inlet.channel ++ [queries], queries := [] } }
  else
    { w with inlet := { w.inlet with queries := queries } }

/-- The loop `for _, q := range queries { err := encoder.Encode(q); check(err) }`:
the records written, and whether the loop ran to its end. -/
def encodeAll (encode : Query → Option String) : Batch → List String × Bool
  | [] => ([], true)
  | q :: rest =>
    match encode q with
    | none => ([], false)
    | some record =>
      let r := encodeAll encode rest
      (record :: r.1, r.2)

/-- Name of the journal file: `fmt.Sprintf("inlet_%d_%d.json", ...)`. -/
def logFileName (createdAt : Time) (nanoseconds : Int) : String :=
  "inlet_" ++ toString createdAt.Unix ++ "_" ++ toString nanoseconds ++ ".json"

/-- Go `batchToDisk`. -/
def batchToDisk (env : Env) (w : World) (queries : Batch) : World :=
  let nanoseconds := env.now.UnixNano
  let name := logFileName w.inlet.createdAt nanoseconds
  if env.create name then
    let r := encodeAll env.encode queries
    { w with files := w.files ++ [{ name := name, records := r.1 }], panicked := !r.2 }
  else
    { w with panicked := true }

/-- Go `batchToDB`. -/
def batchToDB (env : Env) (w : World) (queries : Batch) : World :=
  let answer := w.inlet.writeHandler w.written.length queries
  let w1 := { w with written := w.written ++ [queries] }
  match answer with
  | none => w1
  | some err =>
    batchToDisk env
      { w1 with
        inlet := { w1.inlet with writeMode := TO_DISK }
        errors := w1.errors ++ [w1.inlet.errHandler err] }
      queries

/-- One turn of the flush goroutine started by `InitInlet`: receive a batch
from the channel and write it according to the write mode.  Nothing happens
while the channel is empty or after a panic. -/
def worker (env : Env) (w : World) : World :=
  if w.panicked then w
  else
    match w.inlet.channel with
    | [] => w
    | batch :: rest =>
      let w1 := { w with inlet := { w.inlet with channel := rest }, started := w.started ++ [batch] }
      if w1.inlet.writeMode = TO_DISK then batchToDisk env w1 batch
      else batchToDB env w1 batch

/-- A step of the program around the inlet: a `PushQuery` call or a turn of
the flush worker. -/
inductive Action where
  | push (query : String) (args : List Arg)
  | flush (env : Env)

/-- Effect of one action. -/
def step (w : World) : Action → World
  | Action.push query args => PushQuery w query args
  | Action.flush env => worker env w

/-- Effect of a sequence of actions. -/
def run (w : World) (actions : List Action) : World :=
  actions.foldl step w

/-- The queries pushed by a sequence of actions, in push order. -/
def pushed : List Action → List Query
  | [] => []
  | Action.push query args :: rest => { Query := query, Args := args } :: pushed rest
  | Action.flush _ :: rest => pushed rest

/-- Pushing a list of queries one after the other. -/
def pushAll (w : World) (qs : List Query) : World :=
  qs.foldl (fun w q => PushQuery w q.Query q.Args) w

/-! ## Daily snapshots (`block_iterator_snapshots.go`) -/

/-- In the words of the specification: the instant 00:00:00 UTC of the
calendar date on which `next` falls (the date as `next` reports it, in its own
location), in nanoseconds since the Unix epoch. -/
def midnightOfDate (next : Time) : Int :=
  (next.localDay - Time.unixEpochDay) * Time.nanosPerDay

/-- The UTC calendar day of an instant, as a day number since the Unix
epoch. -/
def utcDay (t : Time) : Int := t.nanos / Time.nanosPerDay

/-- Go `isDailyBlock`: is the block observed at `next` the first block of its
day, the last one having been observed at `previous`. -/
def isDailyBlock (previous next : Time) : Bool :=
  let midnight := Time.Date next.Year next.Month next.Day 0 0 0 0
  previous.Before midnight && (next.After midnight || next.Equal midnight)

/-! ## Decimal numerals

The text form of unsigned numbers, as `strconv` and `math/big` write and read
it. -/

/-- The character of a decimal digit. -/
def digitChar (d : Nat) : Char := Char.ofNat (48 + d)

/-- The value of a decimal digit character (`none`: not a digit). -/
def digitValue (c : Char) : Option Nat :=
  if 48 ≤ c.toNat ∧ c.toNat ≤ 57 then some (c.toNat - 48) else none

/-- The digits of `n`, most significant first, put in front of `acc`; `fuel`
bounds the number of digits. -/
def toDigits : Nat → Nat → List Char → List Char
  | 0, _, acc => acc
  | fuel + 1, n, acc =>
    if n < 10 then digitChar n :: acc
    else toDigits fuel (n / 10) (digitChar (n % 10) :: acc)

/-- The decimal numeral of `n` (no sign, no leading zero). -/
def decimal (n : Nat) : String := String.mk (toDigits (n + 1) n [])

/-- The number read from a sequence of decimal digits, continuing from `acc`
(`none`: some character is not a digit). -/
def parseDigits : List Char → Nat → Option Nat
  | [], acc => some acc
  | c :: rest, acc =>
    match digitValue c with
    | none => none
    | some d => parseDigits rest (acc * 10 + d)

/-- Go `strconv.ParseUint(s, 10, 64)`: a non-empty sequence of decimal digits
whose value fits 64 bits (`none`: a syntax or range error). -/
def ParseUint (s : String) : Option Nat :=
  match s.data with
  | [] => none
  | c :: rest =>
    match parseDigits (c :: rest) 0 with
    | none => none
    | some n => if n < 18446744073709551616 then some n else none

/-! ## Delegations and their storage form (`types.go`, `snapshotState`, `AccountHistory`)

An address is given by its text form (what `String()` and `MarshalText`
produce); an amount (`quantity.Quantity`) is a natural number of any size.
`json.Marshal` and `json.Unmarshal` are modelled on JSON documents: the
writing of a document as text and the reading of that text are not
modelled. -/

/-- Go `Address`, by its text form. -/
structure Address where
  text : String
deriving DecidableEq, Repr

/-- Go `Delegation`: a sum of money from one account bound to a validator. -/
structure Delegation where
  Delegator : Address
  Validator : Address
  Amount : Nat
deriving DecidableEq, Repr

/-- JSON documents of the shapes the storage form of a delegation list has:
`null`, or an array of objects whose members are strings. -/
inductive Document where
  | null
  | array (objects : List (List (String × String)))
deriving DecidableEq, Repr

/-- The object written for one `Delegation`: the members named by the `json`
tags, addresses and amount through their `MarshalText` (the amount as a
decimal numeral). -/
def marshalDelegation (d : Delegation) : List (String × String) :=
  [("delegator", d.Delegator.text), ("validator", d.Validator.text),
   ("amount", decimal d.Amount)]

/-- Go `json.Marshal(&accountDelegations)` in `snapshotState`; a nil slice
(`none`) is written as `null`. -/
def marshalDelegations : Option (List Delegation) → Document
  | none => Document.null
  | some delegations => Document.array (delegations.map marshalDelegation)

/-- The library side of reading an address: the zero value of the type and
`UnmarshalText` (`none`: the text is rejected). -/
structure AddressCodec where
  zero : Address
  UnmarshalText : String → Option Address

/-- Reading of an amount (`UnmarshalText` of `quantity.Quantity`), for the
numerals `MarshalText` writes: decimal digits without sign and without a
leading zero.  Every other text is rejected here (the library also reads
numerals with a base prefix, which the storage form never holds). -/
def parseQuantity (s : String) : Option Nat :=
  match s.data with
  | [] => none
  | c :: rest => if c = '0' ∧ rest ≠ [] then none else parseDigits (c :: rest) 0

/-- Reading of one object into a `Delegation`, member by member: a member
named by a `json` tag sets its field, any other member is skipped
(`none`: a value is rejected). -/
def unmarshalDelegation (codec : AddressCodec) :
    List (String × String) → Delegation → Option Delegation
  | [], d => some d
  | (key, value) :: rest, d =>
    if key = "delegator" then
      match codec.UnmarshalText value with
      | none => none
      | some a => unmarshalDelegation codec rest { d with Delegator := a }
    else if key = "validator" then
      match codec.UnmarshalText value with
      | none => none
      | some a => unmarshalDelegation codec rest { d with Validator := a }
    else if key = "amount" then
      match parseQuantity value with
      | none => none
      | some n => unmarshalDelegation codec rest { d with Amount := n }
    else unmarshalDelegation codec rest d

/-- Reading of the objects of an array, each into a zero `Delegation`. -/
def unmarshalObjects (codec : AddressCodec) :
    List (List (String × String)) → Option (List Delegation)
  | [] => some []
  | object :: rest =>
    match unmarshalDelegation codec object
        { Delegator := codec.zero, Validator := codec.zero, Amount := 0 } with
    | none => none
    | some d =>
      match unmarshalObjects codec rest with
      | none => none
      | some ds => some (d :: ds)

/-- Go `json.Unmarshal([]byte(delegations), &delegationsDecoded)` in
`AccountHistory`, the variable being nil before: `null` leaves it nil, an
array fills it (`none`: the call returns an error, which `AccountHistory`
does not look at). -/
def unmarshalDelegations (codec : AddressCodec) : Document → Option (Option (List Delegation))
  | Document.null => some none
  | Document.array objects =>
    match unmarshalObjects codec objects with
    | none => none
    | some ds => some (some ds)

/-! ## Transactions (`types.go`, `GetTransactions` in `grpc.go`)

Bytes are lists of numbers.  CBOR decoding, hashing and address derivation
belong to libraries and are parameters. -/

/-- Go `TransferTx`. -/
structure TransferTx where
  From : Address
  To : Address
  Tokens : Nat
deriving DecidableEq, Repr

/-- Go `BurnTx`. -/
structure BurnTx where
  From : Address
  Tokens : Nat
deriving DecidableEq, Repr

/-- Go `AddEscrowTx`. -/
structure AddEscrowTx where
  To : Address
  Tokens : Nat
deriving DecidableEq, Repr

/-- Go `ReclaimEscrowTx`. -/
structure ReclaimEscrowTx where
  From : Address
  Shares : Nat
deriving DecidableEq, Repr

/-- Go `UnknownTx`. -/
structure UnknownTx where
  Payload : List Nat
deriving DecidableEq, Repr

/-- The values `GetTransactions` stores in the `Payload interface{}` field of
a `Transaction`. -/
inductive Payload where
  | transfer (tx : TransferTx)
  | addEscrow (tx : AddEscrowTx)
  | burn (tx : BurnTx)
  | reclaimEscrow (tx : ReclaimEscrowTx)
  | unknown (tx : UnknownTx)
deriving DecidableEq, Repr

/-- Go `Transaction`: a deserialized transaction. -/
structure Transaction where
  Fee : Nat
  GasPrice : Nat
  Hash : String
  Gas : Nat
  Method : String
  Sender : Address
  Payload : Payload
deriving DecidableEq, Repr

/-- Library type `signature.Signed`, as far as it is read. -/
structure Signed where
  Blob : List Nat
  PublicKey : List Nat
deriving DecidableEq, Repr

/-- Library type `transaction.Fee`, as far as it is read. -/
structure Fee where
  Amount : Nat
  Gas : Nat
deriving DecidableEq, Repr

/-- Library type `transaction.Transaction`, as far as it is read; `Fee` is a
pointer, nil (`none`) for a transaction that carries no fee. -/
structure ConsensusTx where
  Method : String
  Body : List Nat
  Fee : Option Fee
deriving DecidableEq, Repr

/-- The library functions `GetTransactions` calls: `cbor.Unmarshal` into each
of the types it decodes (`none`: an error), `staking.NewAddress`,
`hash.NewFromBytes(..).String()` and `Fee.GasPrice()`. -/
structure Library where
  unmarshalSigned : List Nat → Option Signed
  unmarshalTransaction : List Nat → Option ConsensusTx
  unmarshalTransfer : List Nat → Option (Address × Nat)
  unmarshalEscrow : List Nat → Option (Address × Nat)
  unmarshalBurn : List Nat → Option Nat
  unmarshalReclaimEscrow : List Nat → Option (Address × Nat)
  NewAddress : List Nat → Address
  hash : List Nat → String
  GasPrice : Nat → Nat → Nat

/-- Library constant `staking.MethodTransfer`. -/
def MethodTransfer : String := "staking.Transfer"

/-- Library constant `staking.MethodAddEscrow`. -/
def MethodAddEscrow : String := "staking.AddEscrow"

/-- Library constant `staking.MethodBurn`. -/
def MethodBurn : String := "staking.Burn"

/-- Library constant `staking.MethodReclaimEscrow`. -/
def MethodReclaimEscrow : String := "staking.ReclaimEscrow"

/-- How the body of the loop of `GetTransactions` ends for one raw
transaction. -/
inductive Decoding where
  /-- The transaction is appended to `decodedTxs`. -/
  | decoded (tx : Transaction)
  /-- One of the `cbor.Unmarshal` calls fails and the function executes
  `return nil`. -/
  | failed
  /-- The run-time panic of `decodeTx.Fee.Amount` on a nil `Fee`. -/
  | nilFee
deriving DecidableEq, Repr

/-- The body of the loop of `GetTransactions` for one raw transaction. -/
def decodeTransaction (lib : Library) (tx : List Nat) : Decoding :=
  match lib.unmarshalSigned tx with
  | none => Decoding.failed
  | some signedTx =>
    match lib.unmarshalTransaction signedTx.Blob with
    | none => Decoding.failed
    | some decodeTx =>
      match decodeTx.Fee with
      | none => Decoding.nilFee
      | some fee =>
        let base (payload : Payload) : Transaction :=
          { Method := decodeTx.Method
            Sender := lib.NewAddress signedTx.PublicKey
            Hash := lib.hash tx
            Fee := fee.Amount
            Gas := fee.Gas
            GasPrice := lib.GasPrice fee.Amount fee.Gas
            Payload := payload }
        if decodeTx.Method = MethodTransfer then
          match lib.unmarshalTransfer decodeTx.Body with
          | none => Decoding.failed
          | some cborPayload =>
            Decoding.decoded (base (Payload.transfer
              { From := lib.NewAddress signedTx.PublicKey, To := cborPayload.1,
                Tokens := cborPayload.2 }))
        else if decodeTx.Method = MethodAddEscrow then
          match lib.unmarshalEscrow decodeTx.Body with
          | none => Decoding.failed
          | some cborPayload =>
            Decoding.decoded
              (base (Payload.addEscrow { To := cborPayload.1, Tokens := cborPayload.2 }))
        else if decodeTx.Method = MethodBurn then
          match lib.unmarshalBurn decodeTx.Body with
          | none => Decoding.failed
          | some tokens =>
            Decoding.decoded (base (Payload.burn
              { From := lib.NewAddress signedTx.PublicKey, Tokens := tokens }))
        else if decodeTx.Method = MethodReclaimEscrow then
          match lib.unmarshalReclaimEscrow decodeTx.Body with
          | none => Decoding.failed
          | some cborPayload =>
            Decoding.decoded
              (base (Payload.reclaimEscrow { From := cborPayload.1, Shares := cborPayload.2 }))
        else
          Decoding.decoded (base (Payload.unknown { Payload := decodeTx.Body }))

/-- The loop of `GetTransactions` over the raw transactions, `decodedTxs`
holding the transactions decoded so far; the first decode failure returns nil
(the empty list), whatever has been decoded before (`none`: the loop panics on
a transaction without a fee). -/
def decodeTransactions (lib : Library) :
    List (List Nat) → List Transaction → Option (List Transaction)
  | [], decodedTxs => some decodedTxs
  | tx :: rest, decodedTxs =>
    match decodeTransaction lib tx with
    | Decoding.failed => some []
    | Decoding.nilFee => none
    | Decoding.decoded decoded => decodeTransactions lib rest (decodedTxs ++ [decoded])

/-- Go `GetTransactions` on a manager; `fetch` is the answer of the node to
the request for the raw transactions at a height (`none`: an error, and the
result is nil).  The result is `none` when the call panics: the state pointer
is nil, or a transaction carries no fee. -/
def Oasis.GetTransactions {G : Type} (lib : Library) (fetch : Int → Option (List (List Nat)))
    (oasis : Oasis G) : Option (List Transaction) :=
  match oasis.freezeChain.State with
  | none => none
  | some st =>
    match fetch st.Height with
    | none => some []
    | some txs => decodeTransactions lib txs []

/-! ## Staking events (`types.go`) -/

/-- Go `TransferEvent`. -/
structure TransferEvent where
  From : Address
  To : Address
  Tokens : Nat
  Height : Int
  Date : Time
  Hash : String
deriving DecidableEq, Repr

/-- Go `BurnEvent`. -/
structure BurnEvent where
  Owner : Address
  Tokens : Nat
  Height : Int
  Date : Time
  Hash : String
deriving DecidableEq, Repr

/-- Go `AddEscrowEvent`. -/
structure AddEscrowEvent where
  Owner : Address
  Escrow : Address
  Tokens : Nat
  Height : Int
  Hash : String
deriving DecidableEq, Repr

/-- Go `TakeEscrowEvent`. -/
structure TakeEscrowEvent where
  Owner : Address
  Tokens : Nat
  Height : Int
  Hash : String
deriving DecidableEq, Repr

/-- Go `ReclaimEscrowEvent`. -/
structure ReclaimEscrowEvent where
  Owner : Address
  Escrow : Address
  Tokens : Nat
  Height : Int
  Hash : String
deriving DecidableEq, Repr

/-- Go `EscrowEvent`: each part is a pointer, nil (`none`) when absent. -/
structure EscrowEvent where
  Add : Option AddEscrowEvent
  Take : Option TakeEscrowEvent
  Reclaim : Option ReclaimEscrowEvent
deriving DecidableEq, Repr

/-- Go `UnknownEvent`. -/
structure UnknownEvent where
deriving DecidableEq, Repr

/-- Go `StakingEvent`: each part is a pointer, nil (`none`) when absent. -/
structure StakingEvent where
  Transfer : Option TransferEvent
  Burn : Option BurnEvent
  Escrow : Option EscrowEvent
  Unknown : Option UnknownEvent
deriving DecidableEq, Repr

/-! ## Persisting transactions and events (`block_iterator_snapshots.go`)

A call `state.Dot.Exec(state.Db, name, args...)` is a `Query`; the database
answers it with `none` (done) or an error. -/

/-- What a snapshot function has done on the database: the statements it has
executed, oldest first, and those among them that returned an error (each is
reported in the log). -/
structure Persisted where
  attempts : List Query
  failed : List Query
deriving DecidableEq, Repr

/-- One call of `state.Dot.Exec`: the statement is attempted, and recorded as
failed when the database returns an error. -/
def Persisted.exec (db : Query → Option String) (log : Persisted) (statement : Query) :
    Persisted :=
  match db statement with
  | none => { log with attempts := log.attempts ++ [statement] }
  | some _ =>
    { attempts := log.attempts ++ [statement], failed := log.failed ++ [statement] }

/-- Go `snapshotTransactions`, `log` holding what has been done so far;
`marshal` is `json.Marshal(&tx.Payload)` (`none`: an error, and the loop
continues with the next transaction). -/
def snapshotTransactions (marshal : Payload → Option (List Nat)) (db : Query → Option String)
    (block : Block) : List Transaction → Persisted → Persisted
  | [], log => log
  | tx :: rest, log =>
    match marshal tx.Payload with
    | none => snapshotTransactions marshal db block rest log
    | some encodedTx =>
      snapshotTransactions marshal db block rest
        (log.exec db
          { Query := "insertTransaction"
            Args := [Arg.str tx.Method, Arg.bytes encodedTx, Arg.int block.Height,
              Arg.time block.Time, Arg.str tx.Sender.text, Arg.str (decimal tx.Fee),
              Arg.int tx.Gas, Arg.str (decimal tx.GasPrice), Arg.str tx.Hash] })

/-- Go `snapshotEvents`, `log` holding what has been done so far. -/
def snapshotEvents (db : Query → Option String) (block : Block) :
    List StakingEvent → Persisted → Persisted
  | [], log => log
  | event :: rest, log =>
    match event.Transfer with
    | some transfer =>
      snapshotEvents db block rest
        (log.exec db
          { Query := "insertTransfer"
            Args := [Arg.str transfer.From.text, Arg.str transfer.To.text,
              Arg.str (decimal transfer.Tokens), Arg.str transfer.Hash,
              Arg.int block.Height, Arg.time block.Time] })
    | none =>
      match event.Burn with
      | some burn =>
        snapshotEvents db block rest
          (log.exec db
            { Query := "insertBurn"
              Args := [Arg.str burn.Owner.text, Arg.str (decimal burn.Tokens),
                Arg.str burn.Hash, Arg.int block.Height, Arg.time block.Time] })
      | none =>
        match event.Escrow with
        | some escrow =>
          match escrow.Add with
          | some add =>
            snapshotEvents db block rest
              (log.exec db
                { Query := "insertEscrowEvent"
                  Args := [Arg.str "add", Arg.str add.Owner.text, Arg.str add.Escrow.text,
                    Arg.str (decimal add.Tokens), Arg.str add.Hash,
                    Arg.int block.Height, Arg.time block.Time] })
          | none =>
            match escrow.Take with
            | some take =>
              snapshotEvents db block rest
                (log.exec db
                  { Query := "insertEscrowEvent"
                    Args := [Arg.str "take", Arg.str take.Owner.text, Arg.str "",
                      Arg.str (decimal take.Tokens), Arg.str take.Hash,
                      Arg.int block.Height, Arg.time block.Time] })
            | none =>
              match escrow.Reclaim with
              | some reclaim =>
                snapshotEvents db block rest
                  (log.exec db
                    { Query := "insertEscrowEvent"
                      Args := [Arg.str "add", Arg.str reclaim.Owner.text,
                        Arg.str reclaim.Escrow.text, Arg.str (decimal reclaim.Tokens),
                        Arg.str reclaim.Hash, Arg.int block.Height, Arg.time block.Time] })
              | none => snapshotEvents db block rest log
        | none => snapshotEvents db block rest log

/-- The statement `snapshotTransactions` executes for one transaction, if
any. -/
def transactionStatement (marshal : Payload → Option (List Nat)) (block : Block)
    (tx : Transaction) : Option Query :=
  match marshal tx.Payload with
  | none => none
  | some encodedTx =>
    some
      { Query := "insertTransaction"
        Args := [Arg.str tx.Method, Arg.bytes encodedTx, Arg.int block.Height,
          Arg.time block.Time, Arg.str tx.Sender.text, Arg.str (decimal tx.Fee),
          Arg.int tx.Gas, Arg.str (decimal tx.GasPrice), Arg.str tx.Hash] }

/-- The statement `snapshotEvents` executes for one event, if any. -/
def eventStatement (block : Block) (event : StakingEvent) : Option Query :=
  match event.Transfer with
  | some transfer =>
    some
      { Query := "insertTransfer"
        Args := [Arg.str transfer.From.text, Arg.str transfer.To.text,
          Arg.str (decimal transfer.Tokens), Arg.str transfer.Hash,
          Arg.int block.Height, Arg.time block.Time] }
  | none =>
    match event.Burn with
    | some burn =>
      some
        { Query := "insertBurn"
          Args := [Arg.str burn.Owner.text, Arg.str (decimal burn.Tokens),
            Arg.str burn.Hash, Arg.int block.Height, Arg.time block.Time] }
    | none =>
      match event.Escrow with
      | some escrow =>
        match escrow.Add with
        | some add =>
          some
            { Query := "insertEscrowEvent"
              Args := [Arg.str "add", Arg.str add.Owner.text, Arg.str add.Escrow.text,
                Arg.str (decimal add.Tokens), Arg.str add.Hash,
                Arg.int block.Height, Arg.time block.Time] }
        | none =>
          match escrow.Take with
          | some take =>
            some
              { Query := "insertEscrowEvent"
                Args := [Arg.str "take", Arg.str take.Owner.text, Arg.str "",
                  Arg.str (decimal take.Tokens), Arg.str take.Hash,
                  Arg.int block.Height, Arg.time block.Time] }
          | none =>
            match escrow.Reclaim with
            | some reclaim =>
              some
                { Query := "insertEscrowEvent"
                  Args := [Arg.str "add", Arg.str reclaim.Owner.text,
                    Arg.str reclaim.Escrow.text, Arg.str (decimal reclaim.Tokens),
                    Arg.str reclaim.Hash, Arg.int block.Height, Arg.time block.Time] }
            | none => none
      | none => none

/-- Whether `snapshotTransactions` has an insert to attempt for a
transaction: its payload encodes. -/
def encodes (marshal : Payload → Option (List Nat)) (tx : Transaction) : Bool :=
  (marshal tx.Payload).isSome

/-- Whether an escrow event has one of its parts. -/
def EscrowEvent.hasPart (escrow : EscrowEvent) : Bool :=
  escrow.Add.isSome || escrow.Take.isSome || escrow.Reclaim.isSome

/-- Whether an event is a transfer, a burn, or an escrow event with one of its
parts. -/
def StakingEvent.insertable (event : StakingEvent) : Bool :=
  event.Transfer.isSome || event.Burn.isSome ||
    (match event.Escrow with
     | some escrow => escrow.hasPart
     | none => false)

/-- Whether an event counts as a transfer, burn or escrow event. -/
def StakingEvent.isTransferBurnEscrow (event : StakingEvent) : Bool :=
  event.Transfer.isSome || event.Burn.isSome || event.Escrow.isSome

/-! ## Pagination (`cmd/hippias/rest/middleware`) -/

/-- Wrap-around of a Go `uint64` result. -/
def wrapU64 (x : Int) : Nat := (x % 18446744073709551616).toNat

/-- Go `Pagination` (all fields `uint64`). -/
structure Pagination where
  Height : Nat
  Limit : Nat
  Page : Nat
deriving DecidableEq, Repr

/-- An HTTP request, as far as pagination looks at it: the parameters of the
URL query, and the `Pagination` stored under `Key` in its context, if any. -/
structure Request where
  query : List (String × String)
  pagination : Option Pagination

/-- Go `r.URL.Query().Get(key)`: the first value of the parameter, the empty
string when it is absent. -/
def Request.Get (r : Request) (key : String) : String :=
  match r.query.lookup key with
  | some v => v
  | none => ""

namespace middleware

/-- Go `defaultNumber`: the number parsed from `s`, or `n` when `s` does not
parse. -/
def defaultNumber (s : String) (n : Nat) : Nat :=
  match ParseUint s with
  | some m => m
  | none => n

/-- Go `min` on `uint64`. -/
def min (a b : Nat) : Nat := if a < b then a else b

/-- Go `Paginate`: the request handed to the next handler, with the
pagination parsed from the URL in its context. -/
def Paginate (r : Request) : Request :=
  { r with
    pagination := some
      { Height := defaultNumber (r.Get "block_height") 0
        Limit := defaultNumber (r.Get "limit") 50
        Page := wrapU64 ((defaultNumber (r.Get "page") 1 : Int) - 1) } }

/-- Go `GetPagination`. -/
def GetPagination (r : Request) : Pagination :=
  match r.pagination with
  | some pagination => pagination
  | none => { Height := 0, Limit := 50, Page := 0 }

/-- Go `PaginateList`: the bounds `(from, to)` for a list of the given length
(the `int` length converted to `uint64`). -/
def PaginateList (r : Request) (signedLength : Int) : Nat × Nat :=
  let length := wrapU64 signedLength
  let pagination := GetPagination r
  let lo := min (wrapU64 (pagination.Page * pagination.Limit)) length
  let hi := min (wrapU64 (lo + pagination.Limit)) length
  (lo, hi)

end middleware

/-! ## Slicing an account list (`cmd/hippias/rest/endpoints/accounts.go`) -/

/-- Go slice expression `s[lo:hi]` on a slice whose capacity is its length
(`none`: the run-time panic "slice bounds out of range"). -/
def slice {α : Type} (s : List α) (lo hi : Nat) : Option (List α) :=
  if lo ≤ hi ∧ hi ≤ s.length then some ((s.take hi).drop lo) else none

namespace endpoints

/-- Go `AccountList`: the page of `accounts` (the answer of
`state.Api.Accounts()`) that is encoded into the response (`none`: the slice
expression panics). -/
def AccountList (accounts : List Address) (r : Request) : Option (List Address) :=
  let bounds := middleware.PaginateList r accounts.length
  slice accounts bounds.1 bounds.2

end endpoints

/-! ## Events from the node (`GetEvents` and `convertEvent` in `grpc.go`) -/

/-- The zero value of Go `time.Time`: 0001-01-01 00:00:00 UTC. -/
def Time.zero : Time := { nanos := -62135596800000000000, offset := 0 }

namespace staking

/-- Library type `staking.TransferEvent`, as far as it is read. -/
structure TransferEvent where
  From : Address
  To : Address
  Tokens : Nat
deriving DecidableEq, Repr

/-- Library type `staking.BurnEvent`, as far as it is read. -/
structure BurnEvent where
  Owner : Address
  Tokens : Nat
deriving DecidableEq, Repr

/-- Library type `staking.AddEscrowEvent`, as far as it is read. -/
structure AddEscrowEvent where
  Owner : Address
  Escrow : Address
  Tokens : Nat
deriving DecidableEq, Repr

/-- Library type `staking.TakeEscrowEvent`, as far as it is read. -/
structure TakeEscrowEvent where
  Owner : Address
  Tokens : Nat
deriving DecidableEq, Repr

/-- Library type `staking.ReclaimEscrowEvent`, as far as it is read. -/
structure ReclaimEscrowEvent where
  Owner : Address
  Escrow : Address
  Tokens : Nat
deriving DecidableEq, Repr

/-- Library type `staking.EscrowEvent`: each part is a pointer. -/
structure EscrowEvent where
  Add : Option AddEscrowEvent
  Take : Option TakeEscrowEvent
  Reclaim : Option ReclaimEscrowEvent
deriving DecidableEq, Repr

/-- Library type `staking.Event`, as far as it is read; `TxHash` is given by
its text (`event.TxHash.String()`). -/
structure Event where
  TxHash : String
  Transfer : Option TransferEvent
  Burn : Option BurnEvent
  Escrow : Option EscrowEvent
deriving DecidableEq, Repr

end staking

/-- Go `convertEvent`: the fields `Height` and `Date` of the local types are
left at their zero values. -/
def convertEvent (event : staking.Event) : StakingEvent :=
  match event.Transfer with
  | some transfer =>
    { Transfer := some
        { Hash := event.TxHash, From := transfer.From, To := transfer.To,
          Tokens := transfer.Tokens, Height := 0, Date := Time.zero }
      Burn := none, Escrow := none, Unknown := none }
  | none =>
    match event.Burn with
    | some burn =>
      { Transfer := none
        Burn := some
          { Hash := event.TxHash, Owner := burn.Owner, Tokens := burn.Tokens,
            Height := 0, Date := Time.zero }
        Escrow := none, Unknown := none }
    | none =>
      match event.Escrow with
      | some escrow =>
        let parts : Option AddEscrowEvent × Option TakeEscrowEvent × Option ReclaimEscrowEvent :=
          match escrow.Add with
          | some add =>
            (some { Owner := add.Owner, Escrow := add.Escrow, Tokens := add.Tokens,
                    Hash := event.TxHash, Height := 0 }, none, none)
          | none =>
            match escrow.Take with
            | some take =>
              (none, some { Owner := take.Owner, Tokens := take.Tokens,
                            Hash := event.TxHash, Height := 0 }, none)
            | none =>
              match escrow.Reclaim with
              | some reclaim =>
                (none, none, some { Owner := reclaim.Owner, Escrow := reclaim.Escrow,
                                    Tokens := reclaim.Tokens, Hash := event.TxHash, Height := 0 })
              | none => (none, none, none)
        { Transfer := none, Burn := none
          Escrow := some { Add := parts.1, Take := parts.2.1, Reclaim := parts.2.2 }
          Unknown := none }
      | none => { Transfer := none, Burn := none, Escrow := none, Unknown := some UnknownEvent.mk }

section Stage

variable {E T : Type}

/-- Go `SnapshotIterator` (without `config` and `state`). -/
structure SnapshotIterator where
  lastObserved : Time
deriving DecidableEq, Repr

/-- Go `NewSnapshotIterator`: `lastObserved` is left at its zero value. -/
def NewSnapshotIterator : SnapshotIterator := { lastObserved := Time.zero }

/-- The calls made by `Process`, in the order it makes them. -/
inductive StageCall (E T : Type) where
  /-- Call `snapshotTransactions(config, state, block, transactions)`. -/
  | snapshotTransactions (block : Block) (transactions : List T)
  /-- Call `snapshotEvents(config, state, block, events)`. -/
  | snapshotEvents (block : Block) (events : List E)
  /-- Call `snapshotCommission(config, state, block)`. -/
  | snapshotCommission (block : Block)
  /-- Statement `go snapshotState(config, state, block)`: the daily sweep. -/
  | goSnapshotState (block : Block)

/-- Go `SnapshotIterator.Process`: the iterator afterwards and the calls made
(each of them taken to return). -/
def SnapshotIterator.Process (self : SnapshotIterator) (snapshot : StateSnapshot E T) :
    SnapshotIterator × List (StageCall E T) :=
  let calls : List (StageCall E T) :=
    [StageCall.snapshotTransactions snapshot.Block snapshot.Transactions,
     StageCall.snapshotEvents snapshot.Block snapshot.Events,
     StageCall.snapshotCommission snapshot.Block]
  let calls :=
    if isDailyBlock self.lastObserved snapshot.Block.Time then
      calls ++ [StageCall.goSnapshotState snapshot.Block]
    else calls
  ({ lastObserved := snapshot.Block.Time }, calls)

/-- One iterator processing a sequence of snapshots: the iterator afterwards
and all the calls made, oldest first. -/
def processAll (self : SnapshotIterator) (snapshots : List (StateSnapshot E T)) :
    SnapshotIterator × List (StageCall E T) :=
  snapshots.foldl
    (fun acc snapshot => ((acc.1.Process snapshot).1, acc.2 ++ (acc.1.Process snapshot).2))
    (self, [])

/-- The blocks for which a daily sweep was launched, in launch order. -/
def sweeps : List (StageCall E T) → List Block
  | [] => []
  | StageCall.goSnapshotState block :: rest => block :: sweeps rest
  | _ :: rest => sweeps rest

end Stage

/-! ## The account sweep (`snapshotState` in `block_iterator_snapshots.go`) -/

/-- Go `SharePool`. -/
structure SharePool where
  Balance : String
  TotalShares : String
deriving DecidableEq, Repr

/-- Go `AccountMeta`. -/
structure AccountMeta where
  IsValidator : Bool
  IsDelegator : Bool
deriving DecidableEq, Repr

/-- Go `Account`; the pools are pointers, the delegations a slice that may be
nil. -/
structure Account where
  Address : Address
  Balance : String
  DebondingBalance : Option SharePool
  Delegations : Option (List Delegation)
  Height : Int
  Meta : AccountMeta
  StakedBalance : Option SharePool
deriving DecidableEq, Repr

/-- The methods of a chain API handle (Go interface `API`) that the account
sweep calls, by their answers: `Accounts()`, and for the calls made in the
`i`-th turn of the loop `Account(address)` (`none`: an error is returned) and
`AccountDelegations(address)` (`none`: nil). -/
structure API where
  Accounts : List Address
  Account : Nat → Address → Option Account
  AccountDelegations : Nat → Address → Option (List Delegation)

/-- What the account sweep finds outside the program: the bytes
`json.Marshal` writes for a delegation list and for a pool (`none`: it returns
an error), and the answer to `queryGetLastRewardBalance` for an address text
and a height (`none`: `QueryRow` returns an error; `some none`: `row.Scan`
does, there is no row; `some (some tokens)`: the value scanned). -/
structure SweepEnv where
  marshalDelegations : Option (List Delegation) → Option (List Nat)
  marshalPool : Option SharePool → Option (List Nat)
  queryGetLastRewardBalance : String → Int → Option (Option Int)

/-- How a run of `snapshotState` ends. -/
inductive Outcome where
  /-- The function returns; the inlet is as given. -/
  | finished (w : World)
  /-- Method `AtHeight` ends the process (`log.Fatalf`). -/
  | fatal
  /-- The run-time panic "integer divide by zero" in the progress computation;
  the inlet is as given at that moment. -/
  | divideByZero (w : World)

/-- The body of the loop of `snapshotState` up to the `PushQuery` call, for
the address of the `i`-th turn: the query pushed (`none`: one of the `continue`
statements is reached before it). -/
def snapshotRecord (frozenAPI : API) (env : SweepEnv) (block : Block) (i : Nat)
    (address : Address) : Option Query :=
  match frozenAPI.Account i address with
  | none => none
  | some mappedAccount =>
    let accountDelegations := frozenAPI.AccountDelegations i address
    match env.marshalDelegations accountDelegations with
    | none => none
    | some encodedDelegations =>
      match env.marshalPool mappedAccount.StakedBalance with
      | none => none
      | some stakedJson =>
        match env.marshalPool mappedAccount.DebondingBalance with
        | none => none
        | some debondingJson =>
          match env.queryGetLastRewardBalance address.text block.Height with
          | none => none
          | some none => none
          | some (some tokens) =>
            some
              { Query := "insertSnapshot"
                Args := [Arg.str address.text, Arg.str mappedAccount.Balance,
                  Arg.bytes stakedJson, Arg.bytes debondingJson, Arg.int tokens,
                  Arg.bytes encodedDelegations, Arg.bool false, Arg.bool false,
                  Arg.int block.Height, Arg.time block.Time] }

/-- The loop `for i, address := range addresses` of `snapshotState`, from its
`i`-th turn on; `total` is `len(addresses)`.  After the `PushQuery` call the
loop computes `i % (len(addresses)/20)`, which panics when the divisor is
zero. -/
def sweep (frozenAPI : API) (env : SweepEnv) (block : Block) (total : Nat) :
    List Address → Nat → World → Outcome
  | [], _, w => Outcome.finished w
  | address :: rest, i, w =>
    match snapshotRecord frozenAPI env block i address with
    | none => sweep frozenAPI env block total rest (i + 1) w
    | some q =>
      let w1 := PushQuery w q.Query q.Args
      if total / 20 = 0 then Outcome.divideByZero w1
      else sweep frozenAPI env block total rest (i + 1) w1

/-- Go `snapshotState`; `api` is `state.Api.AtHeight` (`none`: the call ends
the process). -/
def snapshotState (api : Int → Option API) (env : SweepEnv) (block : Block) (w : World) :
    Outcome :=
  match api block.Height with
  | none => Outcome.fatal
  | some frozenAPI =>
    let addresses := frozenAPI.Accounts
    sweep frozenAPI env block addresses.length addresses 0 w

/-! ## Sample data -/

/-- A block of height `h`. -/
def blockAt (h : Int) : Block :=
  { ChainID := "oasis", Height := h, Time := { nanos := 0, offset := 0 } }

/-- A chain API that hands back, for every requested height, the block of that
height. -/
def fixedApi : Api Unit Unit :=
  fun _ h => some { Block := blockAt h, Events := [], Transactions := [] }

/-- An upstream node that has every block and every ledger snapshot. -/
def fullUpstream : Upstream Unit :=
  { GetBlock := fun h => some (blockAt h), StateToGenesis := fun _ => some () }

/-- The manager whose published state is the block of height `h`. -/
def publishedAt (h : Int) : Oasis Unit :=
  { State := some { Block := blockAt h, Height := h, Snapshot := () } }

/-- The chain API of the running program while its published state stays at
height `tip`. -/
def tipApi (tip : Int) : Api Unit Unit :=
  oasisApi (fun _ => fullUpstream) (fun _ => publishedAt tip) (fun _ => []) (fun _ => [])

/-- Three queries. -/
def sampleQueries : List Query :=
  [{ Query := "insertTransfer", Args := [Arg.int 1] },
   { Query := "insertBurn", Args := [Arg.int 2] },
   { Query := "insertSnapshot", Args := [Arg.int 3] }]

/-- A durable-write callback that fails on every call. -/
def refusingHandler : Nat → Batch → Option String :=
  fun _ _ => some "connection refused"

/-- A working journal: every file can be created, a record is the name of its
query. -/
def sampleEnv : Env :=
  { now := { nanos := 5, offset := 0 }, create := fun _ => true, encode := fun q => some q.Query }

/-- An inlet constructed with `syncAt = 3` over the failing callback. -/
def sampleInlet : World :=
  newInlet { nanos := 0, offset := 0 } 3 (fun err => err) refusingHandler

/-- An upstream node whose ledger-snapshot query fails. -/
def failingUpstream : Upstream Unit :=
  { GetBlock := fun h => some (blockAt h), StateToGenesis := fun _ => none }

/-- A durable-write callback that succeeds on every call. -/
def acceptingHandler : Nat → Batch → Option String :=
  fun _ _ => none

/-- An inlet constructed with `syncAt = 3` over the succeeding callback. -/
def acceptingInlet : World :=
  newInlet { nanos := 0, offset := 0 } 3 (fun err => err) acceptingHandler

/-- An address codec that accepts every text. -/
def sampleCodec : AddressCodec :=
  { zero := { text := "" }, UnmarshalText := fun s => some { text := s } }

/-- Two delegations, the second of `2^128` shares. -/
def sampleDelegations : List Delegation :=
  [{ Delegator := { text := "oasis1alice" }, Validator := { text := "oasis1val" }, Amount := 7 },
   { Delegator := { text := "oasis1bob" }, Validator := { text := "oasis1val" },
     Amount := 340282366920938463463374607431768211456 }]

/-- A decoder library for sample data: a raw transaction is one byte, the
number of tokens of a transfer; the empty byte string does not decode. -/
def sampleLibrary : Library :=
  { unmarshalSigned := fun raw => if raw = [] then none else some { Blob := raw, PublicKey := [1] }
    unmarshalTransaction := fun blob =>
      some { Method := MethodTransfer, Body := blob, Fee := some { Amount := 10, Gas := 2 } }
    unmarshalTransfer := fun body =>
      match body with
      | [n] => some ({ text := "oasis1to" }, n)
      | _ => none
    unmarshalEscrow := fun _ => none
    unmarshalBurn := fun _ => none
    unmarshalReclaimEscrow := fun _ => none
    NewAddress := fun _ => { text := "oasis1from" }
    hash := fun _ => "h"
    GasPrice := fun amount gas => amount / gas }

/-- A database that executes every statement. -/
def acceptingDb : Query → Option String := fun _ => none

/-- A database that fails every statement. -/
def refusingDb : Query → Option String := fun _ => some "connection refused"

/-- An escrow event without an add, take or reclaim part. -/
def bareEscrowEvent : StakingEvent :=
  { Transfer := none, Burn := none
    Escrow := some { Add := none, Take := none, Reclaim := none }, Unknown := none }

/-- A burn event of `n` tokens. -/
def burnEvent (n : Nat) : StakingEvent :=
  { Transfer := none
    Burn := some { Owner := { text := "oasis1owner" }, Tokens := n, Height := 0,
                   Date := { nanos := 0, offset := 0 }, Hash := "h" }
    Escrow := none, Unknown := none }

/-- A transaction with an unknown payload of the given bytes. -/
def unknownTransaction (body : List Nat) : Transaction :=
  { Fee := 0, GasPrice := 0, Hash := "h", Gas := 0, Method := "other",
    Sender := { text := "oasis1from" }, Payload := Payload.unknown { Payload := body } }

/-- Ten addresses. -/
def tenAccounts : List Address :=
  (List.range 10).map (fun i => { text := decimal i })

/-- The request `?page=2&limit=18446744073709551615` after `Paginate`. -/
def wideRequest : Request :=
  middleware.Paginate
    { query := [("page", "2"), ("limit", "18446744073709551615")], pagination := none }

/-- An escrow event with an add part only. -/
def addEvent (add : AddEscrowEvent) : StakingEvent :=
  { Transfer := none, Burn := none
    Escrow := some { Add := some add, Take := none, Reclaim := none }, Unknown := none }

/-- An escrow event with a take part only. -/
def takeEvent (take : TakeEscrowEvent) : StakingEvent :=
  { Transfer := none, Burn := none
    Escrow := some { Add := none, Take := some take, Reclaim := none }, Unknown := none }

/-- An escrow event with a reclaim part only. -/
def reclaimEvent (reclaim : ReclaimEscrowEvent) : StakingEvent :=
  { Transfer := none, Burn := none
    Escrow := some { Add := none, Take := none, Reclaim := some reclaim }, Unknown := none }

/-- The kind tag of an `insertEscrowEvent` statement: its first argument. -/
def kindTag (statement : Query) : Option Arg := statement.Args.head?

/-- A snapshot without events and transactions for the block of height `h`
observed at `t`. -/
def snapshotAt (h : Int) (t : Time) : StateSnapshot Unit Unit :=
  { Block := { ChainID := "oasis", Height := h, Time := t }, Events := [], Transactions := [] }

/-- Three snapshots, observed at 23:59:00 of 2023-01-01, and at 00:00:30 and
12:00:00 of 2023-01-02. -/
def threeSnapshots : List (StateSnapshot Unit Unit) :=
  [snapshotAt 1 (Time.Date 2023 1 1 23 59 0 0), snapshotAt 2 (Time.Date 2023 1 2 0 0 30 0),
   snapshotAt 3 (Time.Date 2023 1 2 12 0 0 0)]

/-- Twenty addresses, named "0" to "19". -/
def twentyAddresses : List Address :=
  (List.range 20).map (fun i => { text := decimal i })

/-- An account with a balance of 100 and empty pools. -/
def sampleAccount (address : Address) : Account :=
  { Address := address, Balance := "100"
    DebondingBalance := some { Balance := "0", TotalShares := "0" }
    Delegations := none, Height := 5
    Meta := { IsValidator := false, IsDelegator := false }
    StakedBalance := some { Balance := "0", TotalShares := "0" } }

/-- A handle that knows the given addresses, each with an account and no
delegations. -/
def sweepAPI (addresses : List Address) : API :=
  { Accounts := addresses
    Account := fun _ address => some (sampleAccount address)
    AccountDelegations := fun _ _ => none }

/-- An encoder that never fails, and a database in which every address but
"7" has a last reward balance (of 0). -/
def sweepEnv : SweepEnv :=
  { marshalDelegations := fun _ => some [110, 117, 108, 108]
    marshalPool := fun _ => some [123, 125]
    queryGetLastRewardBalance := fun address _ =>
      if address = "7" then some none else some (some 0) }

/-- The addresses written by the queries an inlet holds, sealed or pending,
in push order: the first argument of each. -/
def writtenFor (w : World) : List (Option Arg) :=
  (w.inlet.channel.flatten ++ w.inlet.queries).map kindTag

section WatchLoop

variable {E T : Type}

/-- No wrap-around on a value that fits. -/
theorem wrap64_eq {x : Int} (h : isInt64 x) : wrap64 x = x := by
  unfold isInt64 at h
  unfold wrap64
  omega

/-- The heights processed by two traces in a row. -/
theorem processedHeights_append (a b : List (Effect E T)) :
    processedHeights (a ++ b) = processedHeights a ++ processedHeights b := by
  induction a with
  | nil => rfl
  | cons e a ih => cases e <;> simp [processedHeights, ih]

/-- The inner loop does not run on a negative distance. -/
theorem backfill_neg (api : Api E T) (its : List String) (mh bd : Int) (s : Extractor E T)
    (h : bd < 0) : backfill api its mh bd s = s := by
  rw [backfill]
  simp [Int.not_le.mpr h]

/-- One turn of the inner loop when the API answers. -/
theorem backfill_some (api : Api E T) (its : List String) (mh bd : Int) (s : Extractor E T)
    (h : 0 ≤ bd) (fr : Frozen E T) (hfr : api s.calls (wrap64 (mh - bd)) = some fr) :
    backfill api its mh bd s =
      backfill api its mh (wrap64 (bd - 1))
        { s with
          calls := s.calls + 1
          trace := s.trace ++ turn api its s.calls (wrap64 (mh - bd)) } := by
  rw [backfill]
  simp only [h, if_true, hfr, turn, List.append_assoc]

/-- The inner loop, turn by turn, when the chain API answers every request. -/
theorem backfill_trace (api : Api E T) (hapi : ∀ n h, (api n h).isSome = true)
    (its : List String) (mh : Int) (hmh : isInt64 mh) :
    ∀ (n : Nat) (bd : Int) (s : Extractor E T), bd + 1 = (n : Int) →
      bd ≤ 9223372036854775807 → -9223372036854775808 ≤ mh - bd →
      backfill api its mh bd s =
        { s with
          calls := s.calls + n
          trace := s.trace ++ (List.range n).flatMap (fun i => turn api its (s.calls + i) (mh - bd + (i : Int))) } := by
  intro n
  induction n with
  | zero =>
    intro bd s hbd _ _
    rw [backfill_neg _ _ _ _ _ (by omega)]
    simp
  | succ n ih =>
    intro bd s hbd hhi hlo
    have hbd0 : 0 ≤ bd := by omega
    have hw1 : wrap64 (mh - bd) = mh - bd := by
      apply wrap64_eq
      unfold isInt64 at hmh ⊢
      omega
    have hw2 : wrap64 (bd - 1) = bd - 1 := by
      apply wrap64_eq
      unfold isInt64
      omega
    have hs := hapi s.calls (mh - bd)
    cases hfr : api s.calls (mh - bd) with
    | none => simp [hfr] at hs
    | some fr =>
      rw [backfill_some api its mh bd s hbd0 fr (by rw [hw1]; exact hfr), hw1, hw2,
        ih (bd - 1) _ (by omega) (by omega) (by omega)]
      have hrest : (List.range n).flatMap (fun i => turn api its (s.calls + 1 + i) (mh - (bd - 1) + (i : Int)))
          = ((List.range n).map Nat.succ).flatMap (fun i => turn api its (s.calls + i) (mh - bd + (i : Int))) := by
        rw [List.flatMap_map]
        congr 1
        funext i
        have e1 : s.calls + 1 + i = s.calls + i.succ := by omega
        have e2 : mh - (bd - 1) + (i : Int) = mh - bd + ((i.succ : Nat) : Int) := by push_cast; omega
        simp only [Function.comp, e1, e2]
      simp only [hrest, List.range_succ_eq_map, List.flatMap_cons, Nat.cast_zero, add_zero,
        Nat.add_zero, List.append_assoc]
      congr 1
      omega

/-- One turn processes one height. -/
theorem processedHeights_turn (api : Api E T) (its : List String) (c : Nat) (h : Int) :
    processedHeights (turn api its c h) = [h] := by
  have hmap : ∀ (l : List String) (snap : StateSnapshot E T) (rest : List (Effect E T)),
      processedHeights (l.map (fun it => Effect.process it snap) ++ rest) = processedHeights rest := by
    intro l snap rest
    induction l with
    | nil => rfl
    | cons a l ih => simpa [processedHeights] using ih
  unfold turn
  cases api c h with
  | none => rfl
  | some fr =>
    show processedHeights (Effect.atHeight h :: (its.map (fun iterator => Effect.process iterator
      { Block := fr.Block, Events := fr.Events, Transactions := fr.Transactions })
      ++ [Effect.exec "updateLatestSyncHeight" fr.Block.Height])) = [h]
    simp only [processedHeights, hmap]

/-- The heights processed by consecutive turns. -/
theorem processedHeights_turns (api : Api E T) (its : List String) (c : Nat) (lo : Int) (n : Nat) :
    processedHeights ((List.range n).flatMap (fun i => turn api its (c + i) (lo + (i : Int))))
      = (List.range n).map (fun (i : Nat) => lo + (i : Int)) := by
  induction n with
  | zero => rfl
  | succ n ih =>
    simp only [List.range_succ, List.flatMap_append, List.map_append, processedHeights_append, ih,
      List.flatMap_cons, List.flatMap_nil, List.append_nil, processedHeights_turn, List.map_cons,
      List.map_nil]

/-- One notification ahead of `lastHeight`. -/
theorem onBlock_ahead (api : Api E T) (hapi : ∀ n h, (api n h).isSome = true)
    (its : List String) (s : Extractor E T) (msg : Block) (hrun : s.running = true)
    (hl : isInt64 s.lastHeight) (hm : isInt64 msg.Height) (hlt : s.lastHeight < msg.Height)
    (hgap : msg.Height - s.lastHeight ≤ 9223372036854775808) :
    onBlock api its s msg =
      { lastHeight := msg.Height
        calls := s.calls + (msg.Height - s.lastHeight).toNat
        trace := s.trace ++ (List.range (msg.Height - s.lastHeight).toNat).flatMap
          (fun i => turn api its (s.calls + i) (s.lastHeight + 1 + (i : Int)))
        running := true } := by
  have hbd : wrap64 (wrap64 (msg.Height - s.lastHeight) - 1) = msg.Height - s.lastHeight - 1 := by
    unfold isInt64 at hl hm
    unfold wrap64
    omega
  unfold onBlock
  simp only [hrun, if_true, hbd]
  rw [backfill_trace api hapi its msg.Height hm (msg.Height - s.lastHeight).toNat _ s (by omega)
    (by omega) (by unfold isInt64 at hl; omega)]
  simp only [hrun, if_true]
  have e : msg.Height - (msg.Height - s.lastHeight - 1) = s.lastHeight + 1 := by omega
  rw [e]

/-- The outer loop on notifications that are all ahead. -/
theorem watch_ahead (api : Api E T) (hapi : ∀ n h, (api n h).isSome = true) (its : List String) :
    ∀ (msgs : List Block) (s : Extractor E T), s.running = true → 0 ≤ s.lastHeight →
      (∀ m ∈ msgs, isInt64 m.Height) →
      List.Chain (· < ·) s.lastHeight (msgs.map Block.Height) →
      (watch api its s msgs).running = true ∧
      (watch api its s msgs).lastHeight = (msgs.map Block.Height).getLastD s.lastHeight ∧
      (watch api its s msgs).trace = s.trace ++
        (List.range ((msgs.map Block.Height).getLastD s.lastHeight - s.lastHeight).toNat).flatMap
          (fun i => turn api its (s.calls + i) (s.lastHeight + 1 + (i : Int))) := by
  intro msgs
  induction msgs with
  | nil =>
    intro s hrun _ _ _
    simp [watch, hrun]
  | cons m ms ih =>
    intro s hrun h0 hint hch
    simp only [List.map_cons, List.chain_cons] at hch
    obtain ⟨hlt, hch⟩ := hch
    have hm : isInt64 m.Height := hint m (List.mem_cons_self _ _)
    have hl : isInt64 s.lastHeight := by
      unfold isInt64 at hm ⊢
      omega
    have hstep := onBlock_ahead api hapi its s m hrun hl hm hlt (by unfold isInt64 at hm; omega)
    have hih := ih (onBlock api its s m) (by rw [hstep]) (by rw [hstep]; show 0 ≤ m.Height; omega)
      (fun x hx => hint x (List.mem_cons_of_mem _ hx)) (by rw [hstep]; exact hch)
    have hle : m.Height ≤ (ms.map Block.Height).getLastD m.Height := by
      have : ∀ (l : List Int) (a : Int), List.Chain (· < ·) a l → a ≤ l.getLastD a := by
        intro l
        induction l with
        | nil => intro a _; simp
        | cons b l ihl =>
          intro a hc
          simp only [List.chain_cons] at hc
          have := ihl b hc.2
          simp only [List.getLastD_cons]
          omega
      exact this _ _ hch
    have hwatch : watch api its s (m :: ms) = watch api its (onBlock api its s m) ms := rfl
    rw [hwatch]
    simp only [List.map_cons, List.getLastD_cons]
    refine ⟨hih.1, ?_, ?_⟩
    · rw [hih.2.1, hstep]
    · rw [hih.2.2, hstep]
      simp only [List.append_assoc]
      congr 1
      generalize (ms.map Block.Height).getLastD m.Height = last at hle ⊢
      have e : (last - s.lastHeight).toNat = (m.Height - s.lastHeight).toNat + (last - m.Height).toNat := by
        omega
      rw [e, List.range_add, List.flatMap_append, List.flatMap_map]
      congr 1
      apply List.flatMap_congr
      intro i _
      have e1 : s.calls + (m.Height - s.lastHeight).toNat + i = s.calls + ((m.Height - s.lastHeight).toNat + i) := by
        omega
      have e2 : m.Height + 1 + (i : Int) = s.lastHeight + 1 + (((m.Height - s.lastHeight).toNat + i : Nat) : Int) := by
        push_cast
        omega
      simp only [Function.comp, e1, e2]

/-- The run of `StartExtractor` on notifications that are all ahead of the checkpoint. -/
theorem StartExtractor_ahead (api : Api E T) (hapi : ∀ n h, (api n h).isSome = true)
    (checkpoint : Option Int) (msgs : List Block) (h0 : 0 ≤ initialHeight checkpoint)
    (hint : ∀ m ∈ msgs, isInt64 m.Height)
    (hinc : List.Chain (· < ·) (initialHeight checkpoint) (msgs.map Block.Height)) :
    (StartExtractor api checkpoint msgs).running = true ∧
    (StartExtractor api checkpoint msgs).lastHeight
      = (msgs.map Block.Height).getLastD (initialHeight checkpoint) ∧
    (StartExtractor api checkpoint msgs).trace =
      (List.range ((msgs.map Block.Height).getLastD (initialHeight checkpoint)
          - initialHeight checkpoint).toNat).flatMap
        (fun i => turn api iterators i (initialHeight checkpoint + 1 + (i : Int))) := by
  have h := watch_ahead api hapi iterators msgs
    { lastHeight := initialHeight checkpoint, calls := 0, trace := [], running := true }
    rfl h0 hint hinc
  simpa [StartExtractor] using h

/-- The checkpoints written by two traces in a row. -/
theorem checkpoints_append (a b : List (Effect E T)) :
    checkpoints (a ++ b) = checkpoints a ++ checkpoints b := by
  induction a with
  | nil => rfl
  | cons e a ih => cases e <;> simp [checkpoints, ih]

/-- One turn writes the height of the block the API handed back. -/
theorem checkpoints_turn (api : Api E T) (its : List String) (c : Nat) (h : Int) :
    checkpoints (turn api its c h) = ((api c h).map (fun fr => fr.Block.Height)).toList := by
  have hmap : ∀ (l : List String) (snap : StateSnapshot E T) (rest : List (Effect E T)),
      checkpoints (l.map (fun it => Effect.process it snap) ++ rest) = checkpoints rest := by
    intro l snap rest
    induction l with
    | nil => rfl
    | cons a l ih => simpa [checkpoints] using ih
  unfold turn
  cases api c h with
  | none => rfl
  | some fr =>
    show checkpoints (Effect.atHeight h :: (its.map (fun iterator => Effect.process iterator
      { Block := fr.Block, Events := fr.Events, Transactions := fr.Transactions })
      ++ [Effect.exec "updateLatestSyncHeight" fr.Block.Height])) = _
    simp only [checkpoints, hmap]
    rfl

/-- One checkpoint write per turn of the inner loop. -/
theorem checkpoints_turns_length (api : Api E T) (hapi : ∀ n h, (api n h).isSome = true)
    (its : List String) (c : Nat) (lo : Int) (n : Nat) :
    (checkpoints ((List.range n).flatMap
      (fun i => turn api its (c + i) (lo + (i : Int))))).length = n := by
  induction n with
  | zero => rfl
  | succ n ih =>
    have hs := hapi (c + n) (lo + (n : Int))
    cases hfr : api (c + n) (lo + (n : Int)) with
    | none => simp [hfr] at hs
    | some fr =>
      simp only [List.range_succ, List.flatMap_append, checkpoints_append, List.length_append, ih,
        List.flatMap_cons, List.flatMap_nil, List.append_nil, checkpoints_turn, hfr, Option.map_some',
        Option.toList_some, List.length_singleton]

/-- C2 fails as stated: with an empty checkpoint `lastHeight` starts at 0, so
on the notifications 100, 102, 103 the heights processed are not
100, 101, 102, 103 (the first notification alone makes the loop process
1, ..., 100). -/
theorem empty_checkpoint_not_from_100 :
    processedHeights (StartExtractor fixedApi none [blockAt 100, blockAt 102, blockAt 103]).trace
      ≠ [100, 101, 102, 103] := by
  have h := (StartExtractor_ahead fixedApi (fun _ _ => rfl) none
    [blockAt 100, blockAt 102, blockAt 103] (by decide) (by decide) (by simp [blockAt, initialHeight])).2.2
  rw [h]
  have := processedHeights_turns fixedApi iterators 0 1 103
  simp only [Nat.zero_add] at this
  have e : ((List.map Block.Height [blockAt 100, blockAt 102, blockAt 103]).getLastD (initialHeight none)
      - initialHeight none).toNat = 103 := by decide
  have e2 : initialHeight none + 1 = 1 := by decide
  rw [e, e2, this]
  decide

/-- C2, amended: with an empty checkpoint `lastHeight` starts at 0; on three
notifications of heights 100, 102, 103 (the chain API answering each request)
the loop processes the heights 1, 2, ..., 103 in ascending order, each turn
being `AtHeight`, the stages, then one write of `updateLatestSyncHeight`
(103 writes in all), and `lastHeight` ends at 103. -/
theorem empty_checkpoint_scenario (api : Api E T) (hapi : ∀ n h, (api n h).isSome = true)
    (b1 b2 b3 : Block) (h1 : b1.Height = 100) (h2 : b2.Height = 102) (h3 : b3.Height = 103) :
    processedHeights (StartExtractor api none [b1, b2, b3]).trace = heightRange 1 103 ∧
      (StartExtractor api none [b1, b2, b3]).trace
        = (List.range 103).flatMap (fun i => turn api iterators i (1 + (i : Int))) ∧
      (checkpoints (StartExtractor api none [b1, b2, b3]).trace).length = 103 ∧
      (StartExtractor api none [b1, b2, b3]).lastHeight = 103 ∧
      (StartExtractor api none [b1, b2, b3]).running = true := by
  have h := StartExtractor_ahead api hapi none [b1, b2, b3] (by decide)
    (by simp [h1, h2, h3]; decide) (by simp [h1, h2, h3, initialHeight])
  have e : ((List.map Block.Height [b1, b2, b3]).getLastD (initialHeight none)
      - initialHeight none).toNat = 103 := by
    simp [h3, initialHeight]
  have e2 : initialHeight none + 1 = 1 := by decide
  rw [e, e2] at h
  have hl : (List.map Block.Height [b1, b2, b3]).getLastD (initialHeight none) = 103 := by
    simp [h3]
  rw [hl] at h
  have hp := processedHeights_turns api iterators 0 1 103
  simp only [Nat.zero_add] at hp
  refine ⟨?_, h.2.2, ?_, h.2.1, h.1⟩
  · rw [h.2.2, hp]
    rfl
  · rw [h.2.2]
    have := checkpoints_turns_length api hapi iterators 0 1 103
    simpa only [Nat.zero_add] using this

/-- Witness of the amended C2: the scenario on the sample API. -/
theorem empty_checkpoint_scenario_witness :
    (StartExtractor fixedApi none [blockAt 100, blockAt 102, blockAt 103]).lastHeight = 103 :=
  (empty_checkpoint_scenario fixedApi (fun _ _ => rfl) (blockAt 100) (blockAt 102) (blockAt 103)
    rfl rfl rfl).2.2.2.1

/-- A notification that is not ahead of `lastHeight`: the inner loop does not
run and `lastHeight` is assigned the height of the notification. -/
theorem onBlock_behind (api : Api E T) (its : List String) (s : Extractor E T) (msg : Block)
    (hrun : s.running = true) (hl : isInt64 s.lastHeight) (hm : 0 ≤ msg.Height)
    (hle : msg.Height ≤ s.lastHeight) :
    onBlock api its s msg = { s with lastHeight := msg.Height } := by
  have hbd : wrap64 (wrap64 (msg.Height - s.lastHeight) - 1) = msg.Height - s.lastHeight - 1 := by
    unfold isInt64 at hl
    unfold wrap64
    omega
  unfold onBlock
  simp only [hrun, if_true, hbd]
  rw [backfill_neg _ _ _ _ _ (by omega)]
  simp only [hrun, if_true]

/-- C3 fails as stated: with `lastHeight = 103`, a notification of height 100
leaves `lastHeight` at 100, not at its previous value 103. -/
theorem stale_notification_changes_lastHeight :
    (onBlock fixedApi iterators { lastHeight := 103, calls := 0, trace := [], running := true }
      (blockAt 100)).lastHeight ≠ 103 := by
  rw [onBlock_behind fixedApi iterators _ (blockAt 100) rfl (by decide) (by decide) (by decide)]
  decide

/-- C3, amended: for every notification whose height (a height, so not
negative) is less than or equal to `lastHeight`, the watch loop invokes no
stage, writes no checkpoint and makes no API call (the trace and the call
count are unchanged), and it sets `lastHeight` to the height of the
notification; so `lastHeight` keeps its value exactly for a duplicate of the
last notification. -/
theorem stale_notification_no_effects (api : Api E T) (its : List String) (s : Extractor E T)
    (msg : Block) (hrun : s.running = true) (hl : isInt64 s.lastHeight) (hm : 0 ≤ msg.Height)
    (hle : msg.Height ≤ s.lastHeight) :
    (onBlock api its s msg).trace = s.trace ∧
      stageCalls (onBlock api its s msg).trace = stageCalls s.trace ∧
      checkpoints (onBlock api its s msg).trace = checkpoints s.trace ∧
      (onBlock api its s msg).calls = s.calls ∧
      (onBlock api its s msg).lastHeight = msg.Height ∧
      ((onBlock api its s msg).lastHeight = s.lastHeight ↔ msg.Height = s.lastHeight) := by
  rw [onBlock_behind api its s msg hrun hl hm hle]
  exact ⟨rfl, rfl, rfl, rfl, rfl, Iff.rfl⟩

/-- Witness of the amended C3: `lastHeight = 103`, notification of height 100. -/
theorem stale_notification_no_effects_witness :
    (onBlock fixedApi iterators { lastHeight := 103, calls := 0, trace := [], running := true }
      (blockAt 100)).lastHeight = 100 :=
  (stale_notification_no_effects fixedApi iterators
    { lastHeight := 103, calls := 0, trace := [], running := true } (blockAt 100)
    rfl (by decide) (by decide) (by decide)).2.2.2.2.1

/-- The chain API of the running program answers every request when the node
has every block. -/
theorem tipApi_answers (tip : Int) : ∀ n h, (tipApi tip n h).isSome = true := by
  intro n h
  rfl

/-- C4, the defect: `AtHeight` hands back the manager itself, so the block the
loop gets from it is the published one.  With the published state at height
103, `lastHeight = 99` and one notification of height 103, the loop asks for
100, 101, 102, 103, but every stage call gets the block of height 103 and
every checkpoint written is 103: after the first turn the checkpoint (103) is
ahead of the only height processed (100). -/
theorem checkpoint_ahead_of_processed_height :
    outline (StartExtractor (tipApi 103) (some 99) [blockAt 103]).trace =
      [("AtHeight", 100), ("SnapshotIterator", 103), ("updateLatestSyncHeight", 103),
       ("AtHeight", 101), ("SnapshotIterator", 103), ("updateLatestSyncHeight", 103),
       ("AtHeight", 102), ("SnapshotIterator", 103), ("updateLatestSyncHeight", 103),
       ("AtHeight", 103), ("SnapshotIterator", 103), ("updateLatestSyncHeight", 103)] := by
  rw [(StartExtractor_ahead (tipApi 103) (tipApi_answers 103) (some 99) [blockAt 103]
    (by decide) (by decide) (by simp [blockAt, initialHeight])).2.2]
  decide

/-- With a chain API that hands back for every requested height the block of
that height, each turn writes the height it processed as the checkpoint. -/
theorem checkpoints_turns_conforming (api : Api E T) (hapi : ∀ n h, (api n h).isSome = true)
    (hfix : ∀ n h fr, api n h = some fr → fr.Block.Height = h)
    (its : List String) (c : Nat) (lo : Int) (n : Nat) :
    checkpoints ((List.range n).flatMap (fun i => turn api its (c + i) (lo + (i : Int))))
      = (List.range n).map (fun (i : Nat) => lo + (i : Int)) := by
  induction n with
  | zero => rfl
  | succ n ih =>
    have hs := hapi (c + n) (lo + (n : Int))
    cases hfr : api (c + n) (lo + (n : Int)) with
    | none => simp [hfr] at hs
    | some fr =>
      simp only [List.range_succ, List.flatMap_append, checkpoints_append, ih,
        List.flatMap_cons, List.flatMap_nil, List.append_nil, checkpoints_turn, hfr, Option.map_some',
        Option.toList_some, List.map_append, List.map_cons, List.map_nil, hfix _ _ fr hfr]

/-- The watch loop is right about checkpoints as far as the chain API is:
with an API whose `AtHeight(h)` hands back the block of height `h`, the
checkpoints written are exactly the heights processed, in order. -/
theorem checkpoints_follow_conforming_api (api : Api E T)
    (hapi : ∀ n h, (api n h).isSome = true)
    (hfix : ∀ n h fr, api n h = some fr → fr.Block.Height = h)
    (checkpoint : Option Int) (msgs : List Block) (h0 : 0 ≤ initialHeight checkpoint)
    (hint : ∀ m ∈ msgs, isInt64 m.Height)
    (hinc : List.Chain (· < ·) (initialHeight checkpoint) (msgs.map Block.Height)) :
    checkpoints (StartExtractor api checkpoint msgs).trace
      = processedHeights (StartExtractor api checkpoint msgs).trace := by
  rw [(StartExtractor_ahead api hapi checkpoint msgs h0 hint hinc).2.2]
  have h1 := checkpoints_turns_conforming api hapi hfix iterators 0 (initialHeight checkpoint + 1)
    ((msgs.map Block.Height).getLastD (initialHeight checkpoint) - initialHeight checkpoint).toNat
  have h2 := processedHeights_turns api iterators 0 (initialHeight checkpoint + 1)
    ((msgs.map Block.Height).getLastD (initialHeight checkpoint) - initialHeight checkpoint).toNat
  simp only [Nat.zero_add] at h1 h2
  rw [h1, h2]

end WatchLoop

/-! ## The inlet -/

/-- Pushing queries while the batch stays below `syncAt` only extends the
pending batch. -/
theorem pushAll_below (qs : List Query) :
    ∀ (w : World), ((w.inlet.queries.length + qs.length : Nat) : Int) < w.inlet.syncAt →
      pushAll w qs = { w with inlet := { w.inlet with queries := w.inlet.queries ++ qs } } := by
  induction qs with
  | nil =>
    intro w _
    simp [pushAll]
  | cons q qs ih =>
    intro w h
    have hstep : PushQuery w q.Query q.Args
        = { w with inlet := { w.inlet with queries := w.inlet.queries ++ [q] } } := by
      unfold PushQuery
      have : ((w.inlet.queries ++ [q]).length : Int) ≠ w.inlet.syncAt := by
        simp only [List.length_append, List.length_cons, List.length_nil] at h ⊢
        omega
      simp only [this, if_false]
    have hp : pushAll w (q :: qs) = pushAll (PushQuery w q.Query q.Args) qs := rfl
    rw [hp, hstep, ih]
    · simp
    · simp only [List.length_append, List.length_cons, List.length_nil] at h ⊢
      omega

/-- Pushing two lists of queries in a row. -/
theorem pushAll_append (w : World) (qs rs : List Query) :
    pushAll w (qs ++ rs) = pushAll (pushAll w qs) rs := by
  simp [pushAll, List.foldl_append]

/-- C5: for every `syncAt >= 1`, starting from an empty pending batch, pushing
exactly `syncAt` queries hands exactly one sealed batch to the dispatch queue
(the queue grows by one batch), that batch is those queries in push order, and
the pending batch is empty afterwards; pushing fewer than `syncAt` queries
dispatches nothing (the queue is unchanged and the queries are pending). -/
theorem push_syncAt_seals_one_batch (w : World) (qs : List Query)
    (hsync : 1 ≤ w.inlet.syncAt) (hempty : w.inlet.queries = []) :
    ((qs.length : Int) = w.inlet.syncAt →
        (pushAll w qs).inlet.channel = w.inlet.channel ++ [qs] ∧
        (pushAll w qs).inlet.queries = []) ∧
      ((qs.length : Int) < w.inlet.syncAt →
        (pushAll w qs).inlet.channel = w.inlet.channel ∧
        (pushAll w qs).inlet.queries = qs) := by
  constructor
  · intro hlen
    have hne : qs ≠ [] := by
      intro h
      rw [h] at hlen
      simp at hlen
      omega
    obtain ⟨init, q, rfl⟩ : ∃ init q, qs = init ++ [q] :=
      ⟨qs.dropLast, qs.getLast hne, (List.dropLast_append_getLast hne).symm⟩
    rw [pushAll_append, pushAll_below init w (by
      simp only [hempty, List.length_nil, Nat.zero_add]
      simp only [List.length_append, List.length_cons, List.length_nil] at hlen
      omega)]
    simp only [pushAll, List.foldl_cons, List.foldl_nil, PushQuery, hempty, List.nil_append]
    simp only [hlen, if_true, and_self]
  · intro hlen
    rw [pushAll_below qs w (by simp only [hempty, List.length_nil, Nat.zero_add]; exact hlen)]
    simp [hempty]

/-- The encoding loop when every record can be written. -/
theorem encodeAll_ok (encode : Query → Option String) (enc : Query → String) (queries : Batch)
    (henc : ∀ q ∈ queries, encode q = some (enc q)) :
    encodeAll encode queries = (queries.map enc, true) := by
  induction queries with
  | nil => rfl
  | cons q rest ih =>
    have hq := henc q (List.mem_cons_self _ _)
    have hrest := ih (fun x hx => henc x (List.mem_cons_of_mem _ hx))
    simp only [encodeAll, hq, hrest, List.map_cons]

/-- Result of `batchToDisk` when the file can be created and every record written. -/
theorem batchToDisk_ok (env : Env) (enc : Query → String) (w : World) (queries : Batch)
    (hcreate : env.create (logFileName w.inlet.createdAt env.now.UnixNano) = true)
    (henc : ∀ q ∈ queries, env.encode q = some (enc q)) :
    batchToDisk env w queries =
      { w with
        files := w.files ++ [{ name := logFileName w.inlet.createdAt env.now.UnixNano
                               records := queries.map enc }]
        panicked := false } := by
  simp only [batchToDisk, hcreate, if_true, encodeAll_ok env.encode enc queries henc, Bool.not_true]

/-- Function `batchToDisk` touches only the journal files and the panic flag. -/
theorem batchToDisk_frame (env : Env) (w : World) (queries : Batch) :
    (batchToDisk env w queries).inlet = w.inlet ∧
      (batchToDisk env w queries).started = w.started ∧
      (batchToDisk env w queries).written = w.written ∧
      (batchToDisk env w queries).errors = w.errors := by
  by_cases h : env.create (logFileName w.inlet.createdAt env.now.UnixNano) = true
  · simp [batchToDisk, h]
  · simp [batchToDisk, h]

/-- C6: when the inlet is in mode `TO_DATABASE` and the durable-write callback
returns an error for the batch the worker receives, the worker sets the write
mode to `TO_DISK` (whatever happens next) and, the journal file being created
and every record written without error, adds one journal file whose records
are the serialized queries of that batch, one per query, all of them, in the
order of the batch. -/
theorem failed_write_spills_batch (env : Env) (enc : Query → String) (w : World)
    (batch : Batch) (rest : List Batch) (err : String)
    (hrun : w.panicked = false) (hchan : w.inlet.channel = batch :: rest)
    (hmode : w.inlet.writeMode = TO_DATABASE)
    (hfail : w.inlet.writeHandler w.written.length batch = some err) :
    (worker env w).inlet.writeMode = TO_DISK ∧
      (worker env w).written = w.written ++ [batch] ∧
      (worker env w).errors = w.errors ++ [w.inlet.errHandler err] ∧
      (env.create (logFileName w.inlet.createdAt env.now.UnixNano) = true →
        (∀ q ∈ batch, env.encode q = some (enc q)) →
        (worker env w).files = w.files ++
            [{ name := logFileName w.inlet.createdAt env.now.UnixNano
               records := batch.map enc }] ∧
          (worker env w).panicked = false) := by
  have hm : ¬ (w.inlet.writeMode = TO_DISK) := by
    rw [hmode]
    decide
  have hw : worker env w = batchToDisk env
      { w with
        inlet := { w.inlet with channel := rest, writeMode := TO_DISK }
        started := w.started ++ [batch]
        written := w.written ++ [batch]
        errors := w.errors ++ [w.inlet.errHandler err] } batch := by
    simp only [worker, hrun, hchan, hm, batchToDB, hfail, if_false, Bool.false_eq_true]
  refine ⟨?_, ?_, ?_, ?_⟩
  · rw [hw, (batchToDisk_frame env _ batch).1]
  · rw [hw, (batchToDisk_frame env _ batch).2.2.1]
  · rw [hw, (batchToDisk_frame env _ batch).2.2.2]
  · intro hcreate henc
    have hk := batchToDisk_ok env enc
      { w with
        inlet := { w.inlet with channel := rest, writeMode := TO_DISK }
        started := w.started ++ [batch]
        written := w.written ++ [batch]
        errors := w.errors ++ [w.inlet.errHandler err] } batch hcreate henc
    rw [hw, hk]
    exact ⟨rfl, rfl⟩

/-- Function `PushQuery` touches only the pending batch and the channel. -/
theorem PushQuery_frame (w : World) (query : String) (args : List Arg) :
    (PushQuery w query args).inlet.writeMode = w.inlet.writeMode ∧
      (PushQuery w query args).started = w.started ∧
      (PushQuery w query args).written = w.written ∧
      (PushQuery w query args).files = w.files ∧
      (PushQuery w query args).panicked = w.panicked := by
  unfold PushQuery
  simp only []
  split <;> exact ⟨rfl, rfl, rfl, rfl, rfl⟩

/-- In mode `TO_DISK` a turn of the worker keeps the mode and does not call
the write callback. -/
theorem worker_disk_mode (env : Env) (w : World) (hmode : w.inlet.writeMode = TO_DISK) :
    (worker env w).inlet.writeMode = TO_DISK ∧ (worker env w).written = w.written := by
  unfold worker
  by_cases hp : w.panicked = true
  · simp [hp, hmode]
  · cases hc : w.inlet.channel with
    | nil => simp [hp, hmode]
    | cons batch rest =>
      simp only [hp, hmode, if_true, if_false, Bool.false_eq_true]
      rw [(batchToDisk_frame env _ batch).1, (batchToDisk_frame env _ batch).2.2.1]
      exact ⟨rfl, rfl⟩

/-- In mode `TO_DISK`, with a working journal, a turn of the worker either
does nothing or journals the oldest batch of the channel. -/
theorem worker_disk_journal (env : Env) (enc : Query → String) (w : World)
    (hmode : w.inlet.writeMode = TO_DISK) (hrun : w.panicked = false)
    (hcreate : ∀ name, env.create name = true) (henc : ∀ q, env.encode q = some (enc q)) :
    (worker env w).panicked = false ∧
      ∃ handled : List Batch,
        (worker env w).started = w.started ++ handled ∧
        (worker env w).files.map JournalFile.records
          = w.files.map JournalFile.records ++ handled.map (List.map enc) := by
  unfold worker
  cases hc : w.inlet.channel with
  | nil =>
    simp only [hrun, if_false, Bool.false_eq_true]
    exact ⟨trivial, [], by simp, by simp⟩
  | cons batch rest =>
    simp only [hrun, hmode, if_true, if_false, Bool.false_eq_true]
    rw [batchToDisk_ok env enc _ batch (hcreate _) (fun q _ => henc q)]
    exact ⟨rfl, [batch], rfl, by simp⟩

/-- Mode `TO_DISK` is kept by every sequence of actions, and the write
callback is not called. -/
theorem run_disk_mode (actions : List Action) :
    ∀ (w : World), w.inlet.writeMode = TO_DISK →
      (run w actions).inlet.writeMode = TO_DISK ∧ (run w actions).written = w.written := by
  induction actions with
  | nil => intro w h; exact ⟨h, rfl⟩
  | cons a rest ih =>
    intro w h
    have hr : run w (a :: rest) = run (step w a) rest := rfl
    rw [hr]
    cases a with
    | push query args =>
      have hf := PushQuery_frame w query args
      have := ih (PushQuery w query args) (by rw [hf.1]; exact h)
      exact ⟨this.1, this.2.trans hf.2.2.1⟩
    | flush env =>
      have hf := worker_disk_mode env w h
      have := ih (worker env w) hf.1
      exact ⟨this.1, this.2.trans hf.2⟩

/-- In mode `TO_DISK`, with a working journal, every batch received is
journaled. -/
theorem run_disk_journal (enc : Query → String) (actions : List Action) :
    ∀ (w : World), w.inlet.writeMode = TO_DISK → w.panicked = false →
      (∀ env, Action.flush env ∈ actions →
        (∀ name, env.create name = true) ∧ (∀ q, env.encode q = some (enc q))) →
      (run w actions).panicked = false ∧
      ∃ handled : List Batch,
        (run w actions).started = w.started ++ handled ∧
        (run w actions).files.map JournalFile.records
          = w.files.map JournalFile.records ++ handled.map (List.map enc) := by
  induction actions with
  | nil => intro w _ hp _; exact ⟨hp, [], by simp [run], by simp [run]⟩
  | cons a rest ih =>
    intro w h hp hj
    have hr : run w (a :: rest) = run (step w a) rest := rfl
    rw [hr]
    have hjr : ∀ env, Action.flush env ∈ rest →
        (∀ name, env.create name = true) ∧ (∀ q, env.encode q = some (enc q)) :=
      fun x hx => hj x (List.mem_cons_of_mem _ hx)
    cases a with
    | push query args =>
      have hf := PushQuery_frame w query args
      obtain ⟨h1, handled, h2, h3⟩ := ih (PushQuery w query args) (by rw [hf.1]; exact h)
        (by rw [hf.2.2.2.2]; exact hp) hjr
      refine ⟨h1, handled, ?_, ?_⟩
      · rw [← hf.2.1]; exact h2
      · rw [← hf.2.2.2.1]; exact h3
    | flush env =>
      have hja := hj env (List.mem_cons_self _ _)
      obtain ⟨k1, first, k2, k3⟩ := worker_disk_journal env enc w h hp hja.1 hja.2
      obtain ⟨h1, handled, h2, h3⟩ := ih (worker env w) (worker_disk_mode env w h).1 k1 hjr
      refine ⟨h1, first ++ handled, ?_, ?_⟩
      · show (run (worker env w) rest).started = _
        rw [h2, k2, List.append_assoc]
      · show List.map JournalFile.records (run (worker env w) rest).files = _
        rw [h3, k3, List.map_append, List.append_assoc]

/-- Function `batchToDB` leaves the channel, the pending batch and the list of batches
received alone. -/
theorem batchToDB_frame (env : Env) (w : World) (queries : Batch) :
    (batchToDB env w queries).inlet.channel = w.inlet.channel ∧
      (batchToDB env w queries).inlet.queries = w.inlet.queries ∧
      (batchToDB env w queries).started = w.started := by
  unfold batchToDB
  cases w.inlet.writeHandler w.written.length queries with
  | none => exact ⟨rfl, rfl, rfl⟩
  | some err =>
    simp only []
    rw [(batchToDisk_frame env _ queries).1, (batchToDisk_frame env _ queries).2.1]
    exact ⟨rfl, rfl, rfl⟩

/-- A turn of the worker handles at most one batch, the oldest of the channel,
and leaves the pending batch alone. -/
theorem worker_takes_oldest (env : Env) (w : World) :
    (worker env w).inlet.queries = w.inlet.queries ∧
      (((worker env w).started = w.started ∧ (worker env w).inlet.channel = w.inlet.channel) ∨
        ∃ batch rest, w.inlet.channel = batch :: rest ∧
          (worker env w).started = w.started ++ [batch] ∧
          (worker env w).inlet.channel = rest) := by
  unfold worker
  by_cases hp : w.panicked = true
  · simp [hp]
  · cases hc : w.inlet.channel with
    | nil => simp [hp, hc]
    | cons batch rest =>
      simp only [hp, if_false, Bool.false_eq_true]
      split
      · rw [(batchToDisk_frame env _ batch).1, (batchToDisk_frame env _ batch).2.1]
        exact ⟨rfl, Or.inr ⟨batch, rest, rfl, rfl, rfl⟩⟩
      · rw [(batchToDB_frame env _ batch).1, (batchToDB_frame env _ batch).2.1,
          (batchToDB_frame env _ batch).2.2]
        exact ⟨rfl, Or.inr ⟨batch, rest, rfl, rfl, rfl⟩⟩

/-- The batches sealed so far, in seal order (those received by the worker,
then those waiting in the channel), only grow at the end in one step, so do
the batches received, and the queries of all of them followed by the pending
ones grow by the query pushed. -/
theorem step_history (w : World) (a : Action) :
    (w.started ++ w.inlet.channel) <+: ((step w a).started ++ (step w a).inlet.channel) ∧
      w.started <+: (step w a).started ∧
      ((step w a).started ++ (step w a).inlet.channel).flatten ++ (step w a).inlet.queries
        = (w.started ++ w.inlet.channel).flatten ++ w.inlet.queries ++ pushed [a] := by
  cases a with
  | push query args =>
    simp only [step, PushQuery, pushed]
    split
    · refine ⟨⟨[w.inlet.queries ++ [{ Query := query, Args := args }]], ?_⟩, List.prefix_refl _, ?_⟩
      · simp
      · simp
    · exact ⟨List.prefix_refl _, List.prefix_refl _, by simp⟩
  | flush env =>
    have h := worker_takes_oldest env w
    simp only [step, pushed, List.append_nil]
    rcases h with ⟨hq, ⟨h1, h2⟩ | ⟨batch, rest, hc, h1, h2⟩⟩
    · rw [hq, h1, h2]
      exact ⟨List.prefix_refl _, List.prefix_refl _, rfl⟩
    · rw [hq, h1, h2, hc]
      simp only [List.append_assoc, List.singleton_append]
      exact ⟨List.prefix_refl _, List.prefix_append _ _, trivial⟩

/-- The history of sealed batches over a sequence of actions. -/
theorem run_history (actions : List Action) :
    ∀ (w : World),
      (w.started ++ w.inlet.channel) <+: ((run w actions).started ++ (run w actions).inlet.channel) ∧
      w.started <+: (run w actions).started ∧
      ((run w actions).started ++ (run w actions).inlet.channel).flatten ++ (run w actions).inlet.queries
        = (w.started ++ w.inlet.channel).flatten ++ w.inlet.queries ++ pushed actions := by
  induction actions with
  | nil => intro w; exact ⟨List.prefix_refl _, List.prefix_refl _, by simp [run, pushed]⟩
  | cons a rest ih =>
    intro w
    have hr : run w (a :: rest) = run (step w a) rest := rfl
    have hp : pushed (a :: rest) = pushed [a] ++ pushed rest := by
      cases a <;> simp [pushed]
    obtain ⟨s1, s2, s3⟩ := step_history w a
    obtain ⟨r1, r2, r3⟩ := ih (step w a)
    rw [hr]
    refine ⟨s1.trans r1, s2.trans r2, ?_⟩
    rw [r3, s3, hp]
    simp only [List.append_assoc]

/-- In mode `TO_DISK`, a turn of the worker on a waiting batch, the journal
file being created and the records written: the batch leaves the channel and
gets a journal file of its own. -/
theorem worker_disk_turn (env : Env) (enc : Query → String) (w : World) (batch : Batch)
    (rest : List Batch) (hmode : w.inlet.writeMode = TO_DISK) (hrun : w.panicked = false)
    (hchan : w.inlet.channel = batch :: rest)
    (hcreate : env.create (logFileName w.inlet.createdAt env.now.UnixNano) = true)
    (henc : ∀ q ∈ batch, env.encode q = some (enc q)) :
    worker env w =
      { w with
        inlet := { w.inlet with channel := rest }
        started := w.started ++ [batch]
        files := w.files ++ [{ name := logFileName w.inlet.createdAt env.now.UnixNano
                               records := batch.map enc }]
        panicked := false } := by
  have hw : worker env w = batchToDisk env
      { w with inlet := { w.inlet with channel := rest }, started := w.started ++ [batch] }
      batch := by
    simp only [worker, hrun, hchan, hmode, if_true, if_false, Bool.false_eq_true]
  rw [hw]
  exact batchToDisk_ok env enc
    { w with inlet := { w.inlet with channel := rest }, started := w.started ++ [batch] }
    batch hcreate henc

/-- In mode `TO_DISK`, with a working journal, as many turns of the worker as
there are batches waiting journal all of them, in order, without a call of the
write callback. -/
theorem drain_to_disk (env : Env) (enc : Query → String)
    (hcreate : ∀ name, env.create name = true) (henc : ∀ q, env.encode q = some (enc q)) :
    ∀ (channel : List Batch) (s : World), s.inlet.channel = channel →
      s.inlet.writeMode = TO_DISK → s.panicked = false →
      (run s (List.replicate channel.length (Action.flush env))).inlet.channel = [] ∧
      (run s (List.replicate channel.length (Action.flush env))).started
        = s.started ++ channel ∧
      (run s (List.replicate channel.length (Action.flush env))).files.map JournalFile.records
        = s.files.map JournalFile.records ++ channel.map (List.map enc) ∧
      (run s (List.replicate channel.length (Action.flush env))).written = s.written ∧
      (run s (List.replicate channel.length (Action.flush env))).panicked = false ∧
      (run s (List.replicate channel.length (Action.flush env))).inlet.writeMode
        = TO_DISK := by
  intro channel
  induction channel with
  | nil =>
    intro s hc hmode hrun
    have hr : run s (List.replicate ([] : List Batch).length (Action.flush env)) = s := rfl
    rw [hr]
    exact ⟨hc, by simp, by simp, rfl, hrun, hmode⟩
  | cons batch rest ih =>
    intro s hc hmode hrun
    have hstep : run s (List.replicate (batch :: rest).length (Action.flush env))
        = run (worker env s) (List.replicate rest.length (Action.flush env)) := rfl
    have hw := worker_disk_turn env enc s batch rest hmode hrun hc (hcreate _)
      (fun q _ => henc q)
    rw [hstep]
    obtain ⟨h1, h2, h3, h4, h5, h6⟩ := ih (worker env s) (by rw [hw]) (by rw [hw]; exact hmode)
      (by rw [hw])
    refine ⟨h1, ?_, ?_, ?_, h5, h6⟩
    · rw [h2, hw]
      simp
    · rw [h3, hw]
      simp
    · rw [h4, hw]

/-- C7: the `TO_DISK` write mode is sticky.  From a state whose mode is
`TO_DISK`, after every sequence of `PushQuery` calls and worker turns the mode
is still `TO_DISK` (never `TO_DATABASE`) and the durable-write callback has not
been called again.  In the state reached, a turn of the worker on a waiting
batch, the journal file being created and written without error, takes the
oldest batch from the channel and writes it to a journal file of its own, all
its queries in order.  With a working journal throughout, every batch the
worker has received has been written to a journal file of its own, in the
order received, the batches that were waiting at the start being received
first; and as many further turns of the worker as there are batches waiting
journal every one of them, in seal order, still without a call of the
callback. -/
theorem to_disk_is_sticky (enc : Query → String) (w : World) (actions : List Action)
    (hmode : w.inlet.writeMode = TO_DISK) :
    (run w actions).inlet.writeMode = TO_DISK ∧
      (run w actions).inlet.writeMode ≠ TO_DATABASE ∧
      (run w actions).written = w.written ∧
      (∀ env batch rest, (run w actions).panicked = false →
        (run w actions).inlet.channel = batch :: rest →
        env.create (logFileName (run w actions).inlet.createdAt env.now.UnixNano) = true →
        (∀ q ∈ batch, env.encode q = some (enc q)) →
        worker env (run w actions) =
          { run w actions with
            inlet := { (run w actions).inlet with channel := rest }
            started := (run w actions).started ++ [batch]
            files := (run w actions).files ++
              [{ name := logFileName (run w actions).inlet.createdAt env.now.UnixNano
                 records := batch.map enc }]
            panicked := false }) ∧
      (w.panicked = false →
        (∀ env, Action.flush env ∈ actions →
          (∀ name, env.create name = true) ∧ (∀ q, env.encode q = some (enc q))) →
        (run w actions).panicked = false ∧
        (∃ handled : List Batch,
          (run w actions).started = w.started ++ handled ∧
          (run w actions).files.map JournalFile.records
            = w.files.map JournalFile.records ++ handled.map (List.map enc) ∧
          w.inlet.channel <+: handled ++ (run w actions).inlet.channel) ∧
        ∀ env, (∀ name, env.create name = true) → (∀ q, env.encode q = some (enc q)) →
          (run (run w actions)
              (List.replicate (run w actions).inlet.channel.length
                (Action.flush env))).inlet.channel = [] ∧
          (run (run w actions)
              (List.replicate (run w actions).inlet.channel.length
                (Action.flush env))).files.map JournalFile.records
            = (run w actions).files.map JournalFile.records
              ++ (run w actions).inlet.channel.map (List.map enc) ∧
          (run (run w actions)
              (List.replicate (run w actions).inlet.channel.length
                (Action.flush env))).written = w.written ∧
          (run (run w actions)
              (List.replicate (run w actions).inlet.channel.length
                (Action.flush env))).inlet.writeMode = TO_DISK) := by
  have h := run_disk_mode actions w hmode
  refine ⟨h.1, ?_, h.2, ?_, ?_⟩
  · rw [h.1]
    decide
  · intro env batch rest hrun hchan hcreate henc
    exact worker_disk_turn env enc (run w actions) batch rest h.1 hrun hchan hcreate henc
  · intro hp hj
    obtain ⟨hpan, handled, hs, hf⟩ := run_disk_journal enc actions w hmode hp hj
    refine ⟨hpan, ⟨handled, hs, hf, ?_⟩, ?_⟩
    · have hpre := (run_history actions w).1
      rw [hs, List.append_assoc] at hpre
      exact (List.prefix_append_right_inj _).mp hpre
    · intro env hcreate henc
      obtain ⟨d1, _, d3, d4, _, d6⟩ := drain_to_disk env enc hcreate henc
        (run w actions).inlet.channel (run w actions) rfl h.1 hpan
      exact ⟨d1, d3, d4.trans h.2, d6⟩

/-- A turn of the worker while the channel is empty, or after a panic, changes
nothing. -/
theorem worker_idle (env : Env) (w : World) (h : w.panicked = true ∨ w.inlet.channel = []) :
    worker env w = w := by
  unfold worker
  rcases h with h | h
  · simp [h]
  · by_cases hp : w.panicked = true
    · simp [hp]
    · simp [hp, h]

/-- A turn of the worker on a waiting batch: the oldest batch leaves the
channel and is handled, by a call of the write callback on it unless the mode
is `TO_DISK`, and by a journal file for it in mode `TO_DISK` or when the
callback refuses it. -/
theorem worker_turn (env : Env) (w : World) (batch : Batch) (rest : List Batch)
    (hrun : w.panicked = false) (hchan : w.inlet.channel = batch :: rest) :
    (worker env w).started = w.started ++ [batch] ∧
      (worker env w).inlet.channel = rest ∧
      (worker env w).inlet.queries = w.inlet.queries ∧
      (w.inlet.writeMode ≠ TO_DISK →
        (worker env w).written = w.written ++ [batch] ∧
        (w.inlet.writeHandler w.written.length batch = none →
          (worker env w).files = w.files ∧
          (worker env w).inlet.writeMode = w.inlet.writeMode ∧
          (worker env w).panicked = false) ∧
        (∀ err, w.inlet.writeHandler w.written.length batch = some err →
          (worker env w).inlet.writeMode = TO_DISK ∧
          (env.create (logFileName w.inlet.createdAt env.now.UnixNano) = true →
            (worker env w).files = w.files ++
              [{ name := logFileName w.inlet.createdAt env.now.UnixNano
                 records := (encodeAll env.encode batch).1 }]))) ∧
      (w.inlet.writeMode = TO_DISK →
        (worker env w).written = w.written ∧
        (worker env w).inlet.writeMode = TO_DISK ∧
        (env.create (logFileName w.inlet.createdAt env.now.UnixNano) = true →
          (worker env w).files = w.files ++
            [{ name := logFileName w.inlet.createdAt env.now.UnixNano
               records := (encodeAll env.encode batch).1 }])) := by
  have hdisk : ∀ (v : World),
      env.create (logFileName v.inlet.createdAt env.now.UnixNano) = true →
      (batchToDisk env v batch).files = v.files ++
        [{ name := logFileName v.inlet.createdAt env.now.UnixNano
           records := (encodeAll env.encode batch).1 }] := by
    intro v hc
    simp only [batchToDisk, hc, if_true]
  by_cases hmode : w.inlet.writeMode = TO_DISK
  · have hw : worker env w = batchToDisk env
        { w with inlet := { w.inlet with channel := rest }, started := w.started ++ [batch] }
        batch := by
      simp only [worker, hrun, hchan, hmode, if_true, if_false, Bool.false_eq_true]
    have hf := batchToDisk_frame env
      { w with inlet := { w.inlet with channel := rest }, started := w.started ++ [batch] } batch
    refine ⟨?_, ?_, ?_, fun hne => absurd hmode hne, fun _ => ⟨?_, ?_, ?_⟩⟩
    · rw [hw, hf.2.1]
    · rw [hw, hf.1]
    · rw [hw, hf.1]
    · rw [hw, hf.2.2.1]
    · rw [hw, hf.1]
      exact hmode
    · intro hc
      rw [hw]
      exact hdisk _ hc
  · have hw : worker env w = batchToDB env
        { w with inlet := { w.inlet with channel := rest }, started := w.started ++ [batch] }
        batch := by
      simp only [worker, hrun, hchan, hmode, if_false, Bool.false_eq_true]
    have hf := batchToDB_frame env
      { w with inlet := { w.inlet with channel := rest }, started := w.started ++ [batch] } batch
    refine ⟨?_, ?_, ?_, fun _ => ?_, fun h => absurd h hmode⟩
    · rw [hw, hf.2.2]
    · rw [hw, hf.1]
    · rw [hw, hf.2.1]
    · cases hans : w.inlet.writeHandler w.written.length batch with
      | none =>
        have hdb : worker env w =
            { w with
              inlet := { w.inlet with channel := rest }
              started := w.started ++ [batch]
              written := w.written ++ [batch] } := by
          rw [hw]
          simp only [batchToDB, hans]
        refine ⟨by rw [hdb], fun _ => ?_, fun err herr => by cases herr⟩
        rw [hdb]
        exact ⟨rfl, rfl, hrun⟩
      | some err =>
        have hdb : worker env w = batchToDisk env
            { w with
              inlet := { w.inlet with channel := rest, writeMode := TO_DISK }
              started := w.started ++ [batch]
              written := w.written ++ [batch]
              errors := w.errors ++ [w.inlet.errHandler err] } batch := by
          rw [hw]
          simp only [batchToDB, hans]
        have hg := batchToDisk_frame env
          { w with
            inlet := { w.inlet with channel := rest, writeMode := TO_DISK }
            started := w.started ++ [batch]
            written := w.written ++ [batch]
            errors := w.errors ++ [w.inlet.errHandler err] } batch
        refine ⟨by rw [hdb, hg.2.2.1], fun hnone => (by cases hnone), fun err2 _ => ⟨?_, ?_⟩⟩
        · rw [hdb, hg.1]
        · intro hc
          rw [hdb]
          exact hdisk _ hc

/-- One action keeps the batches handed to the write callback an initial
segment of the batches received, and equal to them while the mode is not
`TO_DISK`. -/
theorem step_written (w : World) (a : Action)
    (h : (w.inlet.writeMode = TO_DISK ∨ w.written = w.started) ∧ w.written <+: w.started) :
    ((step w a).inlet.writeMode = TO_DISK ∨ (step w a).written = (step w a).started) ∧
      (step w a).written <+: (step w a).started := by
  cases a with
  | push query args =>
    have hf := PushQuery_frame w query args
    simp only [step]
    rw [hf.1, hf.2.1, hf.2.2.1]
    exact h
  | flush env =>
    simp only [step]
    by_cases hp : w.panicked = true
    · rw [worker_idle env w (Or.inl hp)]
      exact h
    · cases hc : w.inlet.channel with
      | nil =>
        rw [worker_idle env w (Or.inr hc)]
        exact h
      | cons batch rest =>
        have ht := worker_turn env w batch rest (by simpa using hp) hc
        by_cases hmode : w.inlet.writeMode = TO_DISK
        · obtain ⟨hw, hm, _⟩ := ht.2.2.2.2 hmode
          rw [ht.1, hw]
          exact ⟨Or.inl hm, h.2.trans (List.prefix_append _ _)⟩
        · have hws : w.written = w.started := by
            rcases h.1 with h1 | h1
            · exact absurd h1 hmode
            · exact h1
          obtain ⟨hw, hnone, hsome⟩ := ht.2.2.2.1 hmode
          rw [ht.1, hw, hws]
          refine ⟨?_, List.prefix_refl _⟩
          exact Or.inr rfl

/-- The batches handed to the write callback over a sequence of actions. -/
theorem run_written (actions : List Action) :
    ∀ (w : World),
      (w.inlet.writeMode = TO_DISK ∨ w.written = w.started) ∧ w.written <+: w.started →
      ((run w actions).inlet.writeMode = TO_DISK ∨ (run w actions).written = (run w actions).started) ∧
        (run w actions).written <+: (run w actions).started := by
  induction actions with
  | nil => intro w h; exact h
  | cons a rest ih =>
    intro w h
    exact ih (step w a) (step_written w a h)

/-- C8: from the inlet as constructed, after every sequence `actions` of
`PushQuery` calls and worker turns, the queries of the batches sealed so far,
taken in seal order (the batches received by the worker, then the batches
waiting in the channel), followed by the pending batch, are exactly the
queries pushed, in push order; in every continuation `later` the sealed
batches keep their order and the worker's list of received batches only grows
at its end.  A turn of the worker changes nothing when no batch is waiting
(or after a panic); otherwise it takes exactly one batch, the oldest one
waiting, and handles it: unless the mode is `TO_DISK` it calls the write
callback with that batch (and journals it when the callback refuses it), and
in mode `TO_DISK` it writes that batch to a journal file.  So the batches
handed to the write callback are, in order, an initial segment of the batches
received, which are an initial segment of the batches sealed; while the mode
is not `TO_DISK` they are all of the batches received. -/
theorem batches_flushed_in_seal_order (now : Time) (syncAt : Int) (errHandler : String → String)
    (writeHandler : Nat → Batch → Option String) (actions later : List Action) (env : Env) :
    ((run (newInlet now syncAt errHandler writeHandler) actions).started
        ++ (run (newInlet now syncAt errHandler writeHandler) actions).inlet.channel).flatten
        ++ (run (newInlet now syncAt errHandler writeHandler) actions).inlet.queries
      = pushed actions ∧
    ((run (newInlet now syncAt errHandler writeHandler) actions).started
        ++ (run (newInlet now syncAt errHandler writeHandler) actions).inlet.channel)
      <+: ((run (newInlet now syncAt errHandler writeHandler) (actions ++ later)).started
        ++ (run (newInlet now syncAt errHandler writeHandler) (actions ++ later)).inlet.channel) ∧
    (run (newInlet now syncAt errHandler writeHandler) actions).started
      <+: (run (newInlet now syncAt errHandler writeHandler) (actions ++ later)).started ∧
    ((run (newInlet now syncAt errHandler writeHandler) actions).panicked = true ∨
        (run (newInlet now syncAt errHandler writeHandler) actions).inlet.channel = [] →
      worker env (run (newInlet now syncAt errHandler writeHandler) actions)
        = run (newInlet now syncAt errHandler writeHandler) actions) ∧
    (∀ batch rest,
      (run (newInlet now syncAt errHandler writeHandler) actions).panicked = false →
      (run (newInlet now syncAt errHandler writeHandler) actions).inlet.channel = batch :: rest →
      (worker env (run (newInlet now syncAt errHandler writeHandler) actions)).started
        = (run (newInlet now syncAt errHandler writeHandler) actions).started ++ [batch] ∧
      (worker env (run (newInlet now syncAt errHandler writeHandler) actions)).inlet.channel
        = rest ∧
      (worker env (run (newInlet now syncAt errHandler writeHandler) actions)).inlet.queries
        = (run (newInlet now syncAt errHandler writeHandler) actions).inlet.queries ∧
      ((run (newInlet now syncAt errHandler writeHandler) actions).inlet.writeMode ≠ TO_DISK →
        (worker env (run (newInlet now syncAt errHandler writeHandler) actions)).written
          = (run (newInlet now syncAt errHandler writeHandler) actions).written ++ [batch] ∧
        (∀ err, writeHandler
            (run (newInlet now syncAt errHandler writeHandler) actions).written.length batch
            = some err →
          env.create (logFileName now env.now.UnixNano) = true →
          (worker env (run (newInlet now syncAt errHandler writeHandler) actions)).files
            = (run (newInlet now syncAt errHandler writeHandler) actions).files ++
              [{ name := logFileName now env.now.UnixNano
                 records := (encodeAll env.encode batch).1 }])) ∧
      ((run (newInlet now syncAt errHandler writeHandler) actions).inlet.writeMode = TO_DISK →
        (worker env (run (newInlet now syncAt errHandler writeHandler) actions)).written
          = (run (newInlet now syncAt errHandler writeHandler) actions).written ∧
        (env.create (logFileName now env.now.UnixNano) = true →
          (worker env (run (newInlet now syncAt errHandler writeHandler) actions)).files
            = (run (newInlet now syncAt errHandler writeHandler) actions).files ++
              [{ name := logFileName now env.now.UnixNano
                 records := (encodeAll env.encode batch).1 }]))) ∧
    (run (newInlet now syncAt errHandler writeHandler) actions).written
      <+: (run (newInlet now syncAt errHandler writeHandler) actions).started ∧
    ((run (newInlet now syncAt errHandler writeHandler) actions).inlet.writeMode ≠ TO_DISK →
      (run (newInlet now syncAt errHandler writeHandler) actions).written
        = (run (newInlet now syncAt errHandler writeHandler) actions).started) := by
  have h1 := (run_history actions (newInlet now syncAt errHandler writeHandler)).2.2
  have hsplit : run (newInlet now syncAt errHandler writeHandler) (actions ++ later)
      = run (run (newInlet now syncAt errHandler writeHandler) actions) later := by
    simp [run, List.foldl_append]
  have h2 := run_history later (run (newInlet now syncAt errHandler writeHandler) actions)
  have hJ := run_written actions (newInlet now syncAt errHandler writeHandler)
    ⟨Or.inr rfl, List.prefix_refl _⟩
  have hfix : ∀ (acts : List Action) (v : World),
      (run v acts).inlet.createdAt = v.inlet.createdAt ∧
      (run v acts).inlet.writeHandler = v.inlet.writeHandler := by
    intro acts
    induction acts with
    | nil => intro v; exact ⟨rfl, rfl⟩
    | cons a rest ih =>
      intro v
      have hr : run v (a :: rest) = run (step v a) rest := rfl
      rw [hr, (ih (step v a)).1, (ih (step v a)).2]
      cases a with
      | push query args =>
        simp only [step, PushQuery]
        split <;> exact ⟨rfl, rfl⟩
      | flush env2 =>
        simp only [step]
        unfold worker batchToDB batchToDisk
        simp only []
        split_ifs <;> (try split) <;> (try split) <;> exact ⟨rfl, rfl⟩
  have hc := (hfix actions (newInlet now syncAt errHandler writeHandler)).1
  have hh := (hfix actions (newInlet now syncAt errHandler writeHandler)).2
  rw [hsplit]
  refine ⟨?_, h2.1, h2.2.1, worker_idle env _, ?_, hJ.2, ?_⟩
  · rw [h1]
    simp [newInlet]
  · intro batch rest hrun hchan
    have ht := worker_turn env _ batch rest hrun hchan
    rw [hc, hh] at ht
    refine ⟨ht.1, ht.2.1, ht.2.2.1, fun hne => ?_, fun hd => ?_⟩
    · exact ⟨(ht.2.2.2.1 hne).1, fun err herr hcreate => ((ht.2.2.2.1 hne).2.2 err herr).2 hcreate⟩
    · exact ⟨(ht.2.2.2.2 hd).1, (ht.2.2.2.2 hd).2.2⟩
  · intro hne
    rcases hJ.1 with hd | he
    · exact absurd hd hne
    · exact he

/-- Witness of C5: three queries pushed into an inlet with `syncAt = 3`. -/
theorem push_syncAt_seals_one_batch_witness :
    (pushAll sampleInlet sampleQueries).inlet.channel = [sampleQueries] ∧
      (pushAll sampleInlet sampleQueries).inlet.queries = [] :=
  (push_syncAt_seals_one_batch sampleInlet sampleQueries (by decide) rfl).1 (by decide)

/-- Witness of C6: the batch of three queries, refused by the callback. -/
theorem failed_write_spills_batch_witness :
    (worker sampleEnv (pushAll sampleInlet sampleQueries)).inlet.writeMode = TO_DISK ∧
      (worker sampleEnv (pushAll sampleInlet sampleQueries)).files.map JournalFile.records
        = [["insertTransfer", "insertBurn", "insertSnapshot"]] := by
  have h := failed_write_spills_batch sampleEnv (fun q => q.Query)
    (pushAll sampleInlet sampleQueries) sampleQueries [] "connection refused" rfl rfl rfl rfl
  refine ⟨h.1, ?_⟩
  rw [(h.2.2.2 rfl (fun _ _ => rfl)).1]
  rfl

/-- Witness of C7: after the failover, three more queries and a worker turn:
the callback has been called for the first batch only, the second batch gets
a journal file of its own, and no batch is left waiting. -/
theorem to_disk_is_sticky_witness :
    (run (worker sampleEnv (pushAll sampleInlet sampleQueries))
      [Action.push "insertTransfer" [], Action.push "insertBurn" [],
       Action.push "insertSnapshot" [], Action.flush sampleEnv]).written
      = [sampleQueries] ∧
    (worker sampleEnv
      (run (worker sampleEnv (pushAll sampleInlet sampleQueries))
        [Action.push "insertTransfer" [], Action.push "insertBurn" [],
         Action.push "insertSnapshot" []])).files.map JournalFile.records
      = [["insertTransfer", "insertBurn", "insertSnapshot"],
         ["insertTransfer", "insertBurn", "insertSnapshot"]] ∧
    (run (worker sampleEnv (pushAll sampleInlet sampleQueries))
      [Action.push "insertTransfer" [], Action.push "insertBurn" [],
       Action.push "insertSnapshot" [], Action.flush sampleEnv]).inlet.channel = [] :=
  ⟨(to_disk_is_sticky (fun q => q.Query) (worker sampleEnv (pushAll sampleInlet sampleQueries))
      [Action.push "insertTransfer" [], Action.push "insertBurn" [],
       Action.push "insertSnapshot" [], Action.flush sampleEnv]
      rfl).2.2.1,
    (congrArg (fun v => v.files.map JournalFile.records)
      ((to_disk_is_sticky (fun q => q.Query)
        (worker sampleEnv (pushAll sampleInlet sampleQueries))
        [Action.push "insertTransfer" [], Action.push "insertBurn" [],
         Action.push "insertSnapshot" []]
        rfl).2.2.2.1 sampleEnv
          [{ Query := "insertTransfer", Args := [] }, { Query := "insertBurn", Args := [] },
           { Query := "insertSnapshot", Args := [] }] [] rfl rfl rfl (fun _ _ => rfl))).trans rfl,
    rfl⟩

/-- Witness of C8: six queries pushed into an inlet with `syncAt = 3` over a
callback that accepts, the worker taking a turn after each three: the callback
has been called with the two batches, in the order they were sealed. -/
theorem batches_flushed_in_seal_order_witness :
    (run acceptingInlet
      [Action.push "a" [], Action.push "b" [], Action.push "c" [], Action.push "d" [],
       Action.push "e" [], Action.push "f" [], Action.flush sampleEnv,
       Action.flush sampleEnv]).written
      = [[{ Query := "a", Args := [] }, { Query := "b", Args := [] },
          { Query := "c", Args := [] }],
         [{ Query := "d", Args := [] }, { Query := "e", Args := [] },
          { Query := "f", Args := [] }]] :=
  ((batches_flushed_in_seal_order { nanos := 0, offset := 0 } 3 (fun err => err)
      acceptingHandler
      [Action.push "a" [], Action.push "b" [], Action.push "c" [], Action.push "d" [],
       Action.push "e" [], Action.push "f" [], Action.flush sampleEnv,
       Action.flush sampleEnv] [] sampleEnv).2.2.2.2.2.2 (by decide)).trans rfl

/-! ## Calendar and daily blocks -/

namespace Time

/-- The digits of a day number: 400-year, 100-year, 4-year cycles, years and
the day of the year. -/
theorem dayToYearDay_digits (d : Int) :
    ∃ n400 n100 n4 n1 yday : Int,
      dayToYearDay d = (400 * n400 + 100 * n100 + 4 * n4 + n1 + 1, yday) ∧
      d = 146097 * n400 + 36524 * n100 + 1461 * n4 + 365 * n1 + yday ∧
      0 ≤ n100 ∧ n100 ≤ 3 ∧ 0 ≤ n4 ∧ n4 ≤ 24 ∧ 0 ≤ n1 ∧ n1 ≤ 3 ∧ 0 ≤ yday ∧
      yday ≤ 365 ∧ (yday = 365 → n1 = 3 ∧ (n4 ≠ 24 ∨ n100 = 3)) := by
  simp only [dayToYearDay]
  generalize hn400 : d / 146097 = n400
  generalize hd1 : d - 146097 * n400 = d1
  have hd1r : 0 ≤ d1 ∧ d1 < 146097 := by omega
  generalize hq100 : d1 / 36524 = q100
  generalize hn100 : q100 - q100 / 4 = n100
  have hn100r : 0 ≤ n100 ∧ n100 ≤ 3 ∧ (q100 ≤ 3 → n100 = q100) ∧ (q100 = 4 → n100 = 3)
      ∧ q100 ≤ 4 := by omega
  generalize hd2 : d1 - 36524 * n100 = d2
  have hd2r : 0 ≤ d2 ∧ d2 ≤ 36524 ∧ (n100 ≠ 3 → d2 < 36524) := by omega
  generalize hn4 : d2 / 1461 = n4
  have hn4r : 0 ≤ n4 ∧ n4 ≤ 24 := by omega
  generalize hd3 : d2 - 1461 * n4 = d3
  have hd3r : 0 ≤ d3 ∧ d3 ≤ 1460 ∧ (n4 = 24 → n100 ≠ 3 → d3 < 1460) := by omega
  generalize hq1 : d3 / 365 = q1
  generalize hn1 : q1 - q1 / 4 = n1
  have hn1r : 0 ≤ n1 ∧ n1 ≤ 3 ∧ (q1 ≤ 3 → n1 = q1) ∧ (q1 = 4 → n1 = 3) ∧ q1 ≤ 4 := by omega
  refine ⟨n400, n100, n4, n1, d3 - 365 * n1, rfl, by omega, by omega, by omega, by omega,
    by omega, by omega, by omega, by omega, by omega, by omega⟩

/-- Leap years in terms of the digits of the year. -/
theorem isLeap_digits (n400 n100 n4 n1 : Int)
    (h1 : 0 ≤ n100) (h2 : n100 ≤ 3) (h3 : 0 ≤ n4) (h4 : n4 ≤ 24) (h5 : 0 ≤ n1) (h6 : n1 ≤ 3) :
    isLeap (400 * n400 + 100 * n100 + 4 * n4 + n1 + 1) = true ↔ n1 = 3 ∧ (n4 ≠ 24 ∨ n100 = 3) := by
  simp only [isLeap, Bool.and_eq_true, Bool.or_eq_true, decide_eq_true_eq]
  omega

/-- Days before a year in terms of its digits. -/
theorem daysSinceEpoch_digits (n400 n100 n4 n1 : Int)
    (h1 : 0 ≤ n100) (h2 : n100 ≤ 3) (h3 : 0 ≤ n4) (h4 : n4 ≤ 24) (h5 : 0 ≤ n1) (h6 : n1 ≤ 3) :
    daysSinceEpoch (400 * n400 + 100 * n100 + 4 * n4 + n1 + 1)
      = 146097 * n400 + 36524 * n100 + 1461 * n4 + 365 * n1 := by
  simp only [daysSinceEpoch]
  omega

set_option maxRecDepth 100000 in
/-- Month and day of the month of every day of a year, put back together. -/
theorem yearDayToMonthDay_fin (leap : Bool) :
    ∀ y : Fin 366, (y.val < 365 ∨ leap = true) →
      1 ≤ (yearDayToMonthDay leap (y.val : Int)).1 ∧ (yearDayToMonthDay leap (y.val : Int)).1 ≤ 12 ∧
      daysBefore ((yearDayToMonthDay leap (y.val : Int)).1 - 1)
          + (if leap && decide (3 ≤ (yearDayToMonthDay leap (y.val : Int)).1) then 1 else 0)
          + ((yearDayToMonthDay leap (y.val : Int)).2 - 1) = (y.val : Int) := by
  cases leap <;> decide

/-- Month and day of the month of a day of the year, put back together. -/
theorem yearDayToMonthDay_spec (leap : Bool) (yday : Int) (h0 : 0 ≤ yday) (h1 : yday ≤ 365)
    (h2 : yday = 365 → leap = true) :
    1 ≤ (yearDayToMonthDay leap yday).1 ∧ (yearDayToMonthDay leap yday).1 ≤ 12 ∧
      daysBefore ((yearDayToMonthDay leap yday).1 - 1)
          + (if leap && decide (3 ≤ (yearDayToMonthDay leap yday).1) then 1 else 0)
          + ((yearDayToMonthDay leap yday).2 - 1) = yday := by
  have h := yearDayToMonthDay_fin leap ⟨yday.toNat, by omega⟩ (by
    by_cases h : yday = 365
    · exact Or.inr (h2 h)
    · left
      show yday.toNat < 365
      omega)
  have e : ((yday.toNat : Nat) : Int) = yday := by omega
  simp only [e] at h
  exact h

/-- The calendar date of a day number names that day: converting a day
number to year, month and day and back gives the day number. -/
theorem civilToDay_dayToYearDay (d : Int) :
    civilToDay (dayToYearDay d).1
      (yearDayToMonthDay (isLeap (dayToYearDay d).1) (dayToYearDay d).2).1
      (yearDayToMonthDay (isLeap (dayToYearDay d).1) (dayToYearDay d).2).2 = d := by
  obtain ⟨n400, n100, n4, n1, yday, hy, hd, a1, a2, a3, a4, a5, a6, a7, a8, a9⟩ :=
    dayToYearDay_digits d
  rw [hy]
  simp only []
  have hleap := isLeap_digits n400 n100 n4 n1 a1 a2 a3 a4 a5 a6
  have hdays := daysSinceEpoch_digits n400 n100 n4 n1 a1 a2 a3 a4 a5 a6
  generalize 400 * n400 + 100 * n100 + 4 * n4 + n1 + 1 = year at hleap hdays ⊢
  obtain ⟨m1, m2, m3⟩ := yearDayToMonthDay_spec (isLeap year) yday a7 a8
    (fun h => hleap.mpr (a9 h))
  generalize (yearDayToMonthDay (isLeap year) yday).1 = month at m1 m2 m3 ⊢
  generalize (yearDayToMonthDay (isLeap year) yday).2 = day at m3 ⊢
  have e1 : (month - 1) / 12 = 0 := by omega
  have e2 : (month - 1) % 12 + 1 = month := by omega
  simp only [civilToDay, e1, e2, add_zero, hdays]
  split <;> rename_i hl
  · simp only [hl, if_true] at m3
    clear hleap a9 hy hdays
    omega
  · simp only [hl, if_false, Bool.false_eq_true] at m3
    clear hleap a9 hy hdays
    omega

/-- Midnight of the date of `t`, as `time.Date` computes it from `t.Year()`,
`t.Month()` and `t.Day()`. -/
theorem Date_of_Year_Month_Day (t : Time) :
    (Date t.Year t.Month t.Day 0 0 0 0).nanos = (t.localDay - unixEpochDay) * nanosPerDay := by
  simp only [Date, Year, Month, Day, civilToDay_dayToYearDay, nanosPerDay]
  omega

end Time

/-- The test of `isDailyBlock`, on instants: `previous` lies before the
midnight of the date of `next`, and `next` does not lie before it. -/
theorem isDailyBlock_iff (previous next : Time) :
    isDailyBlock previous next = true ↔
      previous.nanos < midnightOfDate next ∧ midnightOfDate next ≤ next.nanos := by
  simp only [isDailyBlock, Time.Before, Time.After, Time.Equal, Time.Date_of_Year_Month_Day,
    midnightOfDate, Bool.and_eq_true, Bool.or_eq_true, decide_eq_true_eq]
  constructor
  · rintro ⟨h1, h2⟩
    exact ⟨h1, by omega⟩
  · rintro ⟨h1, h2⟩
    exact ⟨h1, by omega⟩

/-- C9: `isDailyBlock previous next` is true if and only if `previous` is
strictly before the midnight (00:00:00 UTC) of the calendar date of `next`
(the date `next` reports through `Year`, `Month` and `Day`) and `next` is at
or after that midnight. -/
theorem isDailyBlock_iff_midnight_between (previous next : Time) :
    isDailyBlock previous next = true ↔
      previous.nanos < midnightOfDate next ∧ midnightOfDate next ≤ next.nanos :=
  isDailyBlock_iff previous next

/-- For a `next` in UTC, the midnight of its date is the start of its UTC day. -/
theorem midnightOfDate_utc (next : Time) (hn : next.offset = 0) :
    midnightOfDate next = utcDay next * Time.nanosPerDay := by
  simp only [midnightOfDate, Time.localDay, utcDay, hn]
  simp

/-- C10: for all UTC instants `previous` and `next`, if `previous` falls on an
earlier UTC calendar day than `next` then `isDailyBlock previous next` is
true, and if both fall on the same UTC calendar day then it is false (only
`next` has to be a UTC value for this). -/
theorem isDailyBlock_utc_days (previous next : Time) (hn : next.offset = 0) :
    (utcDay previous < utcDay next → isDailyBlock previous next = true) ∧
      (utcDay previous = utcDay next → isDailyBlock previous next = false) := by
  have hm := midnightOfDate_utc next hn
  have hiff := isDailyBlock_iff previous next
  rw [hm] at hiff
  simp only [utcDay, Time.nanosPerDay] at hiff ⊢
  constructor
  · intro h
    rw [hiff]
    omega
  · intro h
    rw [← Bool.not_eq_true, hiff]
    omega

/-- Witness of C10: the two examples of the specification. -/
theorem isDailyBlock_utc_days_witness :
    isDailyBlock (Time.Date 2023 1 1 23 59 0 0) (Time.Date 2023 1 2 0 0 30 0) = true ∧
      isDailyBlock (Time.Date 2023 1 2 0 0 10 0) (Time.Date 2023 1 2 12 0 0 0) = false :=
  ⟨(isDailyBlock_utc_days (Time.Date 2023 1 1 23 59 0 0) (Time.Date 2023 1 2 0 0 30 0) rfl).1
      (by decide),
    (isDailyBlock_utc_days (Time.Date 2023 1 2 0 0 10 0) (Time.Date 2023 1 2 12 0 0 0) rfl).2
      (by decide)⟩

/-! ## The chain state manager -/

/-- Whatever `AtHeight` is asked for, if it returns, it returns the manager it
was called on. -/
theorem AtHeight_eq_receiver {G : Type} (up : Upstream G) (oasis handle : Oasis G) (height : Int)
    (h : oasis.AtHeight up height = some handle) : handle = oasis := by
  unfold Oasis.AtHeight at h
  cases hb : up.GetBlock height with
  | none => simp [hb] at h
  | some block =>
    simp only [hb] at h
    cases hs : Oasis.syncChain up { State := none } block with
    | none => simp [hs] at h
    | some r =>
      simp only [hs, Option.some.injEq] at h
      exact h.symm

/-- C11, the defect: `AtHeight` syncs a fresh handle to the block asked for and
then returns the manager itself.  With the published state at height 103 and
block 100 existing on the chain, `GetBlock` on the handle returned by
`AtHeight(100)` reports the block and the height 103, not 100. -/
theorem AtHeight_reports_published_height :
    ((publishedAt 103).AtHeight fullUpstream 100).bind Oasis.GetBlock
      = some (blockAt 103, 103) := by
  decide

/-- What a `syncChain` call that returns has done: the snapshot query at the
height of the block succeeded, no error is returned, and the state stored is
that block, its height and that snapshot. -/
theorem syncChain_some {G : Type} (up : Upstream G) (oasis : Oasis G) (block : Block)
    (r : Oasis G × Option String) (h : oasis.syncChain up block = some r) :
    r.2 = none ∧ ∃ gen, up.StateToGenesis block.Height = some gen ∧
      r.1.State = some { Block := block, Height := block.Height, Snapshot := gen } := by
  unfold Oasis.syncChain at h
  cases hg : up.StateToGenesis block.Height with
  | none => simp [hg] at h
  | some gen =>
    simp only [hg, Option.some.injEq] at h
    subst h
    exact ⟨rfl, gen, rfl, rfl⟩

/-- A `syncChain` call returns exactly when the snapshot query succeeds. -/
theorem syncChain_isSome {G : Type} (up : Upstream G) (oasis : Oasis G) (block : Block) :
    (oasis.syncChain up block).isSome = (up.StateToGenesis block.Height).isSome := by
  unfold Oasis.syncChain
  cases up.StateToGenesis block.Height <;> rfl

/-- A sequence of `syncChain` calls followed by one more. -/
theorem syncAll_append {G : Type} (calls : List (Upstream G × Block)) :
    ∀ (oasis : Oasis G) (up : Upstream G) (block : Block),
      oasis.syncAll (calls ++ [(up, block)])
        = (oasis.syncAll calls).bind (fun o => (o.syncChain up block).map Prod.fst) := by
  induction calls with
  | nil =>
    intro oasis up block
    simp only [List.nil_append, Oasis.syncAll, Option.some_bind]
    cases oasis.syncChain up block <;> rfl
  | cons c rest ih =>
    intro oasis up block
    obtain ⟨cu, cb⟩ := c
    simp only [List.cons_append, Oasis.syncAll]
    cases oasis.syncChain cu cb with
    | none => rfl
    | some r => exact ih r.1 up block

/-- A sequence of `syncChain` calls runs to its end when every snapshot query
succeeds. -/
theorem syncAll_isSome {G : Type} (calls : List (Upstream G × Block)) :
    ∀ (oasis : Oasis G), (∀ c ∈ calls, (c.1.StateToGenesis c.2.Height).isSome = true) →
      (oasis.syncAll calls).isSome = true := by
  induction calls with
  | nil => intro oasis _; rfl
  | cons c rest ih =>
    intro oasis h
    obtain ⟨cu, cb⟩ := c
    have hc := h (cu, cb) (List.mem_cons_self _ _)
    have hs := syncChain_isSome cu oasis cb
    simp only [Oasis.syncAll]
    cases hr : oasis.syncChain cu cb with
    | none =>
      rw [hr] at hs
      simp only at hc
      rw [hc] at hs
      simp at hs
    | some r => exact ih r.1 (fun x hx => h x (List.mem_cons_of_mem _ hx))

/-- C12: every chain state published by a `syncChain` call for a block `b` has
`Block = b`, `Height = b.Height` and the snapshot fetched at `b.Height`; so
after any sequence of sync calls whose snapshot queries succeed, ending with
the call for `b`, the state obtained by `freezeChain` is exactly that state of
the most recent sync, and its `Block.Height` equals its `Height`. -/
theorem frozen_state_is_latest_sync {G : Type} (oasis : Oasis G)
    (calls : List (Upstream G × Block)) (up : Upstream G) (b : Block)
    (hok : ∀ c ∈ calls ++ [(up, b)], (c.1.StateToGenesis c.2.Height).isSome = true) :
    ∃ (latest : Oasis G) (gen : G) (st : chainState G),
      oasis.syncAll (calls ++ [(up, b)]) = some latest ∧
      up.StateToGenesis b.Height = some gen ∧
      latest.freezeChain.State = some st ∧
      st = { Block := b, Height := b.Height, Snapshot := gen } ∧
      st.Block.Height = st.Height := by
  have hsome := syncAll_isSome (calls ++ [(up, b)]) oasis hok
  cases hr : oasis.syncAll (calls ++ [(up, b)]) with
  | none => simp [hr] at hsome
  | some latest =>
    rw [syncAll_append] at hr
    cases hp : oasis.syncAll calls with
    | none => simp [hp] at hr
    | some prev =>
      simp only [hp, Option.some_bind] at hr
      cases hs : prev.syncChain up b with
      | none => simp [hs] at hr
      | some r =>
        simp only [hs, Option.map_some', Option.some.injEq] at hr
        obtain ⟨_, gen, hg, hst⟩ := syncChain_some up prev b r hs
        subst hr
        exact ⟨r.1, gen, _, rfl, hg, hst, rfl, rfl⟩

/-- Witness of C12: three syncs from the unsynced manager. -/
theorem frozen_state_is_latest_sync_witness :
    ∃ latest : Oasis Unit,
      Oasis.syncAll { State := none }
        [(fullUpstream, blockAt 100), (fullUpstream, blockAt 102), (fullUpstream, blockAt 103)]
        = some latest ∧
      latest.freezeChain.State = some { Block := blockAt 103, Height := 103, Snapshot := () } := by
  obtain ⟨latest, gen, st, h1, _, h3, h4, _⟩ := frozen_state_is_latest_sync
    ({ State := none } : Oasis Unit) [(fullUpstream, blockAt 100), (fullUpstream, blockAt 102)]
    fullUpstream (blockAt 103) (by decide)
  exact ⟨latest, h1, by rw [h3, h4]; rfl⟩

/-- C13, the defect: when the ledger-snapshot query fails, `syncChain` calls
`log.Fatalf`, which ends the process; the `return err` after it is never
reached.  With the published state at height 103 and a failing query for
block 104 the call does not return at all, and in no case does `syncChain`
return an error. -/
theorem syncChain_failure_ends_process :
    Oasis.syncChain failingUpstream (publishedAt 103) (blockAt 104) = none ∧
      ∀ (up : Upstream Unit) (oasis : Oasis Unit) (block : Block) (r : Oasis Unit × Option String),
        oasis.syncChain up block = some r → r.2 = none :=
  ⟨rfl, fun up oasis block r h => (syncChain_some up oasis block r h).1⟩

/-! ## The inlet: construction, successful writes, journal failures -/

/-- Later `InitInlet` calls after a first one change nothing. -/
theorem initAll_some (calls : List InitCall) :
    ∀ (w : World), initAll (some w) calls = some w := by
  induction calls with
  | nil => intro w; rfl
  | cons c rest ih =>
    intro w
    exact ih w

/-- C14: `InitInlet` is idempotent.  On an inlet that exists, a call with any
arguments returns the same state (same `syncAt`, handlers, pending batch,
creation time, write mode, and the same number of flush workers); so after a
first call, whatever calls follow, the inlet is the one the first call
constructed and there is one flush worker. -/
theorem InitInlet_idempotent (w : World) (c first : InitCall) (later : List InitCall) :
    InitInlet (some w) c.now c.syncAt c.errHandler c.writeHandler = w ∧
      initAll none (first :: later)
        = some (newInlet first.now first.syncAt first.errHandler first.writeHandler) ∧
      ∀ g, initAll none (first :: later) = some g →
        g.inlet.syncAt = first.syncAt ∧ g.inlet.errHandler = first.errHandler ∧
        g.inlet.writeHandler = first.writeHandler ∧ g.inlet.queries = [] ∧
        g.inlet.createdAt = first.now ∧ g.inlet.writeMode = TO_DATABASE ∧ g.workers = 1 := by
  have h : initAll none (first :: later)
      = some (newInlet first.now first.syncAt first.errHandler first.writeHandler) :=
    initAll_some later _
  refine ⟨rfl, h, ?_⟩
  intro g hg
  rw [h, Option.some.injEq] at hg
  subst hg
  exact ⟨rfl, rfl, rfl, rfl, rfl, rfl, rfl⟩

/-- C15: the inlet starts in write mode `TO_DATABASE`, and in that mode a
batch for which the durable-write callback succeeds is discarded: the callback
is called once more, with the whole batch, no journal file is written, the
error callback is not called, and the mode stays `TO_DATABASE`. -/
theorem successful_write_discards_batch (env : Env) (w : World) (batch : Batch)
    (rest : List Batch) (hrun : w.panicked = false) (hchan : w.inlet.channel = batch :: rest)
    (hmode : w.inlet.writeMode = TO_DATABASE)
    (hok : w.inlet.writeHandler w.written.length batch = none) :
    (∀ now syncAt errHandler writeHandler,
        (newInlet now syncAt errHandler writeHandler).inlet.writeMode = TO_DATABASE) ∧
      (worker env w).written = w.written ++ [batch] ∧
      (worker env w).files = w.files ∧
      (worker env w).errors = w.errors ∧
      (worker env w).inlet.writeMode = TO_DATABASE ∧
      (worker env w).started = w.started ++ [batch] ∧
      (worker env w).inlet.channel = rest ∧
      (worker env w).inlet.queries = w.inlet.queries ∧
      (worker env w).panicked = false := by
  have hm : ¬ (w.inlet.writeMode = TO_DISK) := by
    rw [hmode]
    decide
  have hw : worker env w =
      { w with
        inlet := { w.inlet with channel := rest }
        started := w.started ++ [batch]
        written := w.written ++ [batch] } := by
    simp only [worker, hrun, hchan, hm, batchToDB, hok, if_false, Bool.false_eq_true]
  rw [hw]
  exact ⟨fun _ _ _ _ => rfl, rfl, rfl, rfl, hmode, rfl, rfl, rfl, hrun⟩

/-- Witness of C15: the batch of three queries, accepted by the callback. -/
theorem successful_write_discards_batch_witness :
    (worker sampleEnv (pushAll acceptingInlet sampleQueries)).written = [sampleQueries] ∧
      (worker sampleEnv (pushAll acceptingInlet sampleQueries)).files = [] :=
  ⟨(successful_write_discards_batch sampleEnv (pushAll acceptingInlet sampleQueries)
      sampleQueries [] rfl rfl rfl rfl).2.1,
    (successful_write_discards_batch sampleEnv (pushAll acceptingInlet sampleQueries)
      sampleQueries [] rfl rfl rfl rfl).2.2.1⟩

/-- The encoding loop runs to its end exactly when every query can be
written, and then it has written the record of every query, in order. -/
theorem encodeAll_spec (encode : Query → Option String) (queries : Batch) :
    ((encodeAll encode queries).2 = false ↔ ∃ q ∈ queries, encode q = none) ∧
      ((encodeAll encode queries).2 = true →
        (encodeAll encode queries).1.map some = queries.map encode) := by
  induction queries with
  | nil => simp [encodeAll]
  | cons q rest ih =>
    cases hq : encode q with
    | none => simp [encodeAll, hq]
    | some record =>
      simp only [encodeAll, hq, List.mem_cons, exists_eq_or_imp, reduceCtorEq, false_or,
        List.map_cons]
      refine ⟨ih.1, fun h => ?_⟩
      rw [ih.2 h]

/-- C16: `batchToDisk` panics exactly when creating the journal file fails or
encoding some query of the batch fails; when it returns normally, the file has
been created and holds the record of every query of the batch, in order. -/
theorem batchToDisk_panics_iff (env : Env) (w : World) (queries : Batch) :
    ((batchToDisk env w queries).panicked = true ↔
        env.create (logFileName w.inlet.createdAt env.now.UnixNano) = false ∨
        ∃ q ∈ queries, env.encode q = none) ∧
      ((batchToDisk env w queries).panicked = false →
        env.create (logFileName w.inlet.createdAt env.now.UnixNano) = true ∧
        (∀ q ∈ queries, (env.encode q).isSome = true) ∧
        ∃ records, records.map some = queries.map env.encode ∧
          (batchToDisk env w queries).files = w.files ++
            [{ name := logFileName w.inlet.createdAt env.now.UnixNano, records := records }]) := by
  have hspec := encodeAll_spec env.encode queries
  by_cases hc : env.create (logFileName w.inlet.createdAt env.now.UnixNano) = true
  · have hp : (batchToDisk env w queries).panicked = !(encodeAll env.encode queries).2 := by
      simp [batchToDisk, hc]
    have hf : (batchToDisk env w queries).files = w.files ++
        [{ name := logFileName w.inlet.createdAt env.now.UnixNano,
           records := (encodeAll env.encode queries).1 }] := by
      simp [batchToDisk, hc]
    rw [hp, hf]
    constructor
    · rw [Bool.not_eq_true', hspec.1]
      simp [hc]
    · intro h
      rw [Bool.not_eq_false'] at h
      refine ⟨hc, ?_, _, hspec.2 h, rfl⟩
      intro q hq
      cases he : env.encode q with
      | none =>
        have := hspec.1.mpr ⟨q, hq, he⟩
        rw [h] at this
        cases this
      | some r => rfl
  · have hp : (batchToDisk env w queries).panicked = true := by
      simp [batchToDisk, hc]
    rw [hp]
    simp only [Bool.not_eq_true] at hc
    simp [hc]

/-! ## Decimal numerals -/

/-- A digit character has the value of its digit. -/
theorem digitValue_digitChar (d : Nat) (h : d < 10) : digitValue (digitChar d) = some d := by
  interval_cases d <;> rfl

/-- The digits put in front of an accumulator. -/
theorem toDigits_acc (fuel : Nat) :
    ∀ (n : Nat) (acc : List Char), toDigits fuel n acc = toDigits fuel n [] ++ acc := by
  induction fuel with
  | zero => intro n acc; rfl
  | succ fuel ih =>
    intro n acc
    simp only [toDigits]
    split
    · rfl
    · rw [ih (n / 10) (digitChar (n % 10) :: acc), ih (n / 10) [digitChar (n % 10)]]
      simp

/-- Reading digits piece by piece. -/
theorem parseDigits_append (l m : List Char) :
    ∀ acc, parseDigits (l ++ m) acc = (parseDigits l acc).bind (parseDigits m) := by
  induction l with
  | nil => intro acc; rfl
  | cons c l ih =>
    intro acc
    simp only [List.cons_append, parseDigits]
    cases digitValue c with
    | none => rfl
    | some d => exact ih _

/-- Reading the digits of a number gives the number back. -/
theorem parseDigits_toDigits (fuel : Nat) :
    ∀ n, n < fuel → parseDigits (toDigits fuel n []) 0 = some n := by
  induction fuel with
  | zero => intro n h; omega
  | succ fuel ih =>
    intro n h
    simp only [toDigits]
    split
    · rename_i h10
      simp only [parseDigits, digitValue_digitChar n h10, Nat.zero_mul, Nat.zero_add]
    · rename_i h10
      rw [toDigits_acc, parseDigits_append, ih (n / 10) (by omega)]
      simp only [Option.some_bind, parseDigits, digitValue_digitChar (n % 10) (by omega)]
      congr 1
      omega

/-- The empty string does not parse. -/
theorem ParseUint_empty : ParseUint "" = none := rfl

/-! ## Pagination -/

/-- The numeral of a positive number does not start with a zero. -/
theorem toDigits_head (fuel : Nat) :
    ∀ n, n < fuel → n ≠ 0 → ∃ c rest, toDigits fuel n [] = c :: rest ∧ c ≠ '0' := by
  induction fuel with
  | zero => intro n h; omega
  | succ fuel ih =>
    intro n h h0
    simp only [toDigits]
    split
    · rename_i h10
      refine ⟨digitChar n, [], rfl, ?_⟩
      interval_cases n
      · exact absurd rfl h0
      all_goals decide
    · rename_i h10
      obtain ⟨c, rest, hc, hne⟩ := ih (n / 10) (by omega) (by omega)
      rw [toDigits_acc, hc]
      exact ⟨c, rest ++ [digitChar (n % 10)], rfl, hne⟩

/-- An amount of any size is read back from its numeral exactly. -/
theorem parseQuantity_decimal (n : Nat) : parseQuantity (decimal n) = some n := by
  have hp := parseDigits_toDigits (n + 1) n (by omega)
  unfold parseQuantity decimal
  by_cases h0 : n = 0
  · subst h0
    rfl
  · obtain ⟨c, rest, hc, hne⟩ := toDigits_head (n + 1) n (by omega) h0
    rw [hc] at hp
    simp only [hc, hne, false_and, if_false, hp]

/-- One delegation is read back from the object written for it. -/
theorem unmarshalDelegation_marshalDelegation (codec : AddressCodec) (d start : Delegation)
    (h1 : codec.UnmarshalText d.Delegator.text = some d.Delegator)
    (h2 : codec.UnmarshalText d.Validator.text = some d.Validator) :
    unmarshalDelegation codec (marshalDelegation d) start = some d := by
  simp [marshalDelegation, unmarshalDelegation, h1, h2, parseQuantity_decimal]

/-- C17: for every list of delegations, writing it to its JSON storage form
(as `snapshotState` does) and reading it back (as `AccountHistory` does)
gives the same list: the same delegator, validator and amount at each
position, whatever the size of the amounts (they are written as decimal
numerals and read back exactly); a nil list comes back nil.  The library's
reading of an address is taken to give back the address whose text it is
given. -/
theorem delegations_roundtrip (codec : AddressCodec) (delegations : List Delegation)
    (hcodec : ∀ d ∈ delegations,
      codec.UnmarshalText d.Delegator.text = some d.Delegator ∧
      codec.UnmarshalText d.Validator.text = some d.Validator) :
    unmarshalDelegations codec (marshalDelegations (some delegations)) = some (some delegations) ∧
      unmarshalDelegations codec (marshalDelegations none) = some none := by
  refine ⟨?_, rfl⟩
  have hobj : unmarshalObjects codec (delegations.map marshalDelegation) = some delegations := by
    induction delegations with
    | nil => rfl
    | cons d rest ih =>
      have hd := hcodec d (List.mem_cons_self _ _)
      simp only [List.map_cons, unmarshalObjects,
        unmarshalDelegation_marshalDelegation codec d _ hd.1 hd.2,
        ih (fun x hx => hcodec x (List.mem_cons_of_mem _ hx))]
  simp only [marshalDelegations, unmarshalDelegations, hobj]

/-- Witness of C17: two delegations, one of `2^128` shares. -/
theorem delegations_roundtrip_witness :
    unmarshalDelegations sampleCodec (marshalDelegations (some sampleDelegations))
      = some (some sampleDelegations) :=
  (delegations_roundtrip sampleCodec sampleDelegations (by decide)).1

/-! ## Decoding of transactions -/

/-- The loop of `GetTransactions` when every transaction decodes: the decoded
transactions, in order. -/
theorem decodeTransactions_all (lib : Library) (txs : List (List Nat)) :
    ∀ (decodedTxs : List Transaction) (decoded : List Transaction),
      txs.map (decodeTransaction lib) = decoded.map Decoding.decoded →
      decodeTransactions lib txs decodedTxs = some (decodedTxs ++ decoded) := by
  induction txs with
  | nil =>
    intro acc decoded h
    cases decoded with
    | nil => simp [decodeTransactions]
    | cons d ds => simp at h
  | cons tx rest ih =>
    intro acc decoded h
    cases decoded with
    | nil => simp at h
    | cons d ds =>
      simp only [List.map_cons, List.cons.injEq] at h
      simp only [decodeTransactions, h.1]
      rw [ih (acc ++ [d]) ds h.2]
      simp

/-- The loop of `GetTransactions` when a transaction fails to decode after
transactions that decode: nothing is returned, not even the transactions that
decode, whatever comes after the failing one. -/
theorem decodeTransactions_failure (lib : Library) (pre : List (List Nat)) (bad : List Nat)
    (post : List (List Nat)) :
    ∀ (decodedTxs : List Transaction),
      (∀ tx ∈ pre, ∃ d, decodeTransaction lib tx = Decoding.decoded d) →
      decodeTransaction lib bad = Decoding.failed →
      decodeTransactions lib (pre ++ bad :: post) decodedTxs = some [] := by
  induction pre with
  | nil =>
    intro acc _ hbad
    simp only [List.nil_append, decodeTransactions, hbad]
  | cons tx rest ih =>
    intro acc hpre hbad
    obtain ⟨d, hd⟩ := hpre tx (List.mem_cons_self _ _)
    simp only [List.cons_append, decodeTransactions, hd]
    exact ih _ (fun x hx => hpre x (List.mem_cons_of_mem _ hx)) hbad

/-- The loop of `GetTransactions` on a list without a fee-less transaction,
one transaction of which fails to decode: nothing is returned. -/
theorem decodeTransactions_failure_mem (lib : Library) (txs : List (List Nat)) :
    ∀ (decodedTxs : List Transaction), (∃ tx ∈ txs, decodeTransaction lib tx = Decoding.failed) →
      (∀ tx ∈ txs, decodeTransaction lib tx ≠ Decoding.nilFee) →
      decodeTransactions lib txs decodedTxs = some [] := by
  induction txs with
  | nil =>
    intro acc h _
    obtain ⟨tx, hm, _⟩ := h
    cases hm
  | cons tx rest ih =>
    intro acc h hfee
    simp only [decodeTransactions]
    cases hd : decodeTransaction lib tx with
    | failed => rfl
    | nilFee => exact absurd hd (hfee tx (List.mem_cons_self _ _))
    | decoded d =>
      apply ih
      · obtain ⟨bad, hm, hb⟩ := h
        rcases List.mem_cons.mp hm with rfl | hm
        · rw [hd] at hb
          cases hb
        · exact ⟨bad, hm, hb⟩
      · exact fun x hx => hfee x (List.mem_cons_of_mem _ hx)

/-- C19, the defect: every decode failure inside the loop of `GetTransactions`
executes `return nil`, which drops the whole block.  With the raw
transactions `[5]` (which decodes) and `[]` (which does not) at the height of
the state, the result is empty: the transaction that decodes is lost too; and
so it is for every block in which some transaction fails to decode (the
transactions before it decoding, or no transaction of the block being without
a fee, on which the loop panics). -/
theorem one_bad_transaction_drops_the_block :
    (∃ tx, decodeTransaction sampleLibrary [5] = Decoding.decoded tx) ∧
      decodeTransaction sampleLibrary [] = Decoding.failed ∧
      Oasis.GetTransactions sampleLibrary (fun _ => some [[5], []]) (publishedAt 103) = some [] ∧
      (∀ (lib : Library) (txs : List (List Nat)),
        (∃ tx ∈ txs, decodeTransaction lib tx = Decoding.failed) →
        (∀ tx ∈ txs, decodeTransaction lib tx ≠ Decoding.nilFee) →
        decodeTransactions lib txs [] = some []) ∧
      ∀ (lib : Library) (pre : List (List Nat)) (bad : List Nat) (post : List (List Nat)),
        (∀ tx ∈ pre, ∃ d, decodeTransaction lib tx = Decoding.decoded d) →
        decodeTransaction lib bad = Decoding.failed →
        decodeTransactions lib (pre ++ bad :: post) [] = some [] :=
  ⟨⟨_, rfl⟩, by decide, by decide,
    fun lib txs h hfee => decodeTransactions_failure_mem lib txs [] h hfee,
    fun lib pre bad post hpre hbad => decodeTransactions_failure lib pre bad post [] hpre hbad⟩

/-! ## Persisting transactions and events -/

/-- One `Exec` call adds one attempt, whatever the database answers. -/
theorem Persisted.exec_attempts (db : Query → Option String) (log : Persisted)
    (statement : Query) : (log.exec db statement).attempts = log.attempts ++ [statement] := by
  unfold Persisted.exec
  cases db statement <;> rfl

/-- The statements `snapshotTransactions` attempts: one for each transaction
that has one, in order. -/
theorem snapshotTransactions_attempts (marshal : Payload → Option (List Nat))
    (db : Query → Option String) (block : Block) (txs : List Transaction) :
    ∀ log : Persisted,
      (snapshotTransactions marshal db block txs log).attempts
        = log.attempts ++ txs.filterMap (transactionStatement marshal block) := by
  induction txs with
  | nil => intro log; simp [snapshotTransactions]
  | cons tx rest ih =>
    intro log
    simp only [snapshotTransactions, transactionStatement, List.filterMap_cons]
    cases marshal tx.Payload with
    | none => exact ih log
    | some encodedTx =>
      simp only []
      rw [ih, Persisted.exec_attempts, List.append_assoc]
      rfl

/-- The statements `snapshotEvents` attempts: one for each event that has
one, in order. -/
theorem snapshotEvents_attempts (db : Query → Option String) (block : Block)
    (events : List StakingEvent) :
    ∀ log : Persisted,
      (snapshotEvents db block events log).attempts
        = log.attempts ++ events.filterMap (eventStatement block) := by
  induction events with
  | nil => intro log; simp [snapshotEvents]
  | cons event rest ih =>
    intro log
    obtain ⟨transfer, burn, escrow, unknown⟩ := event
    have step : ∀ statement : Query,
        (snapshotEvents db block rest (log.exec db statement)).attempts
          = log.attempts ++ statement :: rest.filterMap (eventStatement block) := by
      intro statement
      rw [ih, Persisted.exec_attempts, List.append_assoc]
      rfl
    cases transfer with
    | some t => exact step _
    | none =>
      cases burn with
      | some b => exact step _
      | none =>
        cases escrow with
        | none => exact ih log
        | some e =>
          obtain ⟨add, take, reclaim⟩ := e
          cases add with
          | some a => exact step _
          | none =>
            cases take with
            | some a => exact step _
            | none =>
              cases reclaim with
              | some a => exact step _
              | none => exact ih log

/-- A transaction has a statement exactly when its payload encodes, and the
statement is an `insertTransaction`. -/
theorem transactionStatement_spec (marshal : Payload → Option (List Nat)) (block : Block)
    (tx : Transaction) :
    (transactionStatement marshal block tx).isSome = encodes marshal tx ∧
      ∀ q, transactionStatement marshal block tx = some q → q.Query = "insertTransaction" := by
  unfold transactionStatement encodes
  cases marshal tx.Payload with
  | none => simp
  | some encodedTx =>
    refine ⟨rfl, ?_⟩
    intro q hq
    simp only [Option.some.injEq] at hq
    rw [← hq]

/-- An event has a statement exactly when it is a transfer, a burn or an
escrow event with a part, and the statement is one of the three inserts. -/
theorem eventStatement_spec (block : Block) (event : StakingEvent) :
    (eventStatement block event).isSome = event.insertable ∧
      ∀ q, eventStatement block event = some q →
        q.Query = "insertTransfer" ∨ q.Query = "insertBurn" ∨ q.Query = "insertEscrowEvent" := by
  obtain ⟨transfer, burn, escrow, unknown⟩ := event
  unfold eventStatement StakingEvent.insertable
  cases transfer with
  | some t =>
    refine ⟨rfl, ?_⟩
    intro q hq
    simp only [Option.some.injEq] at hq
    rw [← hq]
    exact Or.inl rfl
  | none =>
    cases burn with
    | some b =>
      refine ⟨rfl, ?_⟩
      intro q hq
      simp only [Option.some.injEq] at hq
      rw [← hq]
      exact Or.inr (Or.inl rfl)
    | none =>
      cases escrow with
      | none => simp
      | some e =>
        obtain ⟨add, take, reclaim⟩ := e
        cases add with
        | some a =>
          refine ⟨rfl, ?_⟩
          intro q hq
          simp only [Option.some.injEq] at hq
          rw [← hq]
          exact Or.inr (Or.inr rfl)
        | none =>
          cases take with
          | some a =>
            refine ⟨rfl, ?_⟩
            intro q hq
            simp only [Option.some.injEq] at hq
            rw [← hq]
            exact Or.inr (Or.inr rfl)
          | none =>
            cases reclaim with
            | some a =>
              refine ⟨rfl, ?_⟩
              intro q hq
              simp only [Option.some.injEq] at hq
              rw [← hq]
              exact Or.inr (Or.inr rfl)
            | none => simp [EscrowEvent.hasPart]

/-- The number of statements a loop attempts: the number of records that have
one. -/
theorem length_filterMap_eq_filter {α β : Type} (f : α → Option β) (p : α → Bool)
    (h : ∀ a, (f a).isSome = p a) (l : List α) :
    (l.filterMap f).length = (l.filter p).length := by
  induction l with
  | nil => rfl
  | cons a l ih =>
    have ha := h a
    cases hf : f a with
    | none =>
      rw [hf] at ha
      simp [List.filterMap_cons, hf, List.filter_cons, ← ha, ih]
    | some b =>
      rw [hf] at ha
      simp [List.filterMap_cons, hf, List.filter_cons, ← ha, ih]

/-- C20 fails as stated: an escrow event without an add, take or reclaim part
(what `convertEvent` makes of an escrow event of the node that has none of
the three) is an Escrow event for which `snapshotEvents` attempts no insert at
all, so the inserts attempted (none) are not one per Transfer, Burn or Escrow
event (one). -/
theorem bare_escrow_event_is_not_inserted :
    convertEvent
        { TxHash := "h", Transfer := none, Burn := none
          Escrow := some { Add := none, Take := none, Reclaim := none } } = bareEscrowEvent ∧
      bareEscrowEvent.Escrow.isSome = true ∧
      (snapshotEvents acceptingDb (blockAt 5) [bareEscrowEvent]
        { attempts := [], failed := [] }).attempts = [] ∧
      (snapshotEvents acceptingDb (blockAt 5) [bareEscrowEvent]
          { attempts := [], failed := [] }).attempts.length
        ≠ ([bareEscrowEvent].filter StakingEvent.isTransferBurnEscrow).length := by
  decide

/-- C20, amended: for every block, `snapshotTransactions` attempts exactly one
`insertTransaction` per transaction, in list order, the payload of each being
encoded by `json.Marshal` (a transaction whose payload did not encode would be
passed over and the loop would go on), and `snapshotEvents` attempts one insert
(`insertTransfer`, `insertBurn` or `insertEscrowEvent`) for each event that is
a transfer, a burn or an escrow event with an add, take or reclaim part, and
none for the others; the attempts are made in list order, they are the same
whatever the database answers, and the attempts for a list followed by another
are those for the first followed by those for the second: a failed encode or
insert for one record never prevents the attempts for the records after
it. -/
theorem snapshot_attempts_per_record (marshal : Payload → Option (List Nat))
    (db : Query → Option String) (block : Block) (txs moreTxs : List Transaction)
    (events moreEvents : List StakingEvent) :
    (((∀ tx ∈ txs, encodes marshal tx = true) →
        (snapshotTransactions marshal db block txs { attempts := [], failed := [] }).attempts.length
          = txs.length ∧
        (snapshotTransactions marshal db block txs { attempts := [], failed := [] }).attempts.map
            (fun q => q.Args.head?)
          = txs.map (fun tx => some (Arg.str tx.Method))) ∧
      (snapshotTransactions marshal db block txs { attempts := [], failed := [] }).attempts
        = txs.filterMap (transactionStatement marshal block) ∧
      (snapshotTransactions marshal db block txs { attempts := [], failed := [] }).attempts.length
        = (txs.filter (encodes marshal)).length ∧
      (∀ q ∈ (snapshotTransactions marshal db block txs
          { attempts := [], failed := [] }).attempts, q.Query = "insertTransaction") ∧
      (∀ db2, (snapshotTransactions marshal db2 block txs { attempts := [], failed := [] }).attempts
        = (snapshotTransactions marshal db block txs { attempts := [], failed := [] }).attempts) ∧
      (snapshotTransactions marshal db block (txs ++ moreTxs)
          { attempts := [], failed := [] }).attempts
        = (snapshotTransactions marshal db block txs { attempts := [], failed := [] }).attempts
          ++ (snapshotTransactions marshal db block moreTxs
            { attempts := [], failed := [] }).attempts) ∧
    ((snapshotEvents db block events { attempts := [], failed := [] }).attempts
        = events.filterMap (eventStatement block) ∧
      (snapshotEvents db block events { attempts := [], failed := [] }).attempts.length
        = (events.filter StakingEvent.insertable).length ∧
      (∀ q ∈ (snapshotEvents db block events { attempts := [], failed := [] }).attempts,
        q.Query = "insertTransfer" ∨ q.Query = "insertBurn" ∨ q.Query = "insertEscrowEvent") ∧
      (∀ db2, (snapshotEvents db2 block events { attempts := [], failed := [] }).attempts
        = (snapshotEvents db block events { attempts := [], failed := [] }).attempts) ∧
      (snapshotEvents db block (events ++ moreEvents) { attempts := [], failed := [] }).attempts
        = (snapshotEvents db block events { attempts := [], failed := [] }).attempts
          ++ (snapshotEvents db block moreEvents { attempts := [], failed := [] }).attempts) := by
  have ht : ∀ (d : Query → Option String) (l : List Transaction),
      (snapshotTransactions marshal d block l { attempts := [], failed := [] }).attempts
        = l.filterMap (transactionStatement marshal block) := by
    intro d l
    rw [snapshotTransactions_attempts]
    rfl
  have he : ∀ (d : Query → Option String) (l : List StakingEvent),
      (snapshotEvents d block l { attempts := [], failed := [] }).attempts
        = l.filterMap (eventStatement block) := by
    intro d l
    rw [snapshotEvents_attempts]
    rfl
  refine ⟨⟨?_, ht db txs, ?_, ?_, ?_, ?_⟩, ⟨he db events, ?_, ?_, ?_, ?_⟩⟩
  · intro hall
    rw [ht]
    clear ht he
    induction txs with
    | nil => exact ⟨rfl, rfl⟩
    | cons tx rest ih =>
      have hrest := ih (fun x hx => hall x (List.mem_cons_of_mem _ hx))
      have htx := hall tx (List.mem_cons_self _ _)
      unfold encodes at htx
      cases hm : marshal tx.Payload with
      | none => simp [hm] at htx
      | some encodedTx =>
        simp only [List.filterMap_cons, transactionStatement, hm, List.length_cons, hrest.1,
          List.map_cons, hrest.2, List.head?_cons]
        exact ⟨trivial, trivial⟩
  · rw [ht]
    exact length_filterMap_eq_filter _ _ (fun tx => (transactionStatement_spec marshal block tx).1) _
  · intro q hq
    rw [ht, List.mem_filterMap] at hq
    obtain ⟨tx, _, h⟩ := hq
    exact (transactionStatement_spec marshal block tx).2 q h
  · intro db2
    rw [ht, ht]
  · rw [ht, ht, ht, List.filterMap_append]
  · rw [he]
    exact length_filterMap_eq_filter _ _ (fun e => (eventStatement_spec block e).1) _
  · intro q hq
    rw [he, List.mem_filterMap] at hq
    obtain ⟨e, _, h⟩ := hq
    exact (eventStatement_spec block e).2 q h
  · intro db2
    rw [he, he]
  · rw [he, he, he, List.filterMap_append]

/-- A run in which records fail: with a database that fails every statement,
both burn events around a bare escrow event are still attempted (and both
fail), and so are both of two transactions with an unknown payload, for which
`json.Marshal` writes the object `{}`. -/
theorem failed_records_do_not_stop_the_loops :
    (snapshotEvents refusingDb (blockAt 5) [burnEvent 3, bareEscrowEvent, burnEvent 4]
        { attempts := [], failed := [] }).attempts.map Query.Query
        = ["insertBurn", "insertBurn"] ∧
      (snapshotEvents refusingDb (blockAt 5) [burnEvent 3, bareEscrowEvent, burnEvent 4]
        { attempts := [], failed := [] }).failed.length = 2 ∧
      (snapshotTransactions (fun _ => some [123, 125]) refusingDb (blockAt 5)
        [unknownTransaction [], unknownTransaction [1]]
        { attempts := [], failed := [] }).attempts.map Query.Query
        = ["insertTransaction", "insertTransaction"] ∧
      (snapshotTransactions (fun _ => some [123, 125]) refusingDb (blockAt 5)
        [unknownTransaction [], unknownTransaction [1]]
        { attempts := [], failed := [] }).failed.length = 2 := by
  decide

/-! ## Payload variants -/

/-- The four method names that select a payload variant are pairwise
distinct. -/
theorem methods_distinct :
    [MethodTransfer, MethodAddEscrow, MethodBurn, MethodReclaimEscrow].Nodup := by
  decide

/-- What the body of the loop of `GetTransactions` yields for one raw
transaction that decodes. -/
theorem decodeTransaction_some (lib : Library) (raw : List Nat) (tx : Transaction)
    (h : decodeTransaction lib raw = Decoding.decoded tx) :
    ∃ signedTx decodeTx, lib.unmarshalSigned raw = some signedTx ∧
      lib.unmarshalTransaction signedTx.Blob = some decodeTx ∧
      tx.Method = decodeTx.Method ∧ tx.Sender = lib.NewAddress signedTx.PublicKey ∧
      (if decodeTx.Method = MethodTransfer then
          ∃ p, tx.Payload = Payload.transfer p ∧ p.From = tx.Sender
        else if decodeTx.Method = MethodAddEscrow then ∃ p, tx.Payload = Payload.addEscrow p
        else if decodeTx.Method = MethodBurn then
          ∃ p, tx.Payload = Payload.burn p ∧ p.From = tx.Sender
        else if decodeTx.Method = MethodReclaimEscrow then
          ∃ p, tx.Payload = Payload.reclaimEscrow p
        else tx.Payload = Payload.unknown { Payload := decodeTx.Body }) := by
  unfold decodeTransaction at h
  cases hs : lib.unmarshalSigned raw with
  | none => simp [hs] at h
  | some signedTx =>
    cases hd : lib.unmarshalTransaction signedTx.Blob with
    | none => simp [hs, hd] at h
    | some decodeTx =>
      refine ⟨signedTx, decodeTx, rfl, hd, ?_⟩
      simp only [hs, hd] at h
      cases hfee : decodeTx.Fee with
      | none => simp [hfee] at h
      | some fee =>
        simp only [hfee] at h
        split_ifs at h ⊢ with h1 h2 h3 h4
        · cases hp : lib.unmarshalTransfer decodeTx.Body with
          | none => rw [hp] at h; cases h
          | some p =>
            rw [hp] at h
            simp only [Decoding.decoded.injEq] at h
            subst h
            exact ⟨rfl, rfl, _, rfl, rfl⟩
        · cases hp : lib.unmarshalEscrow decodeTx.Body with
          | none => rw [hp] at h; cases h
          | some p =>
            rw [hp] at h
            simp only [Decoding.decoded.injEq] at h
            subst h
            exact ⟨rfl, rfl, _, rfl⟩
        · cases hp : lib.unmarshalBurn decodeTx.Body with
          | none => rw [hp] at h; cases h
          | some p =>
            rw [hp] at h
            simp only [Decoding.decoded.injEq] at h
            subst h
            exact ⟨rfl, rfl, _, rfl, rfl⟩
        · cases hp : lib.unmarshalReclaimEscrow decodeTx.Body with
          | none => rw [hp] at h; cases h
          | some p =>
            rw [hp] at h
            simp only [Decoding.decoded.injEq] at h
            subst h
            exact ⟨rfl, rfl, _, rfl⟩
        · simp only [Decoding.decoded.injEq] at h
          subst h
          exact ⟨rfl, rfl, rfl⟩

/-- Every transaction the loop of `GetTransactions` returns was held before or
is the decoding of one of the raw transactions. -/
theorem decodeTransactions_mem (lib : Library) (txs : List (List Nat)) :
    ∀ (decodedTxs result : List Transaction) (tx : Transaction),
      decodeTransactions lib txs decodedTxs = some result → tx ∈ result →
      tx ∈ decodedTxs ∨ ∃ raw ∈ txs, decodeTransaction lib raw = Decoding.decoded tx := by
  induction txs with
  | nil =>
    intro acc result tx hres h
    simp only [decodeTransactions, Option.some.injEq] at hres
    subst hres
    exact Or.inl h
  | cons raw rest ih =>
    intro acc result tx hres h
    simp only [decodeTransactions] at hres
    cases hd : decodeTransaction lib raw with
    | failed =>
      simp only [hd, Option.some.injEq] at hres
      subst hres
      cases h
    | nilFee => simp [hd] at hres
    | decoded d =>
      simp only [hd] at hres
      rcases ih _ result tx hres h with h1 | ⟨r, hr, hr2⟩
      · rcases List.mem_append.mp h1 with h2 | h2
        · exact Or.inl h2
        · simp only [List.mem_singleton] at h2
          subst h2
          exact Or.inr ⟨raw, List.mem_cons_self _ _, hd⟩
      · exact Or.inr ⟨r, List.mem_cons_of_mem _ hr, hr2⟩

/-- C23: the payload of every transaction returned by `GetTransactions` is the
variant selected by its `Method`.  A transaction of method `staking.Transfer`
holds a `TransferTx` whose `From` is the sender of the transaction,
`staking.AddEscrow` an `AddEscrowTx`, `staking.Burn` a `BurnTx` whose `From` is
the sender, `staking.ReclaimEscrow` a `ReclaimEscrowTx`, and a transaction of
any other method an `UnknownTx` holding the raw body of the transaction as the
node sent it; the four method names are pairwise distinct, so exactly one of
the five cases applies to a transaction, and conversely the variant held
tells which case applied. -/
theorem payload_selected_by_method {G : Type} (lib : Library)
    (fetch : Int → Option (List (List Nat))) (oasis : Oasis G) (txs : List Transaction)
    (tx : Transaction) (hret : oasis.GetTransactions lib fetch = some txs) (hmem : tx ∈ txs) :
    [MethodTransfer, MethodAddEscrow, MethodBurn, MethodReclaimEscrow].Nodup ∧
    (tx.Method = MethodTransfer ↔ ∃ p, tx.Payload = Payload.transfer p) ∧
    (tx.Method = MethodAddEscrow ↔ ∃ p, tx.Payload = Payload.addEscrow p) ∧
    (tx.Method = MethodBurn ↔ ∃ p, tx.Payload = Payload.burn p) ∧
    (tx.Method = MethodReclaimEscrow ↔ ∃ p, tx.Payload = Payload.reclaimEscrow p) ∧
    (tx.Method ∉ [MethodTransfer, MethodAddEscrow, MethodBurn, MethodReclaimEscrow] ↔
      ∃ p, tx.Payload = Payload.unknown p) ∧
    (∀ p, tx.Payload = Payload.transfer p → p.From = tx.Sender) ∧
    (∀ p, tx.Payload = Payload.burn p → p.From = tx.Sender) ∧
    (∀ p, tx.Payload = Payload.unknown p →
      ∃ st raws raw signedTx decodeTx, oasis.State = some st ∧ fetch st.Height = some raws ∧
        raw ∈ raws ∧ lib.unmarshalSigned raw = some signedTx ∧
        lib.unmarshalTransaction signedTx.Blob = some decodeTx ∧ p.Payload = decodeTx.Body) := by
  refine ⟨methods_distinct, ?_⟩
  unfold Oasis.GetTransactions Oasis.freezeChain at hret
  cases hst : oasis.State with
  | none => simp [hst] at hret
  | some st =>
    simp only [hst] at hret
    cases hf : fetch st.Height with
    | none =>
      simp only [hf, Option.some.injEq] at hret
      subst hret
      cases hmem
    | some raws =>
      simp only [hf] at hret
      rcases decodeTransactions_mem lib raws [] txs tx hret hmem with h0 | ⟨raw, hraw, hdec⟩
      · cases h0
      · obtain ⟨signedTx, decodeTx, hs, hd, hm, hsender, hp⟩ := decodeTransaction_some lib raw tx hdec
        rw [← hm] at hp
        have hne := methods_distinct
        simp only [List.nodup_cons, List.mem_cons, List.mem_singleton, List.not_mem_nil,
          not_or, List.nodup_nil, not_false_eq_true, and_true, or_false] at hne
        obtain ⟨⟨n12, n13, n14⟩, ⟨n23, n24⟩, n34⟩ := hne
        have m12 : ¬MethodAddEscrow = MethodTransfer := fun h => n12 h.symm
        have m13 : ¬MethodBurn = MethodTransfer := fun h => n13 h.symm
        have m14 : ¬MethodReclaimEscrow = MethodTransfer := fun h => n14 h.symm
        have m23 : ¬MethodBurn = MethodAddEscrow := fun h => n23 h.symm
        have m24 : ¬MethodReclaimEscrow = MethodAddEscrow := fun h => n24 h.symm
        have m34 : ¬MethodReclaimEscrow = MethodBurn := fun h => n34 h.symm
        split_ifs at hp with h1 h2 h3 h4
        · obtain ⟨p, hp1, hp2⟩ := hp
          simp only [h1, hp1, List.mem_cons, List.mem_singleton, List.not_mem_nil, true_or,
            not_true_eq_false, false_iff, not_exists, reduceCtorEq, not_false_eq_true,
            implies_true, exists_false, iff_false, Payload.transfer.injEq, exists_eq',
            n12, n13, n14, true_and, forall_eq', hp2, IsEmpty.forall_iff, and_true, true_iff]
        · obtain ⟨p, hp1⟩ := hp
          simp only [h2, hp1, List.mem_cons, List.mem_singleton, List.not_mem_nil, true_or, or_true,
            not_true_eq_false, false_iff, not_exists, reduceCtorEq, not_false_eq_true,
            implies_true, exists_false, iff_false, Payload.addEscrow.injEq, exists_eq',
            m12, n23, n24, true_and, forall_eq', IsEmpty.forall_iff, and_true, true_iff, and_self]
        · obtain ⟨p, hp1, hp2⟩ := hp
          simp only [h3, hp1, List.mem_cons, List.mem_singleton, List.not_mem_nil, true_or, or_true,
            not_true_eq_false, false_iff, not_exists, reduceCtorEq, not_false_eq_true,
            implies_true, exists_false, iff_false, Payload.burn.injEq, exists_eq',
            m13, m23, n34, true_and, forall_eq', hp2, IsEmpty.forall_iff, and_true, true_iff,
            and_self]
        · obtain ⟨p, hp1⟩ := hp
          simp only [h4, hp1, List.mem_cons, List.mem_singleton, List.not_mem_nil, true_or, or_true,
            not_true_eq_false, false_iff, not_exists, reduceCtorEq, not_false_eq_true,
            implies_true, exists_false, iff_false, Payload.reclaimEscrow.injEq, exists_eq',
            m14, m24, m34, true_and, forall_eq', IsEmpty.forall_iff, and_true, true_iff, and_self]
        · simp only [h1, h2, h3, h4, hp, List.mem_cons, List.mem_singleton, List.not_mem_nil,
            or_self, not_false_eq_true, false_iff, not_exists, reduceCtorEq,
            implies_true, exists_false, iff_false, Payload.unknown.injEq, exists_eq',
            true_and, forall_eq', IsEmpty.forall_iff, and_true, true_iff, and_self]
          exact ⟨st, raws, raw, signedTx, decodeTx, rfl, hf, hraw, hs, hd, rfl⟩

/-- Witness of C23: a block holding one transfer of 5 tokens. -/
theorem payload_selected_by_method_witness :
    ∃ txs tx, Oasis.GetTransactions sampleLibrary (fun _ => some [[5]]) (publishedAt 103)
        = some txs ∧ tx ∈ txs ∧
      tx.Method = MethodTransfer ∧ ∃ p, tx.Payload = Payload.transfer p ∧ p.From = tx.Sender :=
  ⟨_, _, rfl, List.mem_singleton.mpr rfl, rfl,
    ((payload_selected_by_method sampleLibrary (fun _ => some [[5]]) (publishedAt 103) _ _ rfl
      (List.mem_singleton.mpr rfl)).2.1.mp rfl).elim
      (fun p hp => ⟨p, hp,
        (payload_selected_by_method sampleLibrary (fun _ => some [[5]]) (publishedAt 103) _ _ rfl
          (List.mem_singleton.mpr rfl)).2.2.2.2.2.2.1 p hp⟩)⟩

/-! ## Page bounds -/

/-- Wrap-around of a product of two `uint64` values. -/
theorem wrapU64_mul (a b : Nat) :
    wrapU64 ((a : Int) * (b : Int)) = (a * b) % 18446744073709551616 := by
  have h : (a : Int) * (b : Int) = ((a * b : Nat) : Int) := by push_cast; rfl
  unfold wrapU64
  rw [h]
  omega

/-- Wrap-around of a sum of two `uint64` values. -/
theorem wrapU64_add (a b : Nat) :
    wrapU64 ((a : Int) + (b : Int)) = (a + b) % 18446744073709551616 := by
  unfold wrapU64
  omega

/-- The bounds computed by `PaginateList`, on numbers, for a list length below
`2^64`. -/
theorem PaginateList_eq (r : Request) (length : Nat) (hlen : length < 18446744073709551616) :
    middleware.PaginateList r length
      = (middleware.min
          (((middleware.GetPagination r).Page * (middleware.GetPagination r).Limit)
            % 18446744073709551616) length,
         middleware.min
          ((middleware.min
              (((middleware.GetPagination r).Page * (middleware.GetPagination r).Limit)
                % 18446744073709551616) length
            + (middleware.GetPagination r).Limit) % 18446744073709551616) length) := by
  have e1 : wrapU64 (length : Int) = length := by
    unfold wrapU64
    omega
  simp only [middleware.PaginateList, e1, wrapU64_mul, wrapU64_add]

/-- Both bounds computed by `PaginateList` are at most the length, and the
range is in order and at most `Limit` long when `from + Limit` does not wrap
around. -/
theorem PaginateList_le (r : Request) (length : Nat) (hlen : length < 18446744073709551616) :
    (middleware.PaginateList r length).1 ≤ length ∧
      (middleware.PaginateList r length).2 ≤ length ∧
      ((middleware.PaginateList r length).1 + (middleware.GetPagination r).Limit
          < 18446744073709551616 →
        (middleware.PaginateList r length).1 ≤ (middleware.PaginateList r length).2 ∧
        (middleware.PaginateList r length).2 - (middleware.PaginateList r length).1
          ≤ (middleware.GetPagination r).Limit) := by
  rw [PaginateList_eq r length hlen]
  generalize (middleware.GetPagination r).Limit = limit
  generalize ((middleware.GetPagination r).Page * limit) % 18446744073709551616 = offset
  simp only [middleware.min]
  refine ⟨?_, ?_, ?_⟩
  · split_ifs <;> omega
  · split_ifs <;> omega
  · intro h
    split_ifs at h ⊢ <;> omega

/-- C24, the defect: `from + pagination.Limit` is computed in `uint64` and
wraps around, after which `to` lies below `from`.  For the request
`?page=2&limit=18446744073709551615` (a limit of `2^64 - 1`) and a list of 10
accounts, `Paginate` stores page index 1 and that limit, `PaginateList`
returns `from = 10` and `to = 9`, and the slice expression
`accounts[from:to]` of `AccountList` panics.  What does hold for every page
index, limit and length: both bounds are at most the length, and whenever
`from + Limit` stays below `2^64` the range is in order and at most `Limit`
long. -/
theorem PaginateList_range_can_be_reversed :
    middleware.GetPagination wideRequest
        = { Height := 0, Limit := 18446744073709551615, Page := 1 } ∧
      middleware.PaginateList wideRequest (tenAccounts.length : Nat) = (10, 9) ∧
      endpoints.AccountList tenAccounts wideRequest = none ∧
      ∀ (r : Request) (length : Nat), length < 18446744073709551616 →
        (middleware.PaginateList r length).1 ≤ length ∧
        (middleware.PaginateList r length).2 ≤ length ∧
        ((middleware.PaginateList r length).1 + (middleware.GetPagination r).Limit
            < 18446744073709551616 →
          (middleware.PaginateList r length).1 ≤ (middleware.PaginateList r length).2 ∧
          (middleware.PaginateList r length).2 - (middleware.PaginateList r length).1
            ≤ (middleware.GetPagination r).Limit) := by
  refine ⟨by decide, by decide, by decide, PaginateList_le⟩

/-- C30: for the query parameter `page=0` (any text that parses to 0),
`Paginate` stores the page index `0 - 1` computed in `uint64`, which is
`2^64 - 1` and not 0; with that index, for every limit with
`1 <= Limit <= 2^63` and every list length below `2^63`, `PaginateList`
returns `from = to = length`: the empty range at the end of the list, not the
first page. -/
theorem page_zero_is_empty_page (r : Request) (hpage : ParseUint (r.Get "page") = some 0) :
    (middleware.GetPagination (middleware.Paginate r)).Page = 18446744073709551615 ∧
      ∀ (length : Nat),
        1 ≤ (middleware.GetPagination (middleware.Paginate r)).Limit →
        (middleware.GetPagination (middleware.Paginate r)).Limit ≤ 9223372036854775808 →
        length < 9223372036854775808 →
        middleware.PaginateList (middleware.Paginate r) length = (length, length) := by
  have hp : (middleware.GetPagination (middleware.Paginate r)).Page = 18446744073709551615 := by
    simp only [middleware.GetPagination, middleware.Paginate, middleware.defaultNumber, hpage,
      wrapU64]
    decide
  refine ⟨hp, ?_⟩
  intro length h1 h2 h3
  rw [PaginateList_eq _ length (by omega), hp]
  generalize (middleware.GetPagination (middleware.Paginate r)).Limit = limit at h1 h2
  simp only [middleware.min]
  have e : 18446744073709551615 * limit % 18446744073709551616 = 18446744073709551616 - limit := by
    omega
  rw [e]
  have c1 : ¬ (18446744073709551616 - limit < length) := by omega
  rw [if_neg c1]
  have c2 : ¬ ((length + limit) % 18446744073709551616 < length) := by omega
  rw [if_neg c2]

/-- Witness of C30: `?page=0` with the default limit of 50 and a list of 10
entries gives the range from 10 to 10. -/
theorem page_zero_is_empty_page_witness :
    (middleware.GetPagination
        (middleware.Paginate { query := [("page", "0")], pagination := none })).Page
        = 18446744073709551615 ∧
      middleware.PaginateList
        (middleware.Paginate { query := [("page", "0")], pagination := none }) (10 : Nat)
        = (10, 10) :=
  ⟨(page_zero_is_empty_page { query := [("page", "0")], pagination := none } (by decide)).1,
    (page_zero_is_empty_page { query := [("page", "0")], pagination := none } (by decide)).2 10
      (by decide) (by decide) (by decide)⟩

/-! ## Kind tags of escrow events -/

/-- C28, the defect: `snapshotEvents` inserts a Reclaim escrow event with the
kind tag "add", the tag of an Add event (a Take event gets "take", an Add
event "add").  For every reclaim event the one statement attempted is
`insertEscrowEvent` with first argument "add", and it is the very statement
attempted for the Add event with the same owner, escrow account, tokens and
hash: the two variants cannot be told apart in what is stored.  The same
holds for a reclaim event as it comes from the node through
`convertEvent`. -/
theorem reclaim_recorded_as_add (db : Query → Option String) (block : Block)
    (reclaim : ReclaimEscrowEvent) (take : TakeEscrowEvent) (add : AddEscrowEvent)
    (upstream : staking.ReclaimEscrowEvent) (hash : String) :
    (snapshotEvents db block [reclaimEvent reclaim] { attempts := [], failed := [] }).attempts
        = [{ Query := "insertEscrowEvent"
             Args := [Arg.str "add", Arg.str reclaim.Owner.text, Arg.str reclaim.Escrow.text,
               Arg.str (decimal reclaim.Tokens), Arg.str reclaim.Hash,
               Arg.int block.Height, Arg.time block.Time] }] ∧
      snapshotEvents db block [reclaimEvent reclaim] { attempts := [], failed := [] }
        = snapshotEvents db block
            [addEvent { Owner := reclaim.Owner, Escrow := reclaim.Escrow,
                        Tokens := reclaim.Tokens, Height := reclaim.Height,
                        Hash := reclaim.Hash }]
            { attempts := [], failed := [] } ∧
      (snapshotEvents db block [reclaimEvent reclaim] { attempts := [], failed := [] }).attempts.map
          kindTag = [some (Arg.str "add")] ∧
      (snapshotEvents db block [addEvent add] { attempts := [], failed := [] }).attempts.map
          kindTag = [some (Arg.str "add")] ∧
      (snapshotEvents db block [takeEvent take] { attempts := [], failed := [] }).attempts.map
          kindTag = [some (Arg.str "take")] ∧
      (snapshotEvents db block
          [convertEvent
            { TxHash := hash, Transfer := none, Burn := none
              Escrow := some { Add := none, Take := none, Reclaim := some upstream } }]
          { attempts := [], failed := [] }).attempts.map kindTag = [some (Arg.str "add")] := by
  refine ⟨?_, ?_, ?_, ?_, ?_, ?_⟩ <;>
    simp only [snapshotEvents, reclaimEvent, addEvent, takeEvent, convertEvent, Persisted.exec] <;>
    split <;> rfl

/-! ## Sizes of the batches -/

/-- A turn of the worker does not change `syncAt`. -/
theorem worker_syncAt (env : Env) (w : World) : (worker env w).inlet.syncAt = w.inlet.syncAt := by
  unfold worker batchToDB batchToDisk
  simp only []
  split_ifs <;> (try split) <;> (try split) <;> rfl

/-- The queries of batches that all hold `k` queries. -/
theorem length_flatten_of_uniform {α : Type} (k : Nat) (l : List (List α))
    (h : ∀ b ∈ l, b.length = k) : l.flatten.length = l.length * k := by
  induction l with
  | nil => simp
  | cons b l ih =>
    simp only [List.flatten_cons, List.length_append, List.length_cons]
    rw [ih (fun c hc => h c (List.mem_cons_of_mem _ hc)), h b (List.mem_cons_self _ _)]
    ring

/-- One action keeps the sizes right: `syncAt` stays, every sealed batch holds
`syncAt` queries, and the pending batch holds fewer. -/
theorem step_sizes (k : Nat) (w : World) (a : Action) (hk : w.inlet.syncAt = (k : Int))
    (hs : ∀ b ∈ w.started ++ w.inlet.channel, b.length = k)
    (hp : w.inlet.queries.length < k) :
    (step w a).inlet.syncAt = (k : Int) ∧
      (∀ b ∈ (step w a).started ++ (step w a).inlet.channel, b.length = k) ∧
      (step w a).inlet.queries.length < k := by
  cases a with
  | push query args =>
    simp only [step, PushQuery]
    split
    · rename_i heq
      refine ⟨hk, ?_, by simp only [List.length_nil]; omega⟩
      intro b hb
      simp only [List.mem_append, List.mem_singleton] at hb
      rcases hb with hb | hb | hb
      · exact hs b (List.mem_append.mpr (Or.inl hb))
      · exact hs b (List.mem_append.mpr (Or.inr hb))
      · subst hb
        rw [hk] at heq
        exact_mod_cast heq
    · rename_i hne
      refine ⟨hk, hs, ?_⟩
      rw [hk] at hne
      simp only [List.length_append, List.length_cons, List.length_nil] at hne ⊢
      have : ¬ (w.inlet.queries.length + 1 = k) := fun h => hne (by exact_mod_cast h)
      omega
  | flush env =>
    simp only [step]
    obtain ⟨hq, hw⟩ := worker_takes_oldest env w
    refine ⟨by rw [worker_syncAt, hk], ?_, by rw [hq]; exact hp⟩
    rcases hw with ⟨h1, h2⟩ | ⟨batch, rest, hc, h1, h2⟩
    · rw [h1, h2]
      exact hs
    · rw [h1, h2]
      intro b hb
      apply hs b
      rw [hc]
      simpa using hb

/-- Sizes over a sequence of actions. -/
theorem run_sizes (k : Nat) (actions : List Action) :
    ∀ (w : World), w.inlet.syncAt = (k : Int) →
      (∀ b ∈ w.started ++ w.inlet.channel, b.length = k) → w.inlet.queries.length < k →
      (∀ b ∈ (run w actions).started ++ (run w actions).inlet.channel, b.length = k) ∧
      (run w actions).inlet.queries.length < k := by
  induction actions with
  | nil => intro w _ hs hp; exact ⟨hs, hp⟩
  | cons a rest ih =>
    intro w hk hs hp
    obtain ⟨h1, h2, h3⟩ := step_sizes k w a hk hs hp
    exact ih (step w a) h1 h2 h3

/-- Pushing a list of queries is a run of `PushQuery` calls. -/
theorem pushAll_eq_run (qs : List Query) :
    ∀ (w : World), pushAll w qs = run w (qs.map (fun q => Action.push q.Query q.Args)) := by
  induction qs with
  | nil => intro w; rfl
  | cons q qs ih =>
    intro w
    exact ih (PushQuery w q.Query q.Args)

/-- The queries pushed by a run of `PushQuery` calls. -/
theorem pushed_map_push (qs : List Query) :
    pushed (qs.map (fun q => Action.push q.Query q.Args)) = qs := by
  induction qs with
  | nil => rfl
  | cons q qs ih => simp [pushed, ih]

/-- C25: for every `syncAt = k >= 1`, from the inlet as constructed, after
every sequence of actions (`PushQuery` calls, with turns of the flush worker
anywhere between them) holding `n` calls of `PushQuery`, exactly `n div k`
batches have been sealed (those received by the worker and those waiting in
the channel), every sealed batch holds exactly `k` queries, and the pending
batch holds `n mod k` queries, which is fewer than `k`; in particular after
`n` calls of `PushQuery` alone the channel holds `n div k` batches of `k`
queries each and the pending batch holds `n mod k` queries. -/
theorem sealed_batches_hold_syncAt (now : Time) (k : Nat) (hk : 1 ≤ k)
    (errHandler : String → String) (writeHandler : Nat → Batch → Option String)
    (actions : List Action) (qs : List Query) :
    (((run (newInlet now k errHandler writeHandler) actions).started
        ++ (run (newInlet now k errHandler writeHandler) actions).inlet.channel).length
        = (pushed actions).length / k ∧
      (∀ b ∈ (run (newInlet now k errHandler writeHandler) actions).started
          ++ (run (newInlet now k errHandler writeHandler) actions).inlet.channel,
        b.length = k) ∧
      (run (newInlet now k errHandler writeHandler) actions).inlet.queries.length
        = (pushed actions).length % k ∧
      (run (newInlet now k errHandler writeHandler) actions).inlet.queries.length < k) ∧
    ((pushAll (newInlet now k errHandler writeHandler) qs).inlet.channel.length = qs.length / k ∧
      (∀ b ∈ (pushAll (newInlet now k errHandler writeHandler) qs).inlet.channel, b.length = k) ∧
      (pushAll (newInlet now k errHandler writeHandler) qs).inlet.queries.length
        = qs.length % k ∧
      (pushAll (newInlet now k errHandler writeHandler) qs).started = []) := by
  have main : ∀ (acts : List Action),
      ((run (newInlet now k errHandler writeHandler) acts).started
        ++ (run (newInlet now k errHandler writeHandler) acts).inlet.channel).length
        = (pushed acts).length / k ∧
      (∀ b ∈ (run (newInlet now k errHandler writeHandler) acts).started
          ++ (run (newInlet now k errHandler writeHandler) acts).inlet.channel,
        b.length = k) ∧
      (run (newInlet now k errHandler writeHandler) acts).inlet.queries.length
        = (pushed acts).length % k ∧
      (run (newInlet now k errHandler writeHandler) acts).inlet.queries.length < k := by
    intro acts
    obtain ⟨hs, hp⟩ := run_sizes k acts (newInlet now k errHandler writeHandler) rfl
      (by intro b hb; simp [newInlet] at hb) (by simp only [newInlet, List.length_nil]; omega)
    have hh := (run_history acts (newInlet now k errHandler writeHandler)).2.2
    have e1 : (newInlet now k errHandler writeHandler).started = [] := rfl
    have e2 : (newInlet now k errHandler writeHandler).inlet.channel = [] := rfl
    have e3 : (newInlet now k errHandler writeHandler).inlet.queries = [] := rfl
    rw [e1, e2, e3] at hh
    have hlen := congrArg List.length hh
    simp only [List.length_append, length_flatten_of_uniform k _ hs, List.append_nil,
      List.flatten_nil, List.length_nil, Nat.zero_add] at hlen
    have hdm := (Nat.div_mod_unique (by omega : 0 < k)).mpr
      ⟨(by rw [← hlen]; ring :
          (run (newInlet now k errHandler writeHandler) acts).inlet.queries.length
            + k * ((run (newInlet now k errHandler writeHandler) acts).started.length
              + (run (newInlet now k errHandler writeHandler) acts).inlet.channel.length)
            = (pushed acts).length), hp⟩
    refine ⟨?_, hs, hdm.2.symm, hp⟩
    rw [List.length_append]
    exact hdm.1.symm
  refine ⟨main actions, ?_⟩
  have hm := main (qs.map (fun q => Action.push q.Query q.Args))
  rw [← pushAll_eq_run, pushed_map_push] at hm
  have hstarted : ∀ (l : List Query) (w : World), (pushAll w l).started = w.started := by
    intro l
    induction l with
    | nil => intro w; rfl
    | cons q l ih =>
      intro w
      show (pushAll (PushQuery w q.Query q.Args) l).started = w.started
      rw [ih, (PushQuery_frame w q.Query q.Args).2.1]
  have hst : (pushAll (newInlet now k errHandler writeHandler) qs).started = [] := by
    rw [hstarted]
    rfl
  rw [hst] at hm
  simp only [List.nil_append] at hm
  exact ⟨hm.1, hm.2.1, hm.2.2.1, hst⟩

/-- Witness of C25: seven queries pushed into an inlet with `syncAt = 3` make
two sealed batches and leave one query pending. -/
theorem sealed_batches_hold_syncAt_witness :
    (pushAll (newInlet { nanos := 0, offset := 0 } (3 : Nat) (fun err => err) acceptingHandler)
        (sampleQueries ++ sampleQueries ++ [{ Query := "insertBurn", Args := [] }])).inlet.channel.length
        = 2 ∧
      (pushAll (newInlet { nanos := 0, offset := 0 } (3 : Nat) (fun err => err) acceptingHandler)
        (sampleQueries ++ sampleQueries ++ [{ Query := "insertBurn", Args := [] }])).inlet.queries.length
        = 1 :=
  ⟨(sealed_batches_hold_syncAt { nanos := 0, offset := 0 } 3 (by decide) (fun err => err)
      acceptingHandler [] (sampleQueries ++ sampleQueries ++ [{ Query := "insertBurn", Args := [] }])).2.1,
    (sealed_batches_hold_syncAt { nanos := 0, offset := 0 } 3 (by decide) (fun err => err)
      acceptingHandler [] (sampleQueries ++ sampleQueries ++ [{ Query := "insertBurn", Args := [] }])).2.2.2.1⟩

/-! ## The snapshot stage -/

section StageTheorems

variable {E T : Type}

/-- For a `next` in UTC, `isDailyBlock` holds exactly when `previous` falls on
an earlier UTC day. -/
theorem isDailyBlock_utc (previous next : Time) (hn : next.offset = 0) :
    isDailyBlock previous next = true ↔ utcDay previous < utcDay next := by
  rw [isDailyBlock_iff, midnightOfDate_utc next hn]
  simp only [utcDay, Time.nanosPerDay]
  omega

/-- The UTC day does not decrease with the instant. -/
theorem utcDay_mono (t u : Time) (h : t.nanos ≤ u.nanos) : utcDay t ≤ utcDay u := by
  simp only [utcDay, Time.nanosPerDay]
  omega

/-- Processing one more snapshot. -/
theorem processAll_concat (self : SnapshotIterator) (l : List (StateSnapshot E T))
    (s : StateSnapshot E T) :
    processAll self (l ++ [s])
      = (((processAll self l).1.Process s).1,
         (processAll self l).2 ++ ((processAll self l).1.Process s).2) := by
  simp [processAll, List.foldl_append]

/-- After a snapshot, `lastObserved` is its block time. -/
theorem processAll_lastObserved (self : SnapshotIterator) (l : List (StateSnapshot E T))
    (s : StateSnapshot E T) : (processAll self (l ++ [s])).1.lastObserved = s.Block.Time := by
  rw [processAll_concat]
  rfl

/-- The sweeps of two sequences of calls in a row. -/
theorem sweeps_append (a b : List (StageCall E T)) : sweeps (a ++ b) = sweeps a ++ sweeps b := by
  induction a with
  | nil => rfl
  | cons c a ih => cases c <;> simp [sweeps, ih]

/-- The sweep launched by one call of `Process`, if any. -/
theorem sweeps_Process (self : SnapshotIterator) (s : StateSnapshot E T) :
    sweeps (self.Process s).2
      = if isDailyBlock self.lastObserved s.Block.Time then [s.Block] else [] := by
  unfold SnapshotIterator.Process
  simp only []
  split <;> rfl

/-- Every sweep launched belongs to one of the snapshots processed. -/
theorem sweeps_processAll_mem (self : SnapshotIterator) (l : List (StateSnapshot E T)) :
    ∀ block ∈ sweeps (processAll self l).2, ∃ s ∈ l, s.Block = block := by
  induction l using List.reverseRecOn with
  | nil => intro block h; cases h
  | append_singleton l s ih =>
    intro block h
    rw [processAll_concat, sweeps_append, sweeps_Process] at h
    rcases List.mem_append.mp h with h | h
    · obtain ⟨s1, hs1, e⟩ := ih block h
      exact ⟨s1, List.mem_append.mpr (Or.inl hs1), e⟩
    · split at h
      · simp only [List.mem_singleton] at h
        exact ⟨s, by simp, h.symm⟩
      · cases h

/-- The UTC days of the sweeps launched over a sequence of snapshots with UTC
block times that do not decrease are strictly increasing. -/
theorem sweeps_days_increasing (self : SnapshotIterator) (l : List (StateSnapshot E T)) :
    (∀ s ∈ l, s.Block.Time.offset = 0) →
    l.Pairwise (fun a b => a.Block.Time.nanos ≤ b.Block.Time.nanos) →
    ((sweeps (processAll self l).2).map (fun block => utcDay block.Time)).Pairwise (· < ·) := by
  induction l using List.reverseRecOn with
  | nil => intro _ _; exact List.Pairwise.nil
  | append_singleton l s ih =>
    intro hutc hmono
    rw [List.pairwise_append] at hmono
    obtain ⟨hl, _, hls⟩ := hmono
    have ih1 := ih (fun x hx => hutc x (List.mem_append.mpr (Or.inl hx))) hl
    rw [processAll_concat, sweeps_append, sweeps_Process, List.map_append, List.pairwise_append]
    refine ⟨ih1, ?_, ?_⟩
    · split <;> simp
    · intro d hd e he
      split at he
      · rename_i hdaily
        simp only [List.map_cons, List.map_nil, List.mem_singleton] at he
        subst he
        obtain ⟨block, hb, rfl⟩ := List.mem_map.mp hd
        obtain ⟨s1, hs1, rfl⟩ := sweeps_processAll_mem self l block hb
        have hs : s.Block.Time.offset = 0 := hutc s (by simp)
        rw [isDailyBlock_utc _ _ hs] at hdaily
        rcases List.eq_nil_or_concat l with hnil | ⟨init, c, hc⟩
        · subst hnil
          cases hs1
        · rw [List.concat_eq_append] at hc
          subst hc
          rw [processAll_lastObserved] at hdaily
          have hle : s1.Block.Time.nanos ≤ c.Block.Time.nanos := by
            rcases List.mem_append.mp hs1 with h | h
            · exact (List.pairwise_append.mp hl).2.2 s1 h c (by simp)
            · simp only [List.mem_singleton] at h
              subst h
              exact le_refl _
          exact lt_of_le_of_lt (utcDay_mono _ _ hle) hdaily
      · cases he

/-- C26: for every sequence of snapshots with UTC block times that do not
decrease, processed by one `SnapshotIterator` (whatever its `lastObserved` at
the start): after each snapshot `lastObserved` is the block time of that
snapshot; a block processed after another block of the same UTC day does not
satisfy `isDailyBlock` and launches no sweep, so only the first block of a UTC
day can; and the UTC days of the sweeps launched are strictly increasing, so
there is at most one sweep per UTC day. -/
theorem sweep_at_most_once_per_day (self : SnapshotIterator)
    (snapshots : List (StateSnapshot E T))
    (hutc : ∀ s ∈ snapshots, s.Block.Time.offset = 0)
    (hmono : snapshots.Pairwise (fun a b => a.Block.Time.nanos ≤ b.Block.Time.nanos)) :
    (∀ pre s post, snapshots = pre ++ s :: post →
        (processAll self (pre ++ [s])).1.lastObserved = s.Block.Time) ∧
      (∀ pre a mid b post, snapshots = pre ++ a :: (mid ++ b :: post) →
        utcDay a.Block.Time = utcDay b.Block.Time →
        isDailyBlock (processAll self (pre ++ a :: mid)).1.lastObserved b.Block.Time = false ∧
        sweeps ((processAll self (pre ++ a :: mid)).1.Process b).2 = []) ∧
      ((sweeps (processAll self snapshots).2).map
        (fun block => utcDay block.Time)).Pairwise (· < ·) := by
  refine ⟨fun pre s _ _ => processAll_lastObserved self pre s, ?_,
    sweeps_days_increasing self snapshots hutc hmono⟩
  intro pre a mid b post hsplit hday
  subst hsplit
  have hb : b.Block.Time.offset = 0 := hutc b (by simp)
  have hnot : isDailyBlock (processAll self (pre ++ a :: mid)).1.lastObserved b.Block.Time
      = false := by
    rw [← Bool.not_eq_true, isDailyBlock_utc _ _ hb]
    have hm1 := (List.pairwise_append.mp hmono).2.1
    rcases List.eq_nil_or_concat (a :: mid) with hnil | ⟨init, c, hc⟩
    · cases hnil
    · rw [List.concat_eq_append] at hc
      have hcm : c ∈ a :: mid := by rw [hc]; simp
      have e : pre ++ a :: mid = (pre ++ init) ++ [c] := by rw [hc]; simp
      rw [e, processAll_lastObserved]
      have hcb : c.Block.Time.nanos ≤ b.Block.Time.nanos := by
        rcases List.mem_cons.mp hcm with h | h
        · subst h
          exact (List.pairwise_cons.mp hm1).1 b (by simp)
        · have hm2 := (List.pairwise_cons.mp hm1).2
          exact (List.pairwise_append.mp hm2).2.2 c h b (by simp)
      have hac : a.Block.Time.nanos ≤ c.Block.Time.nanos := by
        rcases List.mem_cons.mp hcm with h | h
        · subst h
          exact le_refl _
        · exact (List.pairwise_cons.mp hm1).1 c (by simp [h])
      have h1 := utcDay_mono _ _ hcb
      have h2 := utcDay_mono _ _ hac
      omega
  refine ⟨hnot, ?_⟩
  rw [sweeps_Process, hnot]
  rfl

end StageTheorems

/-- Witness of C26: of three snapshots observed at 23:59:00 of 2023-01-01 and
at 00:00:30 and 12:00:00 of 2023-01-02, the third comes after another block
of its day and is not a daily block. -/
theorem sweep_at_most_once_per_day_witness :
    isDailyBlock
        (processAll NewSnapshotIterator
          [snapshotAt 1 (Time.Date 2023 1 1 23 59 0 0),
           snapshotAt 2 (Time.Date 2023 1 2 0 0 30 0)]).1.lastObserved
        (snapshotAt 3 (Time.Date 2023 1 2 12 0 0 0)).Block.Time = false :=
  ((sweep_at_most_once_per_day NewSnapshotIterator threeSnapshots (by decide)
      (List.Pairwise.cons (by decide) (List.Pairwise.cons (by decide)
        (List.Pairwise.cons (by decide) List.Pairwise.nil)))).2.1
    [snapshotAt 1 (Time.Date 2023 1 1 23 59 0 0)] (snapshotAt 2 (Time.Date 2023 1 2 0 0 30 0)) []
    (snapshotAt 3 (Time.Date 2023 1 2 12 0 0 0)) [] rfl (by decide)).1

/-- C27: the first snapshot processed by a freshly constructed
`SnapshotIterator` launches the daily sweep.  Its `lastObserved` is the zero
value, 0001-01-01 00:00:00 UTC, and for every UTC block time on or after
0001-01-02 00:00:00 UTC, whatever its time of day, `isDailyBlock` is true and
`Process` launches the sweep for the block of the snapshot. -/
theorem first_snapshot_triggers_sweep {E T : Type} (snapshot : StateSnapshot E T)
    (hutc : snapshot.Block.Time.offset = 0)
    (hday : (Time.Date 1 1 2 0 0 0 0).nanos ≤ snapshot.Block.Time.nanos) :
    NewSnapshotIterator.lastObserved = Time.Date 1 1 1 0 0 0 0 ∧
      isDailyBlock NewSnapshotIterator.lastObserved snapshot.Block.Time = true ∧
      sweeps (NewSnapshotIterator.Process snapshot).2 = [snapshot.Block] := by
  have hdaily : isDailyBlock NewSnapshotIterator.lastObserved snapshot.Block.Time = true := by
    rw [isDailyBlock_utc _ _ hutc]
    have h2 : (Time.Date 1 1 2 0 0 0 0).nanos = -62135510400000000000 := by decide
    rw [h2] at hday
    simp only [utcDay, Time.nanosPerDay, NewSnapshotIterator, Time.zero]
    omega
  refine ⟨by decide, hdaily, ?_⟩
  rw [sweeps_Process, hdaily]
  rfl

/-- Witness of C27: a first block observed at 17:45:10 of 2023-01-02. -/
theorem first_snapshot_triggers_sweep_witness :
    sweeps (NewSnapshotIterator.Process (snapshotAt 7 (Time.Date 2023 1 2 17 45 10 0))).2
      = [(snapshotAt 7 (Time.Date 2023 1 2 17 45 10 0)).Block] :=
  (first_snapshot_triggers_sweep (snapshotAt 7 (Time.Date 2023 1 2 17 45 10 0)) rfl
    (by decide)).2.2

/-! ## The account sweep -/

/-- The loop of `snapshotState` when the divisor of the progress computation
is not zero: every record is pushed. -/
theorem sweep_finished (frozenAPI : API) (env : SweepEnv) (block : Block) (total : Nat)
    (htotal : total / 20 ≠ 0) :
    ∀ (addresses : List Address) (i : Nat) (w : World),
      sweep frozenAPI env block total addresses i w
        = Outcome.finished (pushAll w ((addresses.enumFrom i).filterMap
            (fun p => snapshotRecord frozenAPI env block p.1 p.2))) := by
  intro addresses
  induction addresses with
  | nil => intro i w; rfl
  | cons address rest ih =>
    intro i w
    simp only [sweep, List.enumFrom_cons, List.filterMap_cons]
    cases hr : snapshotRecord frozenAPI env block i address with
    | none => exact ih (i + 1) w
    | some q =>
      simp only [htotal, if_false]
      exact ih (i + 1) _

/-- The loop of `snapshotState` when the divisor of the progress computation
is zero: the first record is pushed and the loop panics. -/
theorem sweep_faults (frozenAPI : API) (env : SweepEnv) (block : Block) (total : Nat)
    (htotal : total / 20 = 0) :
    ∀ (addresses : List Address) (i : Nat) (w : World),
      sweep frozenAPI env block total addresses i w
        = match (addresses.enumFrom i).filterMap
            (fun p => snapshotRecord frozenAPI env block p.1 p.2) with
          | [] => Outcome.finished w
          | q :: _ => Outcome.divideByZero (PushQuery w q.Query q.Args) := by
  intro addresses
  induction addresses with
  | nil => intro i w; rfl
  | cons address rest ih =>
    intro i w
    simp only [sweep, List.enumFrom_cons, List.filterMap_cons]
    cases hr : snapshotRecord frozenAPI env block i address with
    | none => exact ih (i + 1) w
    | some q => simp only [htotal, if_true]

/-- The query the loop of `snapshotState` pushes for an address, and when. -/
theorem snapshotRecord_eq_some (frozenAPI : API) (env : SweepEnv) (block : Block) (i : Nat)
    (address : Address) (q : Query) :
    snapshotRecord frozenAPI env block i address = some q ↔
      ∃ mappedAccount encodedDelegations stakedJson debondingJson tokens,
        frozenAPI.Account i address = some mappedAccount ∧
        env.marshalDelegations (frozenAPI.AccountDelegations i address)
          = some encodedDelegations ∧
        env.marshalPool mappedAccount.StakedBalance = some stakedJson ∧
        env.marshalPool mappedAccount.DebondingBalance = some debondingJson ∧
        env.queryGetLastRewardBalance address.text block.Height = some (some tokens) ∧
        q = { Query := "insertSnapshot"
              Args := [Arg.str address.text, Arg.str mappedAccount.Balance,
                Arg.bytes stakedJson, Arg.bytes debondingJson, Arg.int tokens,
                Arg.bytes encodedDelegations, Arg.bool false, Arg.bool false,
                Arg.int block.Height, Arg.time block.Time] } := by
  simp only [snapshotRecord]
  cases h1 : frozenAPI.Account i address with
  | none => simp
  | some mappedAccount =>
    cases h2 : env.marshalDelegations (frozenAPI.AccountDelegations i address) with
    | none => simp
    | some encodedDelegations =>
      cases h3 : env.marshalPool mappedAccount.StakedBalance with
      | none => simp [h3]
      | some stakedJson =>
        cases h4 : env.marshalPool mappedAccount.DebondingBalance with
        | none => simp [h3, h4]
        | some debondingJson =>
          cases h5 : env.queryGetLastRewardBalance address.text block.Height with
          | none => simp [h3, h4]
          | some row =>
            cases row with
            | none => simp [h3, h4]
            | some tokens =>
              simp only [Option.some.injEq, exists_and_left, exists_eq_left', h3, h4]
              exact eq_comm

/-- Function `snapshotState` on a handle that `AtHeight` returns. -/
theorem snapshotState_eq (api : Int → Option API) (env : SweepEnv) (block : Block) (w : World)
    (frozenAPI : API) (hapi : api block.Height = some frozenAPI) :
    snapshotState api env block w
      = sweep frozenAPI env block frozenAPI.Accounts.length frozenAPI.Accounts 0 w := by
  simp only [snapshotState, hapi]

/-- C21 fails as stated: with twenty addresses of which one ("7") has no last
reward balance in the database, the sweep returns having enqueued nineteen
`insertSnapshot` writes, none for that address. -/
theorem address_without_reward_row_gets_no_write :
    (sweepAPI twentyAddresses).Accounts.length = 20 ∧
      ∃ w, snapshotState (fun _ => some (sweepAPI twentyAddresses)) sweepEnv (blockAt 5)
            acceptingInlet = Outcome.finished w ∧
        (writtenFor w).length = 19 ∧
        some (Arg.str "7") ∉ writtenFor w ∧
        some (Arg.str "6") ∈ writtenFor w ∧ some (Arg.str "8") ∈ writtenFor w := by
  refine ⟨by decide,
    pushAll acceptingInlet ((twentyAddresses.enumFrom 0).filterMap
      (fun p => snapshotRecord (sweepAPI twentyAddresses) sweepEnv (blockAt 5) p.1 p.2)), ?_, ?_⟩
  · rw [snapshotState_eq _ _ _ _ (sweepAPI twentyAddresses) rfl,
      sweep_finished _ _ _ _ (by decide)]
    rfl
  · decide

/-- C21, amended: on the handle that `AtHeight(block.Height)` returns, with
at least 20 addresses returned by `Accounts`, `snapshotState` enqueues (calls
`PushQuery` for) exactly one `insertSnapshot` write for each address for
which `Account` succeeds, the delegations and the two pools encode, and the
database has a last reward balance, and none for any other address, in
address order, and returns; each write carries the text of the address, the
balance of the account, its encoded staked and debonding pools, the reward
balance, the encoded delegations, two `false` flags, and the height and time
of the block. -/
theorem snapshotState_writes (api : Int → Option API) (env : SweepEnv) (block : Block)
    (w : World) (frozenAPI : API) (hapi : api block.Height = some frozenAPI)
    (hlen : 20 ≤ frozenAPI.Accounts.length) :
    snapshotState api env block w
        = Outcome.finished (pushAll w (frozenAPI.Accounts.enum.filterMap
            (fun p => snapshotRecord frozenAPI env block p.1 p.2))) ∧
      (∀ i address q, snapshotRecord frozenAPI env block i address = some q ↔
        ∃ mappedAccount encodedDelegations stakedJson debondingJson tokens,
          frozenAPI.Account i address = some mappedAccount ∧
          env.marshalDelegations (frozenAPI.AccountDelegations i address)
            = some encodedDelegations ∧
          env.marshalPool mappedAccount.StakedBalance = some stakedJson ∧
          env.marshalPool mappedAccount.DebondingBalance = some debondingJson ∧
          env.queryGetLastRewardBalance address.text block.Height = some (some tokens) ∧
          q = { Query := "insertSnapshot"
                Args := [Arg.str address.text, Arg.str mappedAccount.Balance,
                  Arg.bytes stakedJson, Arg.bytes debondingJson, Arg.int tokens,
                  Arg.bytes encodedDelegations, Arg.bool false, Arg.bool false,
                  Arg.int block.Height, Arg.time block.Time] }) := by
  rw [snapshotState_eq api env block w frozenAPI hapi]
  exact ⟨sweep_finished _ _ _ _ (by omega) _ _ _, snapshotRecord_eq_some frozenAPI env block⟩

/-- Witness of the amended C21: the twenty addresses "0" to "19", of which
"7" has no last reward balance. -/
theorem snapshotState_writes_witness :
    snapshotState (fun _ => some (sweepAPI twentyAddresses)) sweepEnv (blockAt 5) acceptingInlet
      = Outcome.finished (pushAll acceptingInlet ((sweepAPI twentyAddresses).Accounts.enum.filterMap
          (fun p => snapshotRecord (sweepAPI twentyAddresses) sweepEnv (blockAt 5) p.1 p.2))) :=
  (snapshotState_writes (fun _ => some (sweepAPI twentyAddresses)) sweepEnv (blockAt 5)
    acceptingInlet (sweepAPI twentyAddresses) rfl (by decide)).1

/-- C29, the defect: the divisor `len(addresses)/20` is zero for every list
of fewer than 20 addresses, and `i % (len(addresses)/20)` is evaluated right
after the first `PushQuery` call.  With a single address that has an account
and a reward balance, `snapshotState` enqueues its write and then panics with
an integer division by zero; so does every sweep over fewer than 20 addresses
as soon as one address is written, and only sweeps over at least 20 addresses,
or over addresses none of which is written, return. -/
theorem snapshotState_divides_by_zero :
    snapshotState (fun _ => some (sweepAPI [{ text := "0" }])) sweepEnv (blockAt 5) acceptingInlet
        = Outcome.divideByZero
            (PushQuery acceptingInlet "insertSnapshot"
              [Arg.str "0", Arg.str "100", Arg.bytes [123, 125], Arg.bytes [123, 125], Arg.int 0,
               Arg.bytes [110, 117, 108, 108], Arg.bool false, Arg.bool false, Arg.int 5,
               Arg.time { nanos := 0, offset := 0 }]) ∧
      ∀ (api : Int → Option API) (env : SweepEnv) (block : Block) (w : World) (frozenAPI : API),
        api block.Height = some frozenAPI →
        ((∃ w1, snapshotState api env block w = Outcome.divideByZero w1) ↔
          frozenAPI.Accounts.length < 20 ∧
            ∃ p ∈ frozenAPI.Accounts.enum,
              (snapshotRecord frozenAPI env block p.1 p.2).isSome = true) := by
  refine ⟨rfl, ?_⟩
  intro api env block w frozenAPI hapi
  rw [snapshotState_eq api env block w frozenAPI hapi]
  by_cases hlen : frozenAPI.Accounts.length < 20
  · rw [sweep_faults _ _ _ _ (by omega)]
    unfold List.enum
    cases hrec : (List.enumFrom 0 frozenAPI.Accounts).filterMap
        (fun p => snapshotRecord frozenAPI env block p.1 p.2) with
    | nil =>
      simp only [reduceCtorEq, exists_false, hlen, true_and, false_iff, not_exists, not_and]
      intro p hp hsome
      rw [List.filterMap_eq_nil_iff] at hrec
      rw [hrec p hp] at hsome
      cases hsome
    | cons q rest =>
      simp only [Outcome.divideByZero.injEq, exists_eq', hlen, true_and, true_iff]
      have hq : q ∈ (List.enumFrom 0 frozenAPI.Accounts).filterMap
          (fun p => snapshotRecord frozenAPI env block p.1 p.2) := by rw [hrec]; simp
      obtain ⟨p, hp, hpq⟩ := List.mem_filterMap.mp hq
      exact ⟨p, hp, by rw [hpq]; rfl⟩
  · rw [sweep_finished _ _ _ _ (by omega)]
    simp [hlen]

/-! ## Failed fetches in the watch loop -/

end Hippias
